import Mathlib

/-!
# Verification of the dbms storage engine core

A shallow embedding of the storage engine (buffer pool, extendible hash
index, B+ tree, page codecs, heap pages) of the `dbms` repository, together
with theorems settling the specification claims C1-C10.

Modelling conventions, used throughout:
* Machine integers (`u8`, `u16`, `u32`, `u64`, `usize`) are modelled as `Nat`;
  byte-level codecs take values mod 256 explicitly.  Arithmetic overflow is
  out of range for every run considered here.
* A Rust function that can panic (`unwrap`, `expect`, out-of-bounds index) is
  modelled as returning `Option`/pairing with `Option`, where `none` is the
  panic.  A Rust `Result` whose `Err` is handled gracefully by the caller is
  modelled as an inner `Option`.
* Rust `Vec` is `List`; `Vec::with_capacity` produces an empty list (capacity
  is not length — this matters for the B+ internal page decoder).
* The buffer pool of the hash-index sections is modelled as a typed page
  store `pid → Option page`: with fewer than `POOL_SIZE` distinct pages in
  use, `load_page` always returns the current bytes of a page and
  `update_page` overwrites them, so the store is the content projection of
  the pool.  Reads are typed (a pid holding a directory page is never
  reinterpreted as a bucket); the well-formedness predicate keeps the pids
  of the two page kinds apart, as every real run does.
* Pin/unpin bookkeeping of the pool is modelled separately (`BP` namespace)
  for the buffer-pool claims, with page contents opaque.
* `get_hash` (a fixed `DefaultHasher` over the key bytes) is an arbitrary
  but fixed function `hash : K → Nat`, and the bucket slot count
  `PAGE_SIZE / (2 + size_of K + size_of V)` an arbitrary constant
  `numEntries`; the code is generic in both.
-/

namespace DBMS

/-! ## Extendible hashing: hash bucket page (`hash_bucket_page.rs`) -/

/-- `HashBucketPage` from `hash_bucket_page.rs`: parallel arrays `readable`,
`has_been_occupied`, `key_values`, each of length
`PAGE_SIZE / (2 + size_of K + size_of V)` when decoded from a raw page. -/
structure HashBucketPage (K V : Type) where
  readable : List Bool
  has_been_occupied : List Bool
  key_values : List (K × V)

namespace HashBucketPage

variable {K V : Type}

/-- `toggle_readable`: flip `readable[index]`; `Err` (out of bounds) panics
at every call site, hence `Option`. -/
def toggle_readable (b : HashBucketPage K V) (index : Nat) :
    Option (HashBucketPage K V) :=
  match b.readable.get? index with
  | some r => some { b with readable := b.readable.set index (!r) }
  | none => none

/-- `set_has_been_occupied`. -/
def set_has_been_occupied (b : HashBucketPage K V) (index : Nat) (v : Bool) :
    Option (HashBucketPage K V) :=
  if index < b.has_been_occupied.length then
    some { b with has_been_occupied := b.has_been_occupied.set index v }
  else none

/-- `is_full`: all slots readable. -/
def is_full (b : HashBucketPage K V) : Bool :=
  b.readable.all (· == true)

/-- The `for i in 0..readable.len()` loop of `first_free_index`; the first
argument counts the remaining iterations. -/
def firstFreeLoop (rs : List Bool) : Nat → Nat → Option Nat
  | 0, _ => none
  | count + 1, i =>
    match rs.get? i with
    | some r => if !r then some i else firstFreeLoop rs count (i + 1)
    | none => none

/-- `first_free_index`: first non-readable slot. -/
def first_free_index (b : HashBucketPage K V) : Option Nat :=
  firstFreeLoop b.readable b.readable.length 0

/-- `insert`: write `(key, value)` into the first free slot, marking it
readable and occupied.  The `Err` outcomes all panic at the call sites
(`expect`), so the whole is an `Option`. -/
def insert (b : HashBucketPage K V) (key : K) (value : V) :
    Option (HashBucketPage K V) :=
  b.first_free_index.bind fun index =>
  (b.toggle_readable index).bind fun b =>
  (b.set_has_been_occupied index true).bind fun b =>
  if index < b.key_values.length then
    some { b with key_values := b.key_values.set index (key, value) }
  else none

/-- `key_at`. -/
def key_at (b : HashBucketPage K V) (index : Nat) : Option K :=
  (b.key_values.get? index).map Prod.fst

/-- `value_at`. -/
def value_at (b : HashBucketPage K V) (index : Nat) : Option V :=
  (b.key_values.get? index).map Prod.snd

/-- `remove_index`: clear `readable[index]` (a toggle in the source) and
splice the default `(K, V)` over the old pair, returning the old pair.
Failure panics at the call site. -/
def remove_index (b : HashBucketPage K V) (index : Nat) (dK : K) (dV : V) :
    Option ((K × V) × HashBucketPage K V) :=
  (b.toggle_readable index).bind fun b =>
  match b.key_values.get? index with
  | some kv => some (kv, { b with key_values := b.key_values.set index (dK, dV) })
  | none => none

/-- The helper scan of `remove`: index of the first slot whose key equals
`key_to_remove` and is readable (`&&` short-circuits, so `readable` is only
consulted on a key match; a missing readable entry there panics — outer
`none`).  Inner `none`: no such slot.  The first argument counts the
remaining `key_values` entries (the scan ends when `get?` misses). -/
def removeScan [DecidableEq K] (b : HashBucketPage K V) (key_to_remove : K) :
    Nat → Nat → Option (Option Nat)
  | 0, _ => some none
  | count + 1, i =>
    match b.key_values.get? i with
    | none => some none
    | some kv =>
      if kv.1 = key_to_remove then
        match b.readable.get? i with
        | none => none
        | some r => if r then some (some i) else removeScan b key_to_remove count (i + 1)
      else removeScan b key_to_remove count (i + 1)

/-- `remove`: find the first live slot holding `key_to_remove`; clear its
readable bit and splice the default over it, returning the old pair.  The
outer `Option` is panic; the inner is the source `Result` (`Err` = key not
present), which the caller turns into `Option` via `.ok()`. -/
def remove [DecidableEq K] (b : HashBucketPage K V) (key_to_remove : K)
    (dK : K) (dV : V) : Option (Option ((K × V) × HashBucketPage K V)) :=
  match removeScan b key_to_remove b.key_values.length 0 with
  | none => none
  | some none => some none
  | some (some index) =>
    match (b.toggle_readable index).bind fun b =>
      match b.key_values.get? index with
      | some kv => some (kv, { b with key_values := b.key_values.set index (dK, dV) })
      | none => none
    with
    | none => none
    | some r => some (some r)

/-- The live entries of a bucket: the `key_values` of the readable slots.
(Derived view used to state the invariants.) -/
def live (b : HashBucketPage K V) : List (K × V) :=
  (b.readable.zip b.key_values).filterMap fun rv => if rv.1 then some rv.2 else none

/-- The all-zero raw page decoded as a bucket: `n` slots, none readable,
default key/value pairs. -/
def empty (n : Nat) (dK : K) (dV : V) : HashBucketPage K V :=
  { readable := List.replicate n false
    has_been_occupied := List.replicate n false
    key_values := List.replicate n (dK, dV) }

end HashBucketPage

/-! ## Extendible hashing: hash directory page (`hash_directory_page.rs`) -/

/-- `HashDirectoryPage`: global depth plus 512-entry `local_depths` and
`bucket_page_ids` arrays (modelled as functions; the accessors enforce the
512 bound exactly as `array::get` does). -/
structure HashDirectoryPage where
  page_id : Nat
  log_id : Nat
  global_depth : Nat
  local_depths : Nat → Nat
  bucket_page_ids : Nat → Nat

namespace HashDirectoryPage

/-- `get_local_depth`. -/
def get_local_depth (d : HashDirectoryPage) (index : Nat) : Option Nat :=
  if index < 512 then some (d.local_depths index) else none

/-- `set_local_depth`. -/
def set_local_depth (d : HashDirectoryPage) (index : Nat) (local_depth : Nat) :
    Option HashDirectoryPage :=
  if index < 512 then
    some { d with local_depths := fun j => if j = index then local_depth else d.local_depths j }
  else none

/-- `increment_local_depth`: bump `local_depths[index]`, returning the new
value together with the updated page. -/
def increment_local_depth (d : HashDirectoryPage) (index : Nat) :
    Option (Nat × HashDirectoryPage) :=
  if index < 512 then
    some (d.local_depths index + 1,
      { d with local_depths := fun j => if j = index then d.local_depths index + 1 else d.local_depths j })
  else none

/-- `get_bucket_page_id`. -/
def get_bucket_page_id (d : HashDirectoryPage) (index : Nat) : Option Nat :=
  if index < 512 then some (d.bucket_page_ids index) else none

/-- `set_bucket_page_id`. -/
def set_bucket_page_id (d : HashDirectoryPage) (index : Nat) (pid : Nat) :
    Option HashDirectoryPage :=
  if index < 512 then
    some { d with bucket_page_ids := fun j => if j = index then pid else d.bucket_page_ids j }
  else none

/-- `increment_global_depth`. -/
def increment_global_depth (d : HashDirectoryPage) : HashDirectoryPage :=
  { d with global_depth := d.global_depth + 1 }

/-- `new_empty`: global depth 1, slots 0 and 1 pointing at the two initial
buckets with local depth 1. -/
def new_empty (own_pid bucket1_pid bucket2_pid log_id : Nat) : HashDirectoryPage :=
  { page_id := own_pid
    log_id := log_id
    global_depth := 1
    local_depths := fun i => if i = 0 then 1 else if i = 1 then 1 else 0
    bucket_page_ids := fun i => if i = 0 then bucket1_pid else if i = 1 then bucket2_pid else 0 }

end HashDirectoryPage

/-! ## Extendible hashing: the index over the page store
(`extendible_hashing.rs`)

The buffer pool is projected to its page contents: a typed store
`pid → Option (HashPage K V)` with a fresh-page counter (the disk manager
allocates `file_length / PAGE_SIZE`, the next unused pid).  `load_page` +
decode becomes a typed read, `update_page` a typed write; the pin/unpin
calls of `update_directory_and_bucket` do not affect contents. -/

/-- A page of the hash index, as decoded: the directory or a bucket. -/
inductive HashPage (K V : Type) where
  | dir (d : HashDirectoryPage)
  | bucket (b : HashBucketPage K V)

/-- The content state of the pool/file: page store and next fresh pid. -/
structure HState (K V : Type) where
  store : Nat → Option (HashPage K V)
  nextPid : Nat

namespace HState

variable {K V : Type}

/-- `update_page` at the content level. -/
def writePage (s : HState K V) (pid : Nat) (p : HashPage K V) : HState K V :=
  { s with store := fun q => if q = pid then some p else s.store q }

/-- `load_page` + `HashDirectoryPage::from_raw_page`. -/
def loadDir (s : HState K V) (pid : Nat) : Option HashDirectoryPage :=
  match s.store pid with
  | some (.dir d) => some d
  | _ => none

/-- `load_page` + `HashBucketPage::from_raw_page`. -/
def loadBucket (s : HState K V) (pid : Nat) : Option (HashBucketPage K V) :=
  match s.store pid with
  | some (.bucket b) => some b
  | _ => none

/-- `allocate_new_page` (disk manager): pid `file_length / PAGE_SIZE`, a
zero-filled page is written there.  The zero page is produced in decoded
bucket form, which is how `split_bucket` immediately reads it back. -/
def alloc (s : HState K V) (n : Nat) (dK : K) (dV : V) : Nat × HState K V :=
  (s.nextPid,
    { store := fun q => if q = s.nextPid then some (.bucket (HashBucketPage.empty n dK dV)) else s.store q
      nextPid := s.nextPid + 1 })

/-- Live entries of the bucket at `pid` (empty for non-bucket pages). -/
def liveOf (s : HState K V) (pid : Nat) : List (K × V) :=
  match s.store pid with
  | some (.bucket b) => b.live
  | _ => []

end HState

namespace ExtendibleHashing

variable {K V : Type} [DecidableEq K]

/-- `local_split_bucket` loop body characterised below; the loop runs
`i = first .. first + count - 1` (source: `0 .. 1 << global_depth`). -/
def localSplitLoop (d : HashDirectoryPage) (new_local_depth newB oldB : Nat) :
    Nat → Nat → Option HashDirectoryPage
  | 0, _ => some d
  | count + 1, i =>
    (d.get_bucket_page_id i).bind fun bid =>
    if bid = oldB then
      (d.set_local_depth i new_local_depth).bind fun d =>
      if (i >>> (new_local_depth - 1)) &&& 1 = 0 then
        (d.set_bucket_page_id i newB).bind fun d =>
        localSplitLoop d new_local_depth newB oldB count (i + 1)
      else localSplitLoop d new_local_depth newB oldB count (i + 1)
    else localSplitLoop d new_local_depth newB oldB count (i + 1)

/-- `local_split_bucket`: for every slot pointing at the old bucket, set its
local depth to the new one and, when bit `L-1` of the slot index is 0,
redirect it to the new bucket. -/
def local_split_bucket (d : HashDirectoryPage)
    (new_local_depth new_bucket_page_id old_bucket_page_id : Nat) :
    Option HashDirectoryPage :=
  localSplitLoop d new_local_depth new_bucket_page_id old_bucket_page_id
    (1 <<< d.global_depth) 0

/-- The copy loop of `global_split_bucket`: duplicate slot `i` into
`i + 2^oldG` (bucket pointer and local depth). -/
def globalCopyLoop (oldG : Nat) : Nat → Nat → HashDirectoryPage → Option HashDirectoryPage
  | 0, _, d => some d
  | count + 1, i, d =>
    (d.get_bucket_page_id i).bind fun bid =>
    (d.set_bucket_page_id (i + (1 <<< oldG)) bid).bind fun d =>
    (d.get_local_depth i).bind fun l =>
    (d.set_local_depth (i + (1 <<< oldG)) l).bind fun d =>
    globalCopyLoop oldG count (i + 1) d

/-- `global_split_bucket`: increment the global depth, mirror the lower half
of the directory into the upper half, then point `bucket_index` at the new
bucket. -/
def global_split_bucket (d : HashDirectoryPage)
    (bucket_index new_bucket_page_id : Nat) : Option HashDirectoryPage :=
  let old_global_depth := d.global_depth
  let d := d.increment_global_depth
  (globalCopyLoop old_global_depth (1 <<< old_global_depth) 0 d).bind fun d =>
  d.set_bucket_page_id bucket_index new_bucket_page_id

variable (hash : K → Nat) (numEntries : Nat) (dK : K) (dV : V)

/-- The rehash loop of `split_bucket`: for `i = 0 .. len-1`, if bit `L-1` of
`hash(key_at i)` is 0, `remove_index` from the old bucket and insert into
the new one.  `count` is the precomputed `key_values.len()`. -/
def rehashLoop (new_local_depth : Nat) :
    Nat → Nat → HashBucketPage K V → HashBucketPage K V →
    Option (HashBucketPage K V × HashBucketPage K V)
  | 0, _, old, nw => some (old, nw)
  | count + 1, i, old, nw =>
    (old.key_at i).bind fun key =>
    if (hash key >>> (new_local_depth - 1)) &&& 1 = 0 then
      (old.remove_index i dK dV).bind fun kvold =>
      (nw.insert kvold.1.1 kvold.1.2).bind fun nw =>
      rehashLoop new_local_depth count (i + 1) kvold.2 nw
    else rehashLoop new_local_depth count (i + 1) old nw

/-- `split_bucket`: bump the local depth of `bucket_index`, allocate and
load a fresh bucket page, perform the global or local directory split,
rehash the old bucket into the new one, and write the new bucket page.
Returns the mutated old bucket and directory views plus the state. -/
def split_bucket (bucket_index : Nat) (bucket_page : HashBucketPage K V)
    (directory_page : HashDirectoryPage) (s : HState K V) :
    Option (HashBucketPage K V × HashDirectoryPage × HState K V) :=
  (directory_page.increment_local_depth bucket_index).bind fun nld =>
  let new_local_depth := nld.1
  let directory_page := nld.2
  let alloced := s.alloc numEntries dK dV
  let new_bucket_page_id := alloced.1
  let s := alloced.2
  (s.loadBucket new_bucket_page_id).bind fun new_bucket_page =>
  (directory_page.get_bucket_page_id bucket_index).bind fun old_bucket_page_id =>
  (if directory_page.global_depth < new_local_depth then
    global_split_bucket directory_page bucket_index new_bucket_page_id
  else
    local_split_bucket directory_page new_local_depth new_bucket_page_id
      old_bucket_page_id).bind fun directory_page =>
  (rehashLoop hash dK dV new_local_depth bucket_page.key_values.length 0
      bucket_page new_bucket_page).bind fun bn =>
  some (bn.1, directory_page, (s.writePage new_bucket_page_id (.bucket bn.2)))

/-- `insert_with_lock` (the body of `insert`): load directory and addressed
bucket; on a full bucket, split, write the directory and old bucket
(`update_directory_and_bucket`), recurse, and then — exactly as the source
does — fall through to the trailing `update_directory_and_bucket`, which
rewrites the directory and the old bucket from the *stale* local views of
this frame.  Recursion is fuelled (`none` = non-termination/panic). -/
def insert_with_lock (directory_page_id : Nat) :
    Nat → HState K V → K → V → Option (HState K V)
  | 0, _, _, _ => none
  | fuel + 1, s, key, value =>
    (s.loadDir directory_page_id).bind fun directory_page =>
    let bucket_index := hash key % (1 <<< directory_page.global_depth)
    (directory_page.get_bucket_page_id bucket_index).bind fun bucket_page_id =>
    (s.loadBucket bucket_page_id).bind fun bucket_page =>
    if bucket_page.is_full then
      (split_bucket hash numEntries dK dV bucket_index bucket_page directory_page s).bind
        fun bds =>
      let bucket_page := bds.1
      let directory_page := bds.2.1
      let s := ((bds.2.2.writePage directory_page_id (.dir directory_page)).writePage
        bucket_page_id (.bucket bucket_page))
      (insert_with_lock directory_page_id fuel s key value).bind fun s =>
      some ((s.writePage directory_page_id (.dir directory_page)).writePage
        bucket_page_id (.bucket bucket_page))
    else
      (bucket_page.insert key value).bind fun bucket_page =>
      some ((s.writePage directory_page_id (.dir directory_page)).writePage
        bucket_page_id (.bucket bucket_page))

/-- `remove`: load directory and addressed bucket; scan for the key; on a
hit clear the slot; write both pages back (`update_directory_and_bucket`)
and return the removed pair.  The early `?` on the bucket `load_page`
returns `None` without writing anything. -/
def remove (directory_page_id : Nat) (s : HState K V) (key : K) :
    Option (Option (K × V) × HState K V) :=
  (s.loadDir directory_page_id).bind fun directory_page =>
  let index := hash key % (1 <<< directory_page.global_depth)
  (directory_page.get_bucket_page_id index).bind fun bucket_pid =>
  match s.loadBucket bucket_pid with
  | none => some (none, s)
  | some bucket_page =>
    (bucket_page.remove key dK dV).bind fun res =>
    let result := res.map fun r => r.1
    let bucket_page := match res with
      | some r => r.2
      | none => bucket_page
    some (result,
      (s.writePage directory_page_id (.dir directory_page)).writePage
        bucket_pid (.bucket bucket_page))

/-- Modelled from the spec: the repository's `src` has no `lookup`
function (the spec's `hash.lookup(k)`); §4.5.3 defines it as: pin
directory → compute slot → pin bucket → linear scan of the `readable`
slots comparing keys. -/
def lookup (directory_page_id : Nat) (s : HState K V) (key : K) : Option V :=
  (s.loadDir directory_page_id).bind fun directory_page =>
  (directory_page.get_bucket_page_id
    (hash key % (1 <<< directory_page.global_depth))).bind fun bucket_pid =>
  (s.loadBucket bucket_pid).bind fun bucket_page =>
  (bucket_page.readable.zip bucket_page.key_values).findSome? fun rv =>
    if rv.1 ∧ rv.2.1 = key then some rv.2.2 else none

/-- `setup_new_hashmap`: allocate the directory page and two bucket pages,
write the `new_empty` directory.  (The bucket pages stay as freshly
allocated zero pages.)  Returns the directory page id and the state. -/
def setup_new_hashmap (s : HState K V) (log_id : Nat) : Nat × HState K V :=
  let a1 := s.alloc numEntries dK dV
  let directory_page_id := a1.1
  let a2 := a1.2.alloc numEntries dK dV
  let bucket1_pid := a2.1
  let a3 := a2.2.alloc numEntries dK dV
  let bucket2_pid := a3.1
  let directory_page :=
    HashDirectoryPage.new_empty directory_page_id bucket1_pid bucket2_pid log_id
  (directory_page_id, a3.2.writePage directory_page_id (.dir directory_page))

end ExtendibleHashing

/-! ## Extendible hashing: invariant definitions over the page store -/

namespace ExtendibleHashing

variable {K V : Type}

/-- The per-state well-formedness of the extendible hash index, relative to
a directory view `d` stored at `dirPid`: every non-directory page is a
bucket with matching array lengths (w0), local depths are bounded by the
global depth (w1), two slots share a bucket exactly when they agree modulo
`2^local_depth` (w2, with equal depths, w2eq), every pointed bucket exists
(w3) below the allocation frontier and distinct from the directory page
(w4, w5), and every live entry hashes to its slot's congruence class (w6,
the directory invariant). -/
structure WFdir (hash : K → Nat) (dirPid : Nat) (s : HState K V)
    (d : HashDirectoryPage) : Prop where
  w0 : ∀ p, p ≠ dirPid → ∀ pg, s.store p = some pg →
    ∃ b, pg = HashPage.bucket b ∧ b.readable.length = b.key_values.length
  w1 : ∀ i, i < 2 ^ d.global_depth → d.local_depths i ≤ d.global_depth
  w2 : ∀ i, i < 2 ^ d.global_depth → ∀ j, j < 2 ^ d.global_depth →
    (d.bucket_page_ids i = d.bucket_page_ids j ↔
      i % 2 ^ d.local_depths i = j % 2 ^ d.local_depths i)
  w2eq : ∀ i, i < 2 ^ d.global_depth → ∀ j, j < 2 ^ d.global_depth →
    d.bucket_page_ids i = d.bucket_page_ids j → d.local_depths i = d.local_depths j
  w3 : ∀ i, i < 2 ^ d.global_depth → (s.store (d.bucket_page_ids i)).isSome = true
  w4 : ∀ i, i < 2 ^ d.global_depth →
    d.bucket_page_ids i < s.nextPid ∧ d.bucket_page_ids i ≠ dirPid
  w5 : dirPid < s.nextPid
  w6 : ∀ i, i < 2 ^ d.global_depth → ∀ e, e ∈ s.liveOf (d.bucket_page_ids i) →
    hash e.1 % 2 ^ d.local_depths i = i % 2 ^ d.local_depths i

/-- Well-formedness of a hash-index state: a directory is stored at
`dirPid` and `WFdir` holds for it. -/
def WF (hash : K → Nat) (dirPid : Nat) (s : HState K V) : Prop :=
  ∃ d, s.loadDir dirPid = some d ∧ WFdir hash dirPid s d

/-- `e` is a live entry of some page of the state. -/
def inLiveSet (s : HState K V) (e : K × V) : Prop :=
  ∃ p, e ∈ s.liveOf p

/-- The directory invariant of the spec: every live entry of the bucket at
slot `i` hashes to `i` modulo `2^local_depth(i)`. -/
def DirInv (hash : K → Nat) (dirPid : Nat) (s : HState K V) : Prop :=
  ∀ d, s.loadDir dirPid = some d → ∀ i, i < 2 ^ d.global_depth →
    ∀ e, e ∈ s.liveOf (d.bucket_page_ids i) →
      hash e.1 % 2 ^ d.local_depths i = i % 2 ^ d.local_depths i

end ExtendibleHashing

/-! ## Buffer pool (`buffer_pool.rs`, `lru_replacer.rs`, `disk_manager.rs`)

Page contents are opaque here (`P`); the disk is a total function from pid
to content (a file extended far enough for every page the run touches),
plus a chronological write log for the write-back claims.  The real LRU
timestamps (`chrono::Utc::now().timestamp_millis()`) are modelled by a
strictly increasing logical clock, which realises the same insertion-time
order the spec requires. -/

namespace BP

/-- `PageTableEntry { frame_index, dirty, ref_count }`; `new` sets
`dirty = false`, `ref_count = 1`. -/
structure PageTableEntry where
  frame_index : Nat
  dirty : Bool
  ref_count : Nat
deriving DecidableEq

def PageTableEntry.new (frame_id : Nat) : PageTableEntry :=
  { frame_index := frame_id, dirty := false, ref_count := 1 }

def POOL_SIZE : Nat := 100

/-- `LRUReplacer`: pids with insertion timestamps (`PriorityQueue` with
`Reverse(timestamp)` priority) and the logical clock. -/
structure LRUReplacer where
  current_pages : List (Nat × Nat)
  clock : Nat
deriving DecidableEq

namespace LRUReplacer

/-- `add_page`: stamp `pid` with the current time; `PriorityQueue::push`
replaces the priority of an already-present pid. -/
def add_page (r : LRUReplacer) (page_index : Nat) : LRUReplacer :=
  { current_pages :=
      if r.current_pages.any (fun e => e.1 == page_index) then
        r.current_pages.map fun e => if e.1 == page_index then (page_index, r.clock) else e
      else (page_index, r.clock) :: r.current_pages
    clock := r.clock + 1 }

/-- `drop_page` (the returned `Option` is ignored by the pool). -/
def drop_page (r : LRUReplacer) (page_index : Nat) : LRUReplacer :=
  { r with current_pages := r.current_pages.filter fun e => ¬ e.1 = page_index }

/-- Entry with the smallest timestamp. -/
def minEntry : List (Nat × Nat) → Option (Nat × Nat)
  | [] => none
  | x :: xs =>
    match minEntry xs with
    | none => some x
    | some y => if x.2 ≤ y.2 then some x else some y

/-- `pop_least_recently_used`: remove and return the pid with the smallest
timestamp. -/
def pop_least_recently_used (r : LRUReplacer) : Option Nat × LRUReplacer :=
  match minEntry r.current_pages with
  | none => (none, r)
  | some e => (some e.1, { r with current_pages := r.current_pages.filter fun x => ¬ x.1 = e.1 })

/-- `drop_all_pages`. -/
def drop_all_pages (r : LRUReplacer) : LRUReplacer :=
  { r with current_pages := [] }

def contains (r : LRUReplacer) (pid : Nat) : Bool :=
  r.current_pages.any fun e => e.1 == pid

end LRUReplacer

/-- The buffer pool: `POOL_SIZE` optional frames, pid → entry table, LRU
replacer, and the disk manager (content + write log). -/
structure BufferPool (P : Type) where
  data : List (Option P)
  page_table : List (Nat × PageTableEntry)
  lru_replacer : LRUReplacer
  disk : Nat → P
  writeLog : List (Nat × P)

namespace BufferPool

variable {P : Type}

/-- Assoc-list lookup for the `HashMap` page table. -/
def ptLookup : List (Nat × PageTableEntry) → Nat → Option PageTableEntry
  | [], _ => none
  | x :: rest, pid => if x.1 = pid then some x.2 else ptLookup rest pid

/-- Replace the (unique) entry of `pid`. -/
def ptUpdate : List (Nat × PageTableEntry) → Nat → PageTableEntry →
    List (Nat × PageTableEntry)
  | [], _, _ => []
  | x :: rest, pid, e' =>
    if x.1 = pid then (x.1, e') :: rest else x :: ptUpdate rest pid e'

/-- `HashMap::insert`: replace if present, else add. -/
def ptInsert (pt : List (Nat × PageTableEntry)) (pid : Nat) (e : PageTableEntry) :
    List (Nat × PageTableEntry) :=
  if (ptLookup pt pid).isSome then ptUpdate pt pid e else pt ++ [(pid, e)]

/-- `DiskManager::write_page`: seek + write + flush. -/
def write_page (bp : BufferPool P) (page_id : Nat) (pg : P) : BufferPool P :=
  { bp with
    disk := fun q => if q = page_id then pg else bp.disk q
    writeLog := bp.writeLog ++ [(page_id, pg)] }

/-- `DiskManager::read_page` (the backing file holds every page read). -/
def read_page (bp : BufferPool P) (page_id : Nat) : P :=
  bp.disk page_id

/-- `load_page_from_disk`: read the page, install a fresh table entry
(`HashMap::insert` — note: nothing removes a previous victim), store the
frame.  The frame store is a panicking index assignment. -/
def load_page_from_disk (bp : BufferPool P) (page_id frame_index : Nat) :
    Option (Nat × BufferPool P) :=
  let raw_page := read_page bp page_id
  let bp := { bp with page_table := ptInsert bp.page_table page_id (PageTableEntry.new frame_index) }
  if frame_index < bp.data.length then
    some (frame_index, { bp with data := bp.data.set frame_index (some raw_page) })
  else none

/-- `load_page`.  Outer `none` is a panic (`expect`); the inner `Option` is
the source return value (`None` = pool full with empty LRU). -/
def load_page (bp : BufferPool P) (page_id : Nat) :
    Option (Option Nat × BufferPool P) :=
  match ptLookup bp.page_table page_id with
  | some e =>
    let e := { e with ref_count := e.ref_count + 1 }
    let bp := { bp with page_table := ptUpdate bp.page_table page_id e }
    let bp :=
      if e.ref_count = 1 then { bp with lru_replacer := bp.lru_replacer.drop_page page_id }
      else bp
    some (some e.frame_index, bp)
  | none =>
    if bp.page_table.length = POOL_SIZE then
      match bp.lru_replacer.pop_least_recently_used with
      | (some index, lru) =>
        match ptLookup bp.page_table index with
        | none => none
        | some page_table_entry =>
          let frame_index := page_table_entry.frame_index
          let bp := { bp with lru_replacer := lru }
          (if page_table_entry.dirty then
            match bp.data.get? frame_index with
            | some (some pg) => some (write_page bp index pg)
            | _ => none
          else some bp).bind fun bp =>
          (load_page_from_disk bp page_id frame_index).map fun fb => (some fb.1, fb.2)
      | (none, lru) => some (none, { bp with lru_replacer := lru })
    else
      match bp.data.findIdx? Option.isNone with
      | none => none
      | some frame_index =>
        (load_page_from_disk bp page_id frame_index).map fun fb => (some fb.1, fb.2)

/-- `unload_page_id` (unpin). -/
def unload_page_id (bp : BufferPool P) (page_id : Nat) :
    Except String Unit × BufferPool P :=
  match ptLookup bp.page_table page_id with
  | none => (.error "Cannot find the specified page index", bp)
  | some page_entry =>
    if page_entry.ref_count = 0 then
      (.error "There is currently no reference to the specified page", bp)
    else
      let page_entry := { page_entry with ref_count := page_entry.ref_count - 1 }
      let bp := { bp with page_table := ptUpdate bp.page_table page_id page_entry }
      let bp :=
        if page_entry.ref_count = 0 then
          { bp with lru_replacer := bp.lru_replacer.add_page page_id }
        else bp
      (.ok (), bp)

/-- The `drain` loop of `unload_all_pages_and_write_to_file`: write each
dirty entry's frame through the disk manager. -/
def flushDrain (bp : BufferPool P) : List (Nat × PageTableEntry) → Option (BufferPool P)
  | [] => some bp
  | (page_id, page_table) :: rest =>
    if page_table.dirty then
      match bp.data.get? page_table.frame_index with
      | some (some pg) => flushDrain (write_page bp page_id pg) rest
      | _ => none
    else flushDrain bp rest

/-- `unload_all_pages_and_write_to_file`: drain the page table writing the
dirty frames, then `data.fill(None)` and drop all LRU entries. -/
def unload_all_pages_and_write_to_file (bp : BufferPool P) : Option (BufferPool P) :=
  (flushDrain { bp with page_table := [] } bp.page_table).map fun bp =>
    { bp with
      data := List.replicate bp.data.length none
      lru_replacer := bp.lru_replacer.drop_all_pages }

/-- `update_page`: load (pinning), set dirty, overwrite the frame.  Outer
`none` is a panic inside `load_page`. -/
def update_page (bp : BufferPool P) (page_id : Nat) (new_data : P) :
    Option (Except String Unit × BufferPool P) :=
  (load_page bp page_id).bind fun rb =>
    match rb.1 with
    | none => some (.error "Could not update the page value", rb.2)
    | some frame_id =>
      let bp := rb.2
      let bp :=
        match ptLookup bp.page_table page_id with
        | some e => { bp with page_table := ptUpdate bp.page_table page_id { e with dirty := true } }
        | none => bp
      if frame_id < bp.data.length then
        some (.ok (), { bp with data := bp.data.set frame_id (some new_data) })
      else none

/-- The pin count of `pid` (0 when not resident). -/
def refCount (bp : BufferPool P) (pid : Nat) : Nat :=
  match ptLookup bp.page_table pid with
  | some e => e.ref_count
  | none => 0

end BufferPool

end BP

/-! ## RID (`common/rid.rs`) -/

/-- `Rid { page_id, slot_id }`. -/
structure Rid where
  page_id : Nat
  slot_id : Nat
deriving DecidableEq

/-! ## B+ tree (`b_plus_tree/mod.rs`, `b_plus_tree_internal_page.rs`,
`b_plus_tree_leaf_page.rs`)

For the traversal claims the pool's pages carry their decoded form directly
(`BPTPage`), i.e. `BPlusTreePage::from_raw_page` is the identity on the
stored view; the byte-level internal-page codec, with its decoder defect, is
modelled separately in the `Codec` namespace. -/

namespace BPlusTree

variable {Key : Type} [LinearOrder Key]

/-- The `for i in 1..len` loop of `get_child_node`; the first argument
counts the remaining iterations (`len - i` at entry).  The body indexes
`key_page_pairs[i + 1]` before anything else, which panics (`none`) as soon
as `i + 1 = len`; the trailing `last()` return (the `0` case) is therefore
dead code for `len ≥ 2`. -/
def getChildLoop (key_page_pairs : List (Key × Nat)) (key : Key) :
    Nat → Nat → Option Nat
  | 0, _ => (key_page_pairs.getLast?).map Prod.snd
  | count + 1, i =>
    match key_page_pairs.get? (i + 1) with
    | none => none
    | some next =>
      match key_page_pairs.get? i with
      | none => none
      | some cur =>
        if key < next.1 ∧ cur.1 ≤ key then some cur.2
        else getChildLoop key_page_pairs key count (i + 1)

/-- `BPlusTreeInternalPage::get_child_node`: route `key` to a child pid.
`key_page_pairs[1]` is read first (panic for fewer than 2 entries), then
the loop above runs `i = 1 .. len - 1`. -/
def get_child_node (key_page_pairs : List (Key × Nat)) (key : Key) : Option Nat :=
  match key_page_pairs.get? 1 with
  | none => none
  | some e1 =>
    if key < e1.1 then (key_page_pairs.get? 0).map Prod.snd
    else getChildLoop key_page_pairs key (key_page_pairs.length - 1) 1

/-- A decoded B+ tree page: internal entries `(key, child pid)`, or leaf
keys plus parallel RIDs. -/
inductive BPTPage (Key : Type) where
  | internal (entries : List (Key × Nat))
  | leaf (keys : List Key) (rids : List Rid)

/-- `slice::binary_search` (Rust core): halve `[left, right)` until hit or
empty; `Err` is turned into `None` by `get_rid_of` (`.ok()?`). -/
def binarySearchLoop (keys : List Key) (key : Key) :
    Nat → Nat → Nat → Option Nat
  | 0, _, _ => none
  | fuel + 1, left, right =>
    if left < right then
      let mid := (left + right) / 2
      match keys.get? mid with
      | none => none
      | some km =>
        if km < key then binarySearchLoop keys key fuel (mid + 1) right
        else if key < km then binarySearchLoop keys key fuel left mid
        else some mid
    else none

/-- `BPlusTreeLeafPage::get_rid_of`: binary-search the key, return the
parallel rid. -/
def get_rid_of (keys : List Key) (rids : List Rid) (key : Key) : Option Rid :=
  (binarySearchLoop keys key (keys.length + 1) 0 keys.length).bind fun index =>
  rids.get? index

/-- The `while let InternalPage` loop of `get_leaf_of`: route, `load_page`
the child (`?` on a `None` result), read its frame.  No `unload_page_id`
occurs anywhere in the loop.  `visited` is ghost instrumentation recording
each loaded pid in order. -/
def getLeafLoop (key : Key) :
    Nat → BP.BufferPool (BPTPage Key) → BPTPage Key → List Nat →
    Option (BPTPage Key × BP.BufferPool (BPTPage Key) × List Nat)
  | _, bp, .leaf ks rs, visited => some (.leaf ks rs, bp, visited)
  | 0, _, .internal _, _ => none
  | fuel + 1, bp, .internal entries, visited =>
    (get_child_node entries key).bind fun next_pid =>
    (BP.BufferPool.load_page bp next_pid).bind fun rb =>
    rb.1.bind fun current_frame =>
    match rb.2.data.get? current_frame with
    | some (some page) => getLeafLoop key fuel rb.2 page (visited ++ [next_pid])
    | _ => none

/-- `BPlusTreeIndex::get_leaf_of`: pin the root, then walk down.  Returns
the reached page, the pool, and the ghost list of loaded pids. -/
def get_leaf_of (fuel : Nat) (bp : BP.BufferPool (BPTPage Key))
    (root_pid : Nat) (key : Key) :
    Option (BPTPage Key × BP.BufferPool (BPTPage Key) × List Nat) :=
  (BP.BufferPool.load_page bp root_pid).bind fun rb =>
  rb.1.bind fun current_frame =>
  match rb.2.data.get? current_frame with
  | some (some page) => getLeafLoop key fuel rb.2 page [root_pid]
  | _ => none

/-- `BPlusTreeIndex::search`: walk to the leaf, then `get_rid_of`. -/
def search (fuel : Nat) (bp : BP.BufferPool (BPTPage Key))
    (root_pid : Nat) (key : Key) :
    Option (Option Rid × BP.BufferPool (BPTPage Key) × List Nat) :=
  (get_leaf_of fuel bp root_pid key).map fun r =>
    match r.1 with
    | .internal _ => (none, r.2.1, r.2.2)
    | .leaf keys rids => (get_rid_of keys rids key, r.2.1, r.2.2)

end BPlusTree

/-! ## Byte-level codec of the B+ internal page
(`b_plus_tree_internal_page.rs`, `KeyType = u32` as in the repository's
unit test; key_size = 4 + 4) -/

namespace Codec

/-- Little-endian 4-byte encoding. -/
def enc32 (n : Nat) : List Nat :=
  [n % 256, n / 256 % 256, n / 65536 % 256, n / 16777216 % 256]

/-- Little-endian 4-byte decode at `off`. -/
def dec32 (bytes : List Nat) (off : Nat) : Option Nat :=
  (bytes.get? off).bind fun b0 =>
  (bytes.get? (off + 1)).bind fun b1 =>
  (bytes.get? (off + 2)).bind fun b2 =>
  (bytes.get? (off + 3)).map fun b3 =>
  b0 + 256 * b1 + 65536 * b2 + 16777216 * b3

/-- `n ≤ l.length`, computed tail-recursively (so that the 4096-byte bound
checks evaluate iteratively; `lengthGe_iff` below shows it is exactly the
length comparison). -/
def lengthGe (l : List Nat) : Nat → Bool
  | 0 => true
  | n + 1 =>
    match l with
    | [] => false
    | _ :: t => lengthGe t n

/-- `encode_into_slice` into `l[off .. off + vals.len]`: out of range is a
failure, otherwise overwrite in place. -/
def writeAt (l : List Nat) (off : Nat) (vals : List Nat) : Option (List Nat) :=
  if lengthGe l (off + vals.length) then
    some ((vals.foldl (fun acc v => (acc.1.set acc.2 v, acc.2 + 1)) (l, off)).1)
  else none

/-- `BPlusTreeInternalPageHeader`. -/
structure BPlusTreeInternalPageHeader where
  own_pid : Nat
  b_plus_tree_page_type : Nat
  lsn : Nat
  current_size : Nat
  max_size : Nat
  parent_pid : Nat
deriving DecidableEq

/-- `BPlusTreeInternalPage` (view). -/
structure BPlusTreeInternalPage where
  header : BPlusTreeInternalPageHeader
  key_page_pairs : List (Nat × Nat)
deriving DecidableEq

/-- The 21 header bytes. -/
def encHeader (h : BPlusTreeInternalPageHeader) : List Nat :=
  enc32 h.own_pid ++ [h.b_plus_tree_page_type % 256] ++ enc32 h.lsn ++
    enc32 h.current_size ++ enc32 h.max_size ++ enc32 h.parent_pid

/-- `BPlusTreeInternalPage::to_raw_page`: a zeroed 4096-byte page, header at
0..21, then each `(key, page_id)` pair at `21 + i * 8`. -/
def internalToRaw (p : BPlusTreeInternalPage) : Option (List Nat) :=
  (writeAt (List.replicate 4096 0) 0 (encHeader p.header)).bind fun res =>
  (p.key_page_pairs.foldl
    (fun acc kp => acc.bind fun rs =>
      (writeAt rs.1 rs.2 (enc32 kp.1 ++ enc32 kp.2)).map fun l => (l, rs.2 + 8))
    (some (res, 21))).map Prod.fst

/-- The entry loop of `from_raw_page`.  `vec` is
`Vec::with_capacity(current_size)` — an *empty* vector — and the source
stores each decoded pair with the index assignment `vec[i] = …`, which
panics unless `i < vec.len()`. -/
def decodeEntriesLoop (data : List Nat) :
    Nat → Nat → List (Nat × Nat) → Option (List (Nat × Nat))
  | 0, _, vec => some vec
  | n + 1, i, vec =>
    let start_index := 21 + i * 8
    (dec32 data start_index).bind fun k =>
    (dec32 data (start_index + 4)).bind fun pid =>
    if i < vec.length then decodeEntriesLoop data n (i + 1) (vec.set i (k, pid))
    else none

/-- `BPlusTreeInternalPage::from_raw_page`. -/
def internalFromRaw (data : List Nat) : Option BPlusTreeInternalPage :=
  (dec32 data 0).bind fun own_pid =>
  (data.get? 4).bind fun ptype =>
  (dec32 data 5).bind fun lsn =>
  (dec32 data 9).bind fun current_size =>
  (dec32 data 13).bind fun max_size =>
  (dec32 data 17).bind fun parent_pid =>
  (decodeEntriesLoop data current_size 0 []).map fun vec =>
  { header := ⟨own_pid, ptype, lsn, current_size, max_size, parent_pid⟩
    key_page_pairs := vec }

end Codec

/-! ## Table (heap) page (`table/table_page.rs`) -/

/-- `TupleHeader { tuple_offset, tuple_size, free }` (5 bytes encoded). -/
structure TupleHeader where
  tuple_offset : Nat
  tuple_size : Nat
  free : Bool
deriving DecidableEq

/-- `Tuple`. -/
structure Tuple where
  data : List Nat
  own_rid : Rid
deriving DecidableEq

/-- `TablePage` (view). -/
structure TablePage where
  own_pid : Nat
  free_space_pointer : Nat
  tuple_count : Nat
  tuple_headers : List TupleHeader
  tuples : List Tuple
deriving DecidableEq

namespace TablePage

/-- `TablePage::insert`: *first* decrement `free_space_pointer` by the
tuple length, then fail iff `(tuple_count + 1) * 5 >= free_space_pointer`;
on success append a slot header at `tuple_headers.len()`, the tuple bytes,
and bump `tuple_count`.  (The u16 subtraction is in range for every run
considered; the failing return leaves the decremented pointer in place,
exactly as the source does.) -/
def insert (tp : TablePage) (tuple_data : List Nat) : Option Rid × TablePage :=
  let tp := { tp with free_space_pointer := tp.free_space_pointer - tuple_data.length }
  if (tp.tuple_count + 1) * 5 ≥ tp.free_space_pointer then (none, tp)
  else
    let tuple_header : TupleHeader :=
      ⟨tp.free_space_pointer, tuple_data.length, false⟩
    let rid : Rid := ⟨tp.own_pid, tp.tuple_headers.length⟩
    (some rid,
      { tp with
        tuple_headers := tp.tuple_headers ++ [tuple_header]
        tuples := tp.tuples ++ [⟨tuple_data, rid⟩]
        tuple_count := tp.tuple_count + 1 })

end TablePage

/-- The spec's heap-page invariant (§3): `header_end + tuple_count × 5 ≤
free_space_pointer`, where the fixed header `own_pid (u32) |
free_space_pointer (u16) | tuple_count (u16)` ends at byte 8.  Spec-side
definition, written from the spec's words, for comparison with
`TablePage.insert` (claim C8). -/
abbrev specHeapInvariant (tuple_count free_space_pointer : Nat) : Prop :=
  8 + tuple_count * 5 ≤ free_space_pointer

/-! ## Concrete instances used by the claim evaluations -/

/-- Identity hash on `Nat` keys: the concrete stand-in for the process
hash in the evaluated runs (the code is identical for every hasher; only
the bit pattern of `hash k` matters). -/
def exHash : Nat → Nat := fun k => k

/-- A fresh hash index over an empty file with two slots per bucket:
`setup_new_hashmap` over the empty store. -/
def exSetup : Nat × HState Nat Nat :=
  ExtendibleHashing.setup_new_hashmap 2 0 0 (⟨fun _ => none, 0⟩ : HState Nat Nat) 2

/-- The C1 run: insert `(0, 10)`, `(2, 20)` (filling bucket 0), then
`(6, 30)` — key 6 hashes to slot 0, the bucket is full, so the insert
splits; bit 1 of `hash 6` is 1, so key 6 stays in the old bucket and is
clobbered by the trailing stale `update_directory_and_bucket`. -/
def c1Run : Option (HState Nat Nat) :=
  (ExtendibleHashing.insert_with_lock exHash 2 0 0 exSetup.1 5 exSetup.2 0 10).bind fun s =>
  (ExtendibleHashing.insert_with_lock exHash 2 0 0 exSetup.1 5 s 2 20).bind fun s =>
  ExtendibleHashing.insert_with_lock exHash 2 0 0 exSetup.1 5 s 6 30

/-- The empty 100-frame pool over a zero file (contents opaque: `Nat`). -/
def exPool : BP.BufferPool Nat :=
  { data := List.replicate 100 none
    page_table := []
    lru_replacer := ⟨[], 0⟩
    disk := fun _ => 0
    writeLog := [] }

/-- Pin each pid of the list in turn (failing on any panic or `None`). -/
def loadSeq (pids : List Nat) (bp : BP.BufferPool Nat) : Option (BP.BufferPool Nat) :=
  pids.foldl
    (fun acc pid => acc.bind fun bp =>
      (BP.BufferPool.load_page bp pid).bind fun rb => rb.1.map fun _ => rb.2)
    (some bp)

/-- The C2 run: fill the pool with pages 0..99, unpin page 0, then load
page 100 — a miss on a full pool that must evict victim 0. -/
def c2Run : Option (BP.BufferPool Nat) :=
  (loadSeq (List.range 100) exPool).bind fun bp =>
  (fun r : Except String Unit × BP.BufferPool Nat =>
    if r.1.isOk then some r.2 else none) (BP.BufferPool.unload_page_id bp 0) |>.bind fun bp =>
  (BP.BufferPool.load_page bp 100).bind fun rb => rb.1.map fun _ => rb.2

/-- The internal page of the repository's own `to_raw_page_test`. -/
def c3Page : Codec.BPlusTreeInternalPage :=
  ⟨⟨10, 0, 1, 3, 120, 0⟩, [(15, 0), (20, 20), (45, 21)]⟩

/-- A one-leaf B+ tree: page 0 is a leaf holding key 3 ↦ RID (7, 7). -/
def c7Pool : BP.BufferPool (BPlusTree.BPTPage Nat) :=
  { data := List.replicate 100 none
    page_table := []
    lru_replacer := ⟨[], 0⟩
    disk := fun pid => if pid = 0 then .leaf [3] [⟨7, 7⟩] else .leaf [] []
    writeLog := [] }

/-- The pool of the C4 witness: page 3 dirty in frame 0, page 9 clean in
frame 1. -/
def c4Pool : BP.BufferPool Nat :=
  { data := [some 5, some 7]
    page_table := [(3, ⟨0, true, 0⟩), (9, ⟨1, false, 0⟩)]
    lru_replacer := ⟨[(3, 0), (9, 1)], 2⟩
    disk := fun _ => 0
    writeLog := [] }

/-- The pool of the C9 witness: page 5 resident in frame 0 with two pins. -/
def c9Pool : BP.BufferPool Nat :=
  { data := [some 0]
    page_table := [(5, ⟨0, false, 2⟩)]
    lru_replacer := ⟨[], 0⟩
    disk := fun _ => 0
    writeLog := [] }

/-- The disk writes `flushDrain` performs, read off the (constant) frame
array. -/
def BP.BufferPool.drainWrites {P : Type} (data : List (Option P))
    (l : List (Nat × BP.PageTableEntry)) : List (Nat × P) :=
  l.filterMap fun pe =>
    if pe.2.dirty then
      match data.get? pe.2.frame_index with
      | some (some pg) => some (pe.1, pg)
      | _ => none
    else none

/-- The state after inserting `(5, 7)` into the fresh hash map (key 5
routes to slot 1, whose bucket is empty, so the insert succeeds with two
fuel units). -/
def c6State : HState Nat Nat :=
  (ExtendibleHashing.insert_with_lock exHash 2 0 0 exSetup.1 2
    exSetup.2 5 7).getD ⟨fun _ => none, 0⟩

/-!
## Supporting lemmas: codec lengths
-/

namespace Codec

lemma lengthGe_iff (l : List Nat) (n : Nat) : lengthGe l n = true ↔ n ≤ l.length := by
  induction l generalizing n with
  | nil => cases n <;> simp [lengthGe]
  | cons a t ih =>
    cases n with
    | zero => simp [lengthGe]
    | succ m => simpa [lengthGe] using ih m

lemma foldl_set_length (vals : List Nat) :
    ∀ (acc : List Nat × Nat),
      ((vals.foldl (fun acc v => (acc.1.set acc.2 v, acc.2 + 1)) acc).1).length = acc.1.length := by
  induction vals with
  | nil => intro acc; rfl
  | cons v vs ih =>
    intro acc
    simpa using ih (acc.1.set acc.2 v, acc.2 + 1)

lemma writeAt_length {l l' : List Nat} {off : Nat} {vals : List Nat}
    (h : writeAt l off vals = some l') : l'.length = l.length := by
  unfold writeAt at h
  split at h
  · cases h; exact foldl_set_length vals (l, off)
  · cases h

lemma entriesFold_none (kps : List (Nat × Nat)) :
    (kps.foldl
      (fun acc kp => acc.bind fun rs =>
        (writeAt rs.1 rs.2 (enc32 kp.1 ++ enc32 kp.2)).map fun l => (l, rs.2 + 8))
      none) = none := by
  induction kps with
  | nil => rfl
  | cons kp kps ih => simpa using ih

lemma entriesFold_length (kps : List (Nat × Nat)) :
    ∀ (st : List Nat × Nat) (res : List Nat × Nat),
      (kps.foldl
        (fun acc kp => acc.bind fun rs =>
          (writeAt rs.1 rs.2 (enc32 kp.1 ++ enc32 kp.2)).map fun l => (l, rs.2 + 8))
        (some st)) = some res → res.1.length = st.1.length := by
  induction kps with
  | nil => intro st res h; cases h; rfl
  | cons kp kps ih =>
    intro st res h
    simp only [List.foldl_cons, Option.bind_eq_bind, Option.some_bind] at h
    rcases hw : writeAt st.1 st.2 (enc32 kp.1 ++ enc32 kp.2) with _ | l
    · rw [hw] at h
      simp only [Option.map_none'] at h
      rw [entriesFold_none] at h
      cases h
    · rw [hw] at h
      simp only [Option.map_some'] at h
      have := ih (l, st.2 + 8) res h
      rw [this, writeAt_length hw]

/-- Every successful `to_raw_page` is exactly `PAGE_SIZE = 4096` bytes. -/
lemma internalToRaw_length {p : BPlusTreeInternalPage} {raw : List Nat}
    (h : internalToRaw p = some raw) : raw.length = 4096 := by
  unfold internalToRaw at h
  rcases hw : writeAt (List.replicate 4096 0) 0 (encHeader p.header) with _ | res
  · rw [hw] at h; cases h
  · rw [hw] at h
    simp only [Option.some_bind] at h
    rcases hf : (p.key_page_pairs.foldl
        (fun acc kp => acc.bind fun rs =>
          (writeAt rs.1 rs.2 (enc32 kp.1 ++ enc32 kp.2)).map fun l => (l, rs.2 + 8))
        (some (res, 21))) with _ | fin
    · rw [hf] at h; cases h
    · rw [hf] at h
      simp only [Option.map_some'] at h
      cases h
      have h1 := entriesFold_length p.key_page_pairs (res, 21) fin hf
      have h2 := writeAt_length hw
      simp only [List.length_replicate] at h2
      simpa [h2] using h1

end Codec

/-!
## Supporting lemmas: page-table assoc list
-/

namespace BP
namespace BufferPool

lemma ptLookup_ptUpdate_self (pt : List (Nat × PageTableEntry)) (pid : Nat)
    (e e' : PageTableEntry) (h : ptLookup pt pid = some e) :
    ptLookup (ptUpdate pt pid e') pid = some e' := by
  induction pt with
  | nil => cases h
  | cons x rest ih =>
    by_cases hx : x.1 = pid
    · simp [ptLookup, ptUpdate, hx]
    · simp only [ptLookup, ptUpdate, hx, if_false] at h ⊢
      exact ih h

lemma ptLookup_ptUpdate_other (pt : List (Nat × PageTableEntry)) (pid q : Nat)
    (e' : PageTableEntry) (hq : q ≠ pid) :
    ptLookup (ptUpdate pt pid e') q = ptLookup pt q := by
  induction pt with
  | nil => rfl
  | cons x rest ih =>
    by_cases hx : x.1 = pid
    · have hxq : ¬ x.1 = q := by rw [hx]; exact fun h => hq h.symm
      simp [ptLookup, ptUpdate, hx, hxq, show ¬ pid = q from fun h => hq h.symm]
    · by_cases hxq : x.1 = q <;> simp [ptLookup, ptUpdate, hx, hxq, ih, hq]

lemma ptLookup_append_right (pt : List (Nat × PageTableEntry)) (pid : Nat)
    (e : PageTableEntry) (h : ptLookup pt pid = none) :
    ptLookup (pt ++ [(pid, e)]) pid = some e := by
  induction pt with
  | nil => simp [ptLookup]
  | cons x rest ih =>
    by_cases hx : x.1 = pid
    · simp [ptLookup, hx] at h
    · simp only [List.cons_append, ptLookup, hx, if_false] at h ⊢
      exact ih h

lemma ptLookup_append_other (pt : List (Nat × PageTableEntry)) (pid q : Nat)
    (e : PageTableEntry) (hq : q ≠ pid) :
    ptLookup (pt ++ [(pid, e)]) q = ptLookup pt q := by
  induction pt with
  | nil => simp [ptLookup, show ¬ pid = q from fun h => hq h.symm]
  | cons x rest ih =>
    by_cases hx : x.1 = q <;> simp [ptLookup, hx, ih]

end BufferPool
end BP

/-!
## Supporting lemmas: buffer pool flush and pin counts
-/

namespace BP
namespace BufferPool

variable {P : Type}

lemma drainWrites_cons_dirty {data : List (Option P)} {pe : Nat × PageTableEntry}
    {rest : List (Nat × PageTableEntry)} {pg : P}
    (hd : pe.2.dirty = true) (hg : data.get? pe.2.frame_index = some (some pg)) :
    drainWrites data (pe :: rest) = (pe.1, pg) :: drainWrites data rest := by
  unfold drainWrites
  rw [List.filterMap_cons, if_pos hd, hg]

lemma drainWrites_cons_clean {data : List (Option P)} {pe : Nat × PageTableEntry}
    {rest : List (Nat × PageTableEntry)} (hd : ¬ pe.2.dirty = true) :
    drainWrites data (pe :: rest) = drainWrites data rest := by
  simp [drainWrites, List.filterMap_cons, hd]

lemma mem_drainWrites_fst {data : List (Option P)} :
    ∀ {l : List (Nat × PageTableEntry)} {w : Nat × P},
      w ∈ drainWrites data l → w.1 ∈ l.map Prod.fst := by
  intro l
  induction l with
  | nil => intro w h; cases h
  | cons pe rest ih =>
    intro w h
    by_cases hd : pe.2.dirty
    · rcases hg : data.get? pe.2.frame_index with _ | opg
      · rw [drainWrites, List.filterMap_cons, if_pos hd, hg] at h
        exact List.mem_cons_of_mem _ (ih h)
      · rcases opg with _ | pg
        · rw [drainWrites, List.filterMap_cons, if_pos hd, hg] at h
          exact List.mem_cons_of_mem _ (ih h)
        · rw [drainWrites, List.filterMap_cons, if_pos hd, hg] at h
          rcases List.mem_cons.mp h with h | h
          · subst h; simp
          · exact List.mem_cons_of_mem _ (ih h)
    · rw [drainWrites_cons_clean hd] at h
      exact List.mem_cons_of_mem _ (ih h)

lemma flushDrain_spec :
    ∀ (l : List (Nat × PageTableEntry)) (bp bp2 : BufferPool P),
      flushDrain bp l = some bp2 →
      bp2.writeLog = bp.writeLog ++ drainWrites bp.data l ∧
      bp2.data = bp.data ∧ bp2.page_table = bp.page_table ∧
      bp2.lru_replacer = bp.lru_replacer ∧
      (∀ pe ∈ l, pe.2.dirty = true →
        ∃ pg, bp.data.get? pe.2.frame_index = some (some pg)) := by
  intro l
  induction l with
  | nil =>
    intro bp bp2 h
    cases h
    simp [drainWrites]
  | cons pe rest ih =>
    intro bp bp2 h
    by_cases hd : pe.2.dirty
    · simp only [flushDrain, hd, if_true] at h
      rcases hg : bp.data.get? pe.2.frame_index with _ | opg
      · rw [hg] at h; cases h
      · rcases opg with _ | pg
        · rw [hg] at h; cases h
        · rw [hg] at h
          have hrec := ih (write_page bp pe.1 pg) bp2 h
          refine ⟨?_, hrec.2.1, hrec.2.2.1, hrec.2.2.2.1, ?_⟩
          · rw [hrec.1, drainWrites_cons_dirty hd hg]
            show bp.writeLog ++ [(pe.1, pg)] ++ drainWrites bp.data rest = _
            rw [List.append_assoc]
            rfl
          · intro qe hq hqd
            rcases List.mem_cons.mp hq with hq | hq
            · subst hq; exact ⟨pg, hg⟩
            · exact hrec.2.2.2.2 qe hq hqd
    · simp only [flushDrain, hd, if_false] at h
      have hrec := ih bp bp2 h
      refine ⟨?_, hrec.2.1, hrec.2.2.1, hrec.2.2.2.1, ?_⟩
      · rw [hrec.1, drainWrites_cons_clean hd]
      · intro qe hq hqd
        rcases List.mem_cons.mp hq with hq | hq
        · subst hq; exact absurd hqd hd
        · exact hrec.2.2.2.2 qe hq hqd

lemma drainWrites_count (data : List (Option P)) :
    ∀ (l : List (Nat × PageTableEntry)) (pid : Nat),
      (l.map Prod.fst).Nodup →
      (∀ pe ∈ l, pe.2.dirty = true →
        ∃ pg, data.get? pe.2.frame_index = some (some pg)) →
      ((drainWrites data l).map Prod.fst).count pid =
        (match ptLookup l pid with
          | some e => if e.dirty then 1 else 0
          | none => 0) := by
  intro l
  induction l with
  | nil => intro pid _ _; rfl
  | cons pe rest ih =>
    intro pid hnd hframes
    have hnd2 : (rest.map Prod.fst).Nodup := (List.nodup_cons.mp (by simpa using hnd)).2
    have hpe : pe.1 ∉ rest.map Prod.fst := (List.nodup_cons.mp (by simpa using hnd)).1
    have ihr := ih pid hnd2 (fun qe hq => hframes qe (List.mem_cons_of_mem _ hq))
    by_cases hp : pe.1 = pid
    · subst hp
      have hzero : ((drainWrites data rest).map Prod.fst).count pe.1 = 0 := by
        rw [List.count_eq_zero]
        intro hmem
        obtain ⟨w, hw, hfst⟩ := List.mem_map.mp hmem
        exact hpe (hfst ▸ mem_drainWrites_fst hw)
      by_cases hd : pe.2.dirty
      · obtain ⟨pg, hg⟩ := hframes pe (List.mem_cons_self _ _) hd
        rw [drainWrites_cons_dirty hd hg]
        simp only [List.map_cons, List.count_cons, ptLookup, if_pos rfl, hd, if_true, hzero]
        simp
      · rw [drainWrites_cons_clean hd]
        simp only [ptLookup, if_pos rfl]
        rw [hzero]
        simp [hd]
    · by_cases hd : pe.2.dirty
      · obtain ⟨pg, hg⟩ := hframes pe (List.mem_cons_self _ _) hd
        rw [drainWrites_cons_dirty hd hg]
        simp only [List.map_cons, List.count_cons, ptLookup, hp, if_false]
        rw [ihr]
        simp [hp]
      · rw [drainWrites_cons_clean hd]
        simp only [ptLookup, hp, if_false]
        exact ihr

lemma refCount_eq_zero_of_none {bp : BufferPool P} {pid : Nat}
    (h : ptLookup bp.page_table pid = none) : refCount bp pid = 0 := by
  unfold refCount
  rw [h]

lemma load_page_from_disk_refCount {bp : BufferPool P} {pid f fr : Nat}
    {bp2 : BufferPool P}
    (h : load_page_from_disk bp pid f = some (fr, bp2))
    (hnone : ptLookup bp.page_table pid = none) :
    refCount bp2 pid = refCount bp pid + 1 ∧
    ∀ q, q ≠ pid → refCount bp2 q = refCount bp q := by
  unfold load_page_from_disk at h
  simp only [ptInsert, hnone, Option.isSome_none, Bool.false_eq_true, if_false] at h
  split at h
  · cases h
    constructor
    · simp [refCount, ptLookup_append_right _ _ _ hnone, hnone, PageTableEntry.new]
    · intro q hq
      simp [refCount, ptLookup_append_other _ _ _ _ hq]
  · cases h

lemma load_page_refCount {bp : BufferPool P} {pid fr : Nat} {bp2 : BufferPool P}
    (h : load_page bp pid = some (some fr, bp2)) :
    refCount bp2 pid = refCount bp pid + 1 ∧
    ∀ q, q ≠ pid → refCount bp2 q = refCount bp q := by
  unfold load_page at h
  rcases he : ptLookup bp.page_table pid with _ | e
  · rw [he] at h
    simp only at h
    split at h
    · rcases hpop : bp.lru_replacer.pop_least_recently_used with ⟨ovictim, lru⟩
      rw [hpop] at h
      rcases ovictim with _ | victim
      · simp at h
      · simp only at h
        rcases hv : ptLookup bp.page_table victim with _ | ve
        · rw [hv] at h; cases h
        · rw [hv] at h
          simp only [Option.bind_eq_bind] at h
          split at h
          · rcases hg : ({ bp with lru_replacer := lru } : BufferPool P).data.get? ve.frame_index
                with _ | opg
            · rw [hg] at h; cases h
            · rcases opg with _ | pg
              · rw [hg] at h; cases h
              · rw [hg] at h
                simp only [Option.some_bind, Option.map_eq_map, Option.map_eq_some'] at h
                obtain ⟨⟨fr2, bpm⟩, hld, heq⟩ := h
                cases heq
                have := load_page_from_disk_refCount hld (by simpa [write_page] using he)
                simpa [write_page, refCount] using this
          · simp only [Option.some_bind, Option.map_eq_map, Option.map_eq_some'] at h
            obtain ⟨⟨fr2, bpm⟩, hld, heq⟩ := h
            cases heq
            have := load_page_from_disk_refCount hld (by simpa using he)
            simpa [refCount] using this
    · rcases hff : bp.data.findIdx? Option.isNone with _ | f
      · rw [hff] at h; cases h
      · rw [hff] at h
        simp only [Option.map_eq_map, Option.map_eq_some'] at h
        obtain ⟨⟨fr2, bpm⟩, hld, heq⟩ := h
        cases heq
        exact load_page_from_disk_refCount hld he
  · rw [he] at h
    simp only [Option.some.injEq, Prod.mk.injEq] at h
    obtain ⟨hfr, hbp⟩ := h
    subst hbp
    constructor
    · by_cases h1 : e.ref_count + 1 = 1 <;>
        simp [refCount, h1, he, ptLookup_ptUpdate_self _ _ _ _ he]
    · intro q hq
      by_cases h1 : e.ref_count + 1 = 1 <;>
        simp [refCount, h1, ptLookup_ptUpdate_other _ _ _ _ hq]

end BufferPool
end BP

/-!
## Supporting lemmas: B+ traversal pin counts
-/

namespace BPlusTree

open BP BP.BufferPool

variable {Key : Type} [LinearOrder Key]

lemma getLeafLoop_refCount (key : Key) :
    ∀ (fuel : Nat) (bp : BufferPool (BPTPage Key)) (page : BPTPage Key)
      (visited : List Nat) (pg2 : BPTPage Key)
      (bp2 : BufferPool (BPTPage Key)) (visited2 : List Nat),
      getLeafLoop key fuel bp page visited = some (pg2, bp2, visited2) →
      (∀ q, refCount bp2 q + visited.count q = refCount bp q + visited2.count q) ∧
      (visited ≠ [] → visited2.head? = visited.head?) := by
  intro fuel
  induction fuel with
  | zero =>
    intro bp page visited pg2 bp2 visited2 h
    cases page with
    | leaf ks rs =>
      cases h
      exact ⟨fun q => rfl, fun _ => rfl⟩
    | internal entries => cases h
  | succ fuel ih =>
    intro bp page visited pg2 bp2 visited2 h
    cases page with
    | leaf ks rs =>
      cases h
      exact ⟨fun q => rfl, fun _ => rfl⟩
    | internal entries =>
      simp only [getLeafLoop, Option.bind_eq_bind] at h
      rcases hnext : get_child_node entries key with _ | next_pid
      · rw [hnext] at h; cases h
      · rw [hnext] at h
        simp only [Option.some_bind] at h
        rcases hload : load_page bp next_pid with _ | rb
        · rw [hload] at h; cases h
        · rw [hload] at h
          simp only [Option.some_bind] at h
          rcases rb with ⟨ofr, bpm⟩
          rcases ofr with _ | cf
          · cases h
          · simp only [Option.some_bind] at h
            rcases hframe : bpm.data.get? cf with _ | opage
            · rw [hframe] at h; cases h
            · rcases opage with _ | page2
              · rw [hframe] at h; cases h
              · rw [hframe] at h
                have hload2 := load_page_refCount hload
                have hrec := ih bpm page2 (visited ++ [next_pid]) pg2 bp2 visited2 h
                constructor
                · intro q
                  have h1 := hrec.1 q
                  rw [List.count_append] at h1
                  by_cases hq : q = next_pid
                  · subst hq
                    have h2 := hload2.1
                    simp [List.count_singleton] at h1
                    omega
                  · have h2 := hload2.2 q hq
                    have h3 : List.count q [next_pid] = 0 := by
                      simp [List.count_singleton, hq]
                    rw [h3] at h1
                    omega
                · intro hne
                  have h2 := hrec.2 (by simp)
                  rw [h2]
                  rcases visited with _ | ⟨v, t⟩
                  · exact absurd rfl hne
                  · rfl

end BPlusTree

/-!
## Supporting lemmas: bucket live entries
-/

namespace HashBucketPage

variable {K V : Type}

lemma mem_liveL (e : K × V) :
    ∀ (rs : List Bool) (kvs : List (K × V)),
      (e ∈ (rs.zip kvs).filterMap fun rv => if rv.1 then some rv.2 else none) ↔
        ∃ j, rs.get? j = some true ∧ kvs.get? j = some e := by
  intro rs
  induction rs with
  | nil =>
    intro kvs
    simp
  | cons r rt ih =>
    intro kvs
    cases kvs with
    | nil => simp
    | cons kv kvt =>
      rw [List.zip_cons_cons, List.filterMap_cons]
      by_cases hr : r
      · subst hr
        simp only [if_pos trivial]
        constructor
        · intro hm
          rcases List.mem_cons.mp hm with hm | hm
          · exact ⟨0, by simp [hm]⟩
          · obtain ⟨j, hj1, hj2⟩ := (ih kvt).mp hm
            exact ⟨j + 1, by simpa using hj1, by simpa using hj2⟩
        · rintro ⟨j, hj1, hj2⟩
          cases j with
          | zero =>
            simp only [List.get?_cons_zero, Option.some.injEq] at hj2
            subst hj2
            exact List.mem_cons_self _ _
          | succ j =>
            exact List.mem_cons_of_mem _ ((ih kvt).mpr ⟨j, by simpa using hj1, by simpa using hj2⟩)
      · have hr2 : r = false := by simpa using hr
        subst hr2
        simp only [Bool.false_eq_true, if_false]
        constructor
        · intro hm
          obtain ⟨j, hj1, hj2⟩ := (ih kvt).mp hm
          exact ⟨j + 1, by simpa using hj1, by simpa using hj2⟩
        · rintro ⟨j, hj1, hj2⟩
          cases j with
          | zero => simp at hj1
          | succ j =>
            exact (ih kvt).mpr ⟨j, by simpa using hj1, by simpa using hj2⟩

lemma mem_live_iff (b : HashBucketPage K V) (e : K × V) :
    e ∈ b.live ↔ ∃ j, b.readable.get? j = some true ∧ b.key_values.get? j = some e :=
  mem_liveL e b.readable b.key_values

lemma removeScan_found [DecidableEq K] (b : HashBucketPage K V) (key : K) :
    ∀ (count i0 i : Nat),
      removeScan b key count i0 = some (some i) →
      ∃ kv, b.readable.get? i = some true ∧ b.key_values.get? i = some kv ∧
        kv.1 = key := by
  intro count
  induction count with
  | zero => intro i0 i h; cases h
  | succ count ih =>
    intro i0 i h
    rw [removeScan] at h
    rcases hkv : b.key_values.get? i0 with _ | kv
    · rw [hkv] at h; cases h
    · rw [hkv] at h
      by_cases hk : kv.1 = key
      · simp only [hk, if_pos rfl] at h
        rcases hr : b.readable.get? i0 with _ | r
        · rw [hr] at h; cases h
        · rw [hr] at h
          by_cases hrt : r
          · subst hrt
            simp only [if_pos trivial, Option.some.injEq] at h
            cases h
            exact ⟨kv, hr, hkv, hk⟩
          · have hr2 : r = false := by simpa using hrt
            subst hr2
            simp only [Bool.false_eq_true, if_false] at h
            exact ih (i0 + 1) i h
      · simp only [hk, if_false] at h
        exact ih (i0 + 1) i h

end HashBucketPage


/-!
## Supporting lemmas: extendible hashing invariant preservation
-/

/-! Nat bit/modulus helpers -/

lemma modPowLe {a l g : Nat} (h : l ≤ g) : a % 2 ^ g % 2 ^ l = a % 2 ^ l :=
  Nat.mod_mod_of_dvd a (pow_dvd_pow 2 h)

lemma bitAsDivMod (h l : Nat) : (h >>> l) &&& 1 = h / 2 ^ l % 2 := by
  rw [Nat.shiftRight_eq_div_pow, Nat.and_one_is_mod]

lemma modTwoPowSucc (a l : Nat) : a % 2 ^ (l + 1) = a % 2 ^ l + 2 ^ l * (a / 2 ^ l % 2) := by
  rw [pow_succ, Nat.mod_mul]

lemma modSuccOfParts {a b l : Nat} (hm : a % 2 ^ l = b % 2 ^ l)
    (hb : a / 2 ^ l % 2 = b / 2 ^ l % 2) : a % 2 ^ (l + 1) = b % 2 ^ (l + 1) := by
  rw [modTwoPowSucc, modTwoPowSucc, hm, hb]

lemma modOfModSucc {a b l : Nat} (h : a % 2 ^ (l + 1) = b % 2 ^ (l + 1)) :
    a % 2 ^ l = b % 2 ^ l := by
  have := congrArg (· % 2 ^ l) h
  simpa [modPowLe (Nat.le_succ l)] using this

lemma bitOfModSucc {a b l : Nat} (h : a % 2 ^ (l + 1) = b % 2 ^ (l + 1)) :
    a / 2 ^ l % 2 = b / 2 ^ l % 2 := by
  have hm := modOfModSucc h
  have ha := modTwoPowSucc a l
  have hb := modTwoPowSucc b l
  have hpos : 0 < 2 ^ l := Nat.pos_pow_of_pos l (by omega)
  have : 2 ^ l * (a / 2 ^ l % 2) = 2 ^ l * (b / 2 ^ l % 2) := by omega
  exact Nat.eq_of_mul_eq_mul_left hpos this

lemma andOneEqOneOfNeZero {n : Nat} (h : ¬ n &&& 1 = 0) : n &&& 1 = 1 := by
  have := bitAsDivMod n 0
  simp only [pow_zero, Nat.div_one] at this
  rw [Nat.and_one_is_mod] at h ⊢
  omega

namespace HashBucketPage

variable {K V : Type}

lemma firstFreeLoop_found (rs : List Bool) :
    ∀ (count i0 i : Nat), firstFreeLoop rs count i0 = some i →
      rs.get? i = some false := by
  intro count
  induction count with
  | zero => intro i0 i h; cases h
  | succ count ih =>
    intro i0 i h
    rw [firstFreeLoop] at h
    rcases hr : rs.get? i0 with _ | r
    · rw [hr] at h; cases h
    · rw [hr] at h
      by_cases hb : r
      · subst hb
        simp only [Bool.not_true, Bool.false_eq_true, if_false] at h
        exact ih (i0 + 1) i h
      · have hb2 : r = false := by simpa using hb
        subst hb2
        simp only [Bool.not_false, if_true, Option.some.injEq] at h
        subst h
        exact hr

lemma insert_eq {b : HashBucketPage K V} {k : K} {v : V} {i : Nat}
    (hff : b.first_free_index = some i)
    (hio : i < b.has_been_occupied.length)
    (hik : i < b.key_values.length) :
    b.insert k v = some
      { readable := b.readable.set i true
        has_been_occupied := b.has_been_occupied.set i true
        key_values := b.key_values.set i (k, v) } := by
  have hr : b.readable.get? i = some false :=
    firstFreeLoop_found b.readable b.readable.length 0 i hff
  have hr2 : b.readable[i]? = some false := by
    rw [← List.get?_eq_getElem?]; exact hr
  simp [insert, toggle_readable, set_has_been_occupied, hff, hr2, hio, hik]

lemma remove_index_eq {b : HashBucketPage K V} {i : Nat} {r : Bool} {kv : K × V}
    (dK : K) (dV : V)
    (hr : b.readable.get? i = some r)
    (hkv : b.key_values.get? i = some kv) :
    b.remove_index i dK dV = some (kv,
      { readable := b.readable.set i (!r)
        has_been_occupied := b.has_been_occupied
        key_values := b.key_values.set i (dK, dV) }) := by
  unfold remove_index toggle_readable
  rw [hr]
  simp only [Option.some_bind]
  rw [show ({ b with readable := b.readable.set i (!r) } : HashBucketPage K V).key_values.get? i
      = some kv from hkv]

lemma live_empty (n : Nat) (dK : K) (dV : V) : (empty n dK dV : HashBucketPage K V).live = [] := by
  unfold live empty
  induction n with
  | zero => rfl
  | succ m ih => simp [List.replicate_succ, ih]


lemma is_full_readable {b : HashBucketPage K V} (h : b.is_full = true) :
    ∀ {j : Nat} {r : Bool}, b.readable.get? j = some r → r = true := by
  intro j r hj
  have hmem : r ∈ b.readable := List.get?_mem hj
  have := List.all_eq_true.mp h r hmem
  simpa using this

end HashBucketPage


set_option linter.deprecated false in
lemma get?Set_eq {α : Type} (l : List α) (i : Nat) (a : α) (h : i < l.length) :
    (l.set i a).get? i = some a := List.get?_set_eq_of_lt a h

set_option linter.deprecated false in
lemma get?Set_ne {α : Type} (l : List α) (i j : Nat) (a : α) (h : i ≠ j) :
    (l.set i a).get? j = l.get? j := List.get?_set_ne a l h

namespace HashBucketPage

variable {K V : Type}

lemma insert_live {b b2 : HashBucketPage K V} {k : K} {v : V}
    (h : b.insert k v = some b2) :
    (∀ e, e ∈ b2.live → e ∈ b.live ∨ e = (k, v)) ∧
    (k, v) ∈ b2.live ∧
    b2.readable.length = b.readable.length ∧
    b2.key_values.length = b.key_values.length := by
  unfold insert at h
  rcases hff : b.first_free_index with _ | i
  · rw [hff] at h; cases h
  · rw [hff] at h
    simp only [Option.some_bind] at h
    have hr : b.readable.get? i = some false :=
      firstFreeLoop_found b.readable b.readable.length 0 i hff
    have hrlen : i < b.readable.length := (List.get?_eq_some.mp hr).1
    unfold toggle_readable at h
    rw [hr] at h
    simp only [Option.some_bind, Bool.not_false] at h
    unfold set_has_been_occupied at h
    by_cases hio : i < b.has_been_occupied.length
    · simp only [hio, if_pos trivial, Option.some_bind] at h
      by_cases hik : i < b.key_values.length
      · simp only [hik, if_pos trivial, Option.some.injEq] at h
        subst h
        refine ⟨?_, ?_, by simp, by simp⟩
        · intro e he
          obtain ⟨j, hj1, hj2⟩ := (mem_live_iff _ e).mp he
          by_cases hji : j = i
          · subst hji
            rw [get?Set_eq _ _ _ hik] at hj2
            right
            exact (Option.some.injEq _ _ ▸ hj2).symm
          · left
            rw [get?Set_ne _ _ _ _ (fun hh => hji hh.symm)] at hj1
            rw [get?Set_ne _ _ _ _ (fun hh => hji hh.symm)] at hj2
            exact (mem_live_iff _ e).mpr ⟨j, hj1, hj2⟩
        · exact (mem_live_iff _ _).mpr
            ⟨i, get?Set_eq _ _ _ hrlen, get?Set_eq _ _ _ hik⟩
      · simp only [hik, if_false] at h
        cases h
    · simp only [hio, if_false] at h
      cases h

end HashBucketPage

namespace HState

variable {K V : Type}

lemma store_writePage (s : HState K V) (pid : Nat) (p : HashPage K V) (q : Nat) :
    (s.writePage pid p).store q = if q = pid then some p else s.store q := rfl

lemma nextPid_writePage (s : HState K V) (pid : Nat) (p : HashPage K V) :
    (s.writePage pid p).nextPid = s.nextPid := rfl

lemma loadDir_inv {s : HState K V} {p : Nat} {d : HashDirectoryPage}
    (h : s.loadDir p = some d) : s.store p = some (HashPage.dir d) := by
  unfold loadDir at h
  rcases hs : s.store p with _ | pg
  · rw [hs] at h; cases h
  · rw [hs] at h
    cases pg with
    | dir d2 => cases h; rfl
    | bucket b => cases h

lemma loadDir_of_store {s : HState K V} {p : Nat} {d : HashDirectoryPage}
    (h : s.store p = some (HashPage.dir d)) : s.loadDir p = some d := by
  unfold loadDir
  rw [h]

lemma loadBucket_inv {s : HState K V} {p : Nat} {b : HashBucketPage K V}
    (h : s.loadBucket p = some b) : s.store p = some (HashPage.bucket b) := by
  unfold loadBucket at h
  rcases hs : s.store p with _ | pg
  · rw [hs] at h; cases h
  · rw [hs] at h
    cases pg with
    | dir d2 => cases h
    | bucket b2 => cases h; rfl

lemma loadBucket_of_store {s : HState K V} {p : Nat} {b : HashBucketPage K V}
    (h : s.store p = some (HashPage.bucket b)) : s.loadBucket p = some b := by
  unfold loadBucket
  rw [h]

lemma liveOf_of_bucket {s : HState K V} {p : Nat} {b : HashBucketPage K V}
    (h : s.store p = some (HashPage.bucket b)) : s.liveOf p = b.live := by
  unfold liveOf
  rw [h]

lemma liveOf_of_dir {s : HState K V} {p : Nat} {d : HashDirectoryPage}
    (h : s.store p = some (HashPage.dir d)) : s.liveOf p = [] := by
  unfold liveOf
  rw [h]

lemma liveOf_of_none {s : HState K V} {p : Nat}
    (h : s.store p = none) : s.liveOf p = [] := by
  unfold liveOf
  rw [h]

end HState

namespace ExtendibleHashing

lemma dirInv_of_wf {hash : K → Nat} {dirPid : Nat} {s : HState K V}
    (h : WF hash dirPid s) : DirInv hash dirPid s := by
  obtain ⟨d, hd, hwf⟩ := h
  intro d2 hd2 i hi e he
  rw [hd] at hd2
  cases hd2
  exact hwf.w6 i hi e he

end ExtendibleHashing

namespace ExtendibleHashing

variable {K V : Type} [DecidableEq K]

lemma rehashLoop_spec (hash : K → Nat) (dK : K) (dV : V) (L : Nat) :
    ∀ (count i : Nat) (old nw old2 nw2 : HashBucketPage K V),
      rehashLoop hash dK dV L count i old nw = some (old2, nw2) →
      count + i = old.key_values.length →
      old.readable.length = old.key_values.length →
      (∀ j, i ≤ j → j < old.key_values.length → old.readable.get? j = some true) →
      old2.readable.length = old.readable.length ∧
      old2.key_values.length = old.key_values.length ∧
      (∀ j, j < i →
        old2.readable.get? j = old.readable.get? j ∧
        old2.key_values.get? j = old.key_values.get? j) ∧
      (∀ j, i ≤ j → j < old.key_values.length →
        ∀ kv : K × V, old.key_values.get? j = some kv →
        (if (hash kv.1 >>> (L - 1)) &&& 1 = 0
         then old2.readable.get? j = some false
         else old2.readable.get? j = some true ∧ old2.key_values.get? j = some kv)) ∧
      (∀ e, e ∈ nw2.live → e ∈ nw.live ∨
        (∃ j, i ≤ j ∧ old.key_values.get? j = some e ∧
          (hash e.1 >>> (L - 1)) &&& 1 = 0)) := by
  intro count
  induction count with
  | zero =>
    intro i old nw old2 nw2 h hcount hlen hsuf
    cases h
    refine ⟨rfl, rfl, fun j _ => ⟨rfl, rfl⟩, ?_, fun e he => Or.inl he⟩
    intro j hj1 hj2 kv hkv
    omega
  | succ count ih =>
    intro i old nw old2 nw2 h hcount hlen hsuf
    have hilt : i < old.key_values.length := by omega
    obtain ⟨kv0, hkv0⟩ : ∃ kv, old.key_values.get? i = some kv := by
      rcases hg : old.key_values.get? i with _ | kv
      · exact absurd (List.get?_eq_none.mp hg) (by omega)
      · exact ⟨kv, rfl⟩
    rw [rehashLoop] at h
    unfold HashBucketPage.key_at at h
    rw [hkv0] at h
    simp only [Option.map_some', Option.some_bind] at h
    have hri : old.readable.get? i = some true := hsuf i (Nat.le_refl i) hilt
    by_cases hbit : (hash kv0.1 >>> (L - 1)) &&& 1 = 0
    · rw [if_pos hbit] at h
      rw [HashBucketPage.remove_index_eq dK dV hri hkv0] at h
      simp only [Option.some_bind, Bool.not_true] at h
      rcases hins : nw.insert kv0.1 kv0.2 with _ | nw1
      · rw [hins] at h; cases h
      · rw [hins] at h
        simp only [Option.some_bind] at h
        set old1 : HashBucketPage K V :=
          { readable := old.readable.set i false
            has_been_occupied := old.has_been_occupied
            key_values := old.key_values.set i (dK, dV) } with hold1
        have hrec := ih (i + 1) old1 nw1 old2 nw2 h
          (by simp [hold1]; omega)
          (by simp [hold1, hlen])
          (by
            intro j hj1 hj2
            simp only [hold1] at hj2 ⊢
            rw [List.length_set] at hj2
            rw [get?Set_ne _ _ _ _ (by omega)]
            exact hsuf j (by omega) hj2)
        have hins_live := HashBucketPage.insert_live hins
        obtain ⟨h1, h2, h3, h4, h5⟩ := hrec
        have hlen1r : old1.readable.length = old.readable.length := by
          simp [hold1]
        have hlen1k : old1.key_values.length = old.key_values.length := by
          simp [hold1]
        refine ⟨by rw [h1, hlen1r], by rw [h2, hlen1k], ?_, ?_, ?_⟩
        · intro j hj
          have := h3 j (by omega)
          rcases this with ⟨ha, hb⟩
          refine ⟨?_, ?_⟩
          · rw [ha, hold1]
            exact get?Set_ne _ _ _ _ (by omega)
          · rw [hb, hold1]
            exact get?Set_ne _ _ _ _ (by omega)
        · intro j hj1 hj2 kv hkv
          by_cases hji : j = i
          · subst hji
            have hkveq : kv = kv0 := by
              rw [hkv0] at hkv
              exact (Option.some.injEq _ _ ▸ hkv).symm
            subst hkveq
            rw [if_pos hbit]
            have := (h3 j (by omega)).1
            rw [this, hold1]
            exact get?Set_eq _ _ _ (List.get?_eq_some.mp hri).1
          · have hj1' : i + 1 ≤ j := by omega
            have hkv1 : old1.key_values.get? j = some kv := by
              rw [hold1]
              show (old.key_values.set i (dK, dV)).get? j = some kv
              rw [get?Set_ne _ _ _ _ (by omega)]
              exact hkv
            have := h4 j hj1' (by rw [hlen1k]; exact hj2) kv hkv1
            exact this
        · intro e he
          rcases h5 e he with he | ⟨j, hj1, hj2, hj3⟩
          · rcases hins_live.1 e he with he2 | he2
            · exact Or.inl he2
            · subst he2
              exact Or.inr ⟨i, Nat.le_refl i, hkv0, hbit⟩
          · have : old.key_values.get? j = some e := by
              have : old1.key_values.get? j = some e := hj2
              rw [hold1] at this
              rw [get?Set_ne _ _ _ _ (by omega)] at this
              exact this
            exact Or.inr ⟨j, by omega, this, hj3⟩
    · rw [if_neg hbit] at h
      have hrec := ih (i + 1) old nw old2 nw2 h (by omega) hlen
        (fun j hj1 hj2 => hsuf j (by omega) hj2)
      obtain ⟨h1, h2, h3, h4, h5⟩ := hrec
      refine ⟨h1, h2, fun j hj => h3 j (by omega), ?_, ?_⟩
      · intro j hj1 hj2 kv hkv
        by_cases hji : j = i
        · subst hji
          have hkveq : kv = kv0 := by
            rw [hkv0] at hkv
            exact (Option.some.injEq _ _ ▸ hkv).symm
          subst hkveq
          rw [if_neg hbit]
          exact ⟨by rw [(h3 j (by omega)).1]; exact hri,
            by rw [(h3 j (by omega)).2]; exact hkv0⟩
        · exact h4 j (by omega) hj2 kv hkv
      · intro e he
        rcases h5 e he with he | ⟨j, hj1, hj2, hj3⟩
        · exact Or.inl he
        · exact Or.inr ⟨j, by omega, hj2, hj3⟩

end ExtendibleHashing

namespace ExtendibleHashing

variable {K V : Type} [DecidableEq K]

lemma rehash_full_spec (hash : K → Nat) (dK : K) (dV : V) (L : Nat)
    {old nw old2 nw2 : HashBucketPage K V}
    (h : rehashLoop hash dK dV L old.key_values.length 0 old nw = some (old2, nw2))
    (hfull : old.is_full = true)
    (hlen : old.readable.length = old.key_values.length) :
    (∀ e, e ∈ old2.live → e ∈ old.live ∧ (hash e.1 >>> (L - 1)) &&& 1 = 1) ∧
    (∀ e, e ∈ nw2.live → e ∈ nw.live ∨
      (e ∈ old.live ∧ (hash e.1 >>> (L - 1)) &&& 1 = 0)) ∧
    old2.readable.length = old.readable.length ∧
    old2.key_values.length = old.key_values.length := by
  have hsuf : ∀ j, 0 ≤ j → j < old.key_values.length → old.readable.get? j = some true := by
    intro j _ hj
    have hjr : j < old.readable.length := by omega
    rcases hg : old.readable.get? j with _ | r
    · exact absurd (List.get?_eq_none.mp hg) (by omega)
    · rw [HashBucketPage.is_full_readable hfull hg]
  obtain ⟨h1, h2, h3, h4, h5⟩ :=
    rehashLoop_spec hash dK dV L old.key_values.length 0 old nw old2 nw2 h
      (by omega) hlen hsuf
  refine ⟨?_, ?_, h1, h2⟩
  · intro e he
    obtain ⟨j, hr2, hk2⟩ := (HashBucketPage.mem_live_iff _ e).mp he
    have hjlen : j < old.key_values.length := by
      have := (List.get?_eq_some.mp hk2).1
      omega
    obtain ⟨kv, hkv⟩ : ∃ kv, old.key_values.get? j = some kv := by
      rcases hg : old.key_values.get? j with _ | kv
      · exact absurd (List.get?_eq_none.mp hg) (by omega)
      · exact ⟨kv, rfl⟩
    have h4j := h4 j (by omega) hjlen kv hkv
    by_cases hbit : (hash kv.1 >>> (L - 1)) &&& 1 = 0
    · rw [if_pos hbit] at h4j
      rw [h4j] at hr2
      cases hr2
    · rw [if_neg hbit] at h4j
      have : e = kv := by
        rw [h4j.2] at hk2
        exact (Option.some.injEq _ _ ▸ hk2).symm
      subst this
      exact ⟨(HashBucketPage.mem_live_iff _ _).mpr ⟨j, hsuf j (by omega) hjlen, hkv⟩,
        andOneEqOneOfNeZero hbit⟩
  · intro e he
    rcases h5 e he with he | ⟨j, _, hkv, hbit⟩
    · exact Or.inl he
    · have hjlen : j < old.key_values.length := (List.get?_eq_some.mp hkv).1
      exact Or.inr ⟨(HashBucketPage.mem_live_iff _ _).mpr
        ⟨j, hsuf j (by omega) hjlen, hkv⟩, hbit⟩

lemma localSplitLoop_spec (L newB oldB : Nat) :
    ∀ (count i : Nat) (d d2 : HashDirectoryPage),
      localSplitLoop d L newB oldB count i = some d2 →
      d2.global_depth = d.global_depth ∧
      (∀ j, j < i ∨ i + count ≤ j →
        d2.bucket_page_ids j = d.bucket_page_ids j ∧
        d2.local_depths j = d.local_depths j) ∧
      (∀ j, i ≤ j → j < i + count →
        (if d.bucket_page_ids j = oldB then
          d2.local_depths j = L ∧
          d2.bucket_page_ids j = (if (j >>> (L - 1)) &&& 1 = 0 then newB else oldB)
        else
          d2.bucket_page_ids j = d.bucket_page_ids j ∧
          d2.local_depths j = d.local_depths j)) ∧
      (count = 0 ∨ i + count ≤ 512) := by
  intro count
  induction count with
  | zero =>
    intro i d d2 h
    cases h
    exact ⟨rfl, fun j _ => ⟨rfl, rfl⟩, fun j hj1 hj2 => by omega, Or.inl rfl⟩
  | succ count ih =>
    intro i d d2 h
    rw [localSplitLoop] at h
    unfold HashDirectoryPage.get_bucket_page_id at h
    by_cases hi512 : i < 512
    · simp only [hi512, if_pos trivial, Option.some_bind] at h
      by_cases hbid : d.bucket_page_ids i = oldB
      · rw [if_pos hbid] at h
        unfold HashDirectoryPage.set_local_depth at h
        simp only [hi512, if_pos trivial, Option.some_bind] at h
        set dA : HashDirectoryPage :=
          { d with local_depths := fun j => if j = i then L else d.local_depths j } with hdA
        by_cases hbit : (i >>> (L - 1)) &&& 1 = 0
        · rw [if_pos hbit] at h
          unfold HashDirectoryPage.set_bucket_page_id at h
          simp only [hi512, if_pos trivial, Option.some_bind] at h
          set dB : HashDirectoryPage :=
            { dA with bucket_page_ids := fun j => if j = i then newB else dA.bucket_page_ids j }
            with hdB
          have hrec := ih (i + 1) dB d2 h
          obtain ⟨hg, huntouched, htouched, hbound⟩ := hrec
          have hBb : ∀ j, j ≠ i → dB.bucket_page_ids j = d.bucket_page_ids j := by
            intro j hj
            simp [hdB, hdA, hj]
          have hBl : ∀ j, j ≠ i → dB.local_depths j = d.local_depths j := by
            intro j hj
            simp [hdB, hdA, hj]
          refine ⟨hg, ?_, ?_, ?_⟩
          · intro j hj
            have hji : j ≠ i := by omega
            have := huntouched j (by omega)
            rw [hBb j hji] at this
            rw [hBl j hji] at this
            exact this
          · intro j hj1 hj2
            by_cases hji : j = i
            · subst hji
              rw [if_pos hbid]
              have := huntouched j (by omega)
              constructor
              · rw [this.2]
                simp [hdB, hdA]
              · rw [this.1, if_pos hbit]
                simp [hdB]
            · have hj1' : i + 1 ≤ j := by omega
              have := htouched j hj1' (by omega)
              rw [hBb j hji] at this
              by_cases hb2 : d.bucket_page_ids j = oldB
              · rw [if_pos hb2] at this ⊢
                exact this
              · rw [if_neg hb2] at this ⊢
                rw [hBl j hji] at this
                exact this
          · right
            rcases hbound with hb | hb
            · omega
            · omega
        · rw [if_neg hbit] at h
          have hrec := ih (i + 1) dA d2 h
          obtain ⟨hg, huntouched, htouched, hbound⟩ := hrec
          have hAb : ∀ j, dA.bucket_page_ids j = d.bucket_page_ids j := fun j => rfl
          have hAl : ∀ j, j ≠ i → dA.local_depths j = d.local_depths j := by
            intro j hj
            simp [hdA, hj]
          refine ⟨hg, ?_, ?_, ?_⟩
          · intro j hj
            have hji : j ≠ i := by omega
            have := huntouched j (by omega)
            rw [hAb j, hAl j hji] at this
            exact this
          · intro j hj1 hj2
            by_cases hji : j = i
            · subst hji
              rw [if_pos hbid]
              have := huntouched j (by omega)
              constructor
              · rw [this.2]
                simp [hdA]
              · rw [this.1, if_neg hbit, hbid]
            · have := htouched j (by omega) (by omega)
              rw [hAb j] at this
              by_cases hb2 : d.bucket_page_ids j = oldB
              · rw [if_pos hb2] at this ⊢
                rcases this with ⟨ha, hb⟩
                exact ⟨ha, hb⟩
              · rw [if_neg hb2] at this ⊢
                rw [hAb j, hAl j hji] at this
                exact this
          · right
            rcases hbound with hb | hb <;> omega
      · rw [if_neg hbid] at h
        have hrec := ih (i + 1) d d2 h
        obtain ⟨hg, huntouched, htouched, hbound⟩ := hrec
        refine ⟨hg, ?_, ?_, ?_⟩
        · intro j hj
          exact huntouched j (by omega)
        · intro j hj1 hj2
          by_cases hji : j = i
          · subst hji
            rw [if_neg hbid]
            exact huntouched j (by omega)
          · exact htouched j (by omega) (by omega)
        · right
          rcases hbound with hb | hb <;> omega
    · simp only [hi512, if_false] at h
      cases h

end ExtendibleHashing

namespace ExtendibleHashing

lemma globalCopyLoop_spec (oldG : Nat) :
    ∀ (count i : Nat) (d d2 : HashDirectoryPage),
      globalCopyLoop oldG count i d = some d2 →
      i + count ≤ 1 <<< oldG →
      d2.global_depth = d.global_depth ∧
      (∀ j, j < i + (1 <<< oldG) →
        d2.bucket_page_ids j = d.bucket_page_ids j ∧
        d2.local_depths j = d.local_depths j) ∧
      (∀ j, i ≤ j → j < i + count →
        d2.bucket_page_ids (j + (1 <<< oldG)) = d.bucket_page_ids j ∧
        d2.local_depths (j + (1 <<< oldG)) = d.local_depths j) ∧
      (count = 0 ∨ i + count + (1 <<< oldG) ≤ 512) := by
  intro count
  induction count with
  | zero =>
    intro i d d2 h _
    cases h
    exact ⟨rfl, fun j _ => ⟨rfl, rfl⟩, fun j hj1 hj2 => by omega, Or.inl rfl⟩
  | succ count ih =>
    intro i d d2 h hcount
    have hpow : 1 ≤ 1 <<< oldG := by
      rw [Nat.one_shiftLeft]
      exact Nat.one_le_two_pow
    rw [globalCopyLoop] at h
    unfold HashDirectoryPage.get_bucket_page_id at h
    by_cases hi512 : i < 512
    · simp only [hi512, if_pos trivial, Option.some_bind] at h
      unfold HashDirectoryPage.set_bucket_page_id at h
      by_cases hi512b : i + (1 <<< oldG) < 512
      · simp only [hi512b, if_pos trivial, Option.some_bind] at h
        set dA : HashDirectoryPage :=
          { d with bucket_page_ids := fun j =>
              if j = i + (1 <<< oldG) then d.bucket_page_ids i else d.bucket_page_ids j }
          with hdA
        unfold HashDirectoryPage.get_local_depth at h
        simp only [hi512, if_pos trivial, Option.some_bind] at h
        unfold HashDirectoryPage.set_local_depth at h
        simp only [hi512b, if_pos trivial, Option.some_bind] at h
        set dB : HashDirectoryPage :=
          { dA with local_depths := fun j =>
              if j = i + (1 <<< oldG) then dA.local_depths i else dA.local_depths j }
          with hdB
        have hrec := ih (i + 1) dB d2 h (by omega)
        obtain ⟨hg, hlow, hcopy, hbound⟩ := hrec
        have hBb : ∀ j, j ≠ i + (1 <<< oldG) → dB.bucket_page_ids j = d.bucket_page_ids j := by
          intro j hj
          simp [hdB, hdA, hj]
        have hBl : ∀ j, j ≠ i + (1 <<< oldG) → dB.local_depths j = d.local_depths j := by
          intro j hj
          simp [hdB, hdA, hj]
        have hBbi : dB.bucket_page_ids (i + (1 <<< oldG)) = d.bucket_page_ids i := by
          simp [hdB, hdA]
        have hBli : dB.local_depths (i + (1 <<< oldG)) = d.local_depths i := by
          have hne : ¬ (i = i + (1 <<< oldG)) := by omega
          simp [hdB, hdA, hne]
        refine ⟨hg, ?_, ?_, ?_⟩
        · intro j hj
          have hji : j ≠ i + (1 <<< oldG) := by omega
          have := hlow j (by omega)
          rw [hBb j hji, hBl j hji] at this
          exact this
        · intro j hj1 hj2
          by_cases hji : j = i
          · subst hji
            have := hlow (j + (1 <<< oldG)) (by omega)
            rw [hBbi] at this
            rw [hBli] at this
            exact this
          · have := hcopy j (by omega) (by omega)
            have hne : j + (1 <<< oldG) ≠ i + (1 <<< oldG) := by omega
            have hjlt : j ≠ i + (1 <<< oldG) := by omega
            rw [hBb j hjlt, hBl j hjlt] at this
            exact this
        · right
          rcases hbound with hb | hb <;> omega
      · simp only [hi512b, if_false] at h
        cases h
    · simp only [hi512, if_false] at h
      cases h

end ExtendibleHashing

namespace ExtendibleHashing

/-- Characterization of `local_split_bucket` on the depth-bumped directory:
slots of the old bucket's class get the new depth and are redirected by bit
`L-1`; all other slots are untouched. -/
lemma local_split_char {d dir1 : HashDirectoryPage} {i0 newB : Nat}
    (hsplit : local_split_bucket
      { d with local_depths := fun j =>
          if j = i0 then d.local_depths i0 + 1 else d.local_depths j }
      (d.local_depths i0 + 1) newB (d.bucket_page_ids i0) = some dir1) :
    dir1.global_depth = d.global_depth ∧
    (∀ j, j < 2 ^ d.global_depth → d.bucket_page_ids j = d.bucket_page_ids i0 →
      dir1.local_depths j = d.local_depths i0 + 1 ∧
      dir1.bucket_page_ids j =
        if (j >>> d.local_depths i0) &&& 1 = 0 then newB else d.bucket_page_ids i0) ∧
    (∀ j, j < 2 ^ d.global_depth → d.bucket_page_ids j ≠ d.bucket_page_ids i0 →
      dir1.bucket_page_ids j = d.bucket_page_ids j ∧
      dir1.local_depths j = d.local_depths j) ∧
    (∀ j, 2 ^ d.global_depth ≤ j →
      dir1.bucket_page_ids j =  d.bucket_page_ids j ∧
      dir1.local_depths j =
        (if j = i0 then d.local_depths i0 + 1 else d.local_depths j)) := by
  set dA : HashDirectoryPage :=
    { d with local_depths := fun j =>
        if j = i0 then d.local_depths i0 + 1 else d.local_depths j } with hdA
  unfold local_split_bucket at hsplit
  obtain ⟨hg, hun, hto, _⟩ :=
    localSplitLoop_spec (d.local_depths i0 + 1) newB (d.bucket_page_ids i0)
      (1 <<< dA.global_depth) 0 dA dir1 hsplit
  have hAg : dA.global_depth = d.global_depth := rfl
  have hAb : ∀ j, dA.bucket_page_ids j = d.bucket_page_ids j := fun _ => rfl
  have hs : (1 : Nat) <<< dA.global_depth = 2 ^ d.global_depth := by
    rw [Nat.one_shiftLeft, hAg]
  refine ⟨by rw [hg, hAg], ?_, ?_, ?_⟩
  · intro j hj hjo
    have := hto j (by omega) (by omega)
    rw [hAb j] at this
    rw [if_pos hjo] at this
    have hLsub : d.local_depths i0 + 1 - 1 = d.local_depths i0 := by omega
    rw [hLsub] at this
    exact this
  · intro j hj hjo
    have := hto j (by omega) (by omega)
    rw [hAb j] at this
    rw [if_neg hjo] at this
    refine ⟨this.1, ?_⟩
    rw [this.2, hdA]
    have hji : j ≠ i0 := by
      intro hji
      exact hjo (by rw [hji])
    simp [hji]
  · intro j hj
    have := hun j (by omega)
    exact ⟨this.1, this.2⟩

/-- The split directory produced by a local split keeps the directory
well-formed: depth bounds, the buddy-class characterization of pointers,
equal depths on shared buckets, and survival of every old pointer at a
congruent slot of no smaller depth. -/
lemma local_split_dir_wf {d dir1 : HashDirectoryPage} {i0 newB : Nat}
    (hi0 : i0 < 2 ^ d.global_depth)
    (hw1 : ∀ i, i < 2 ^ d.global_depth → d.local_depths i ≤ d.global_depth)
    (hw2 : ∀ i, i < 2 ^ d.global_depth → ∀ j, j < 2 ^ d.global_depth →
      (d.bucket_page_ids i = d.bucket_page_ids j ↔
        i % 2 ^ d.local_depths i = j % 2 ^ d.local_depths i))
    (hw2eq : ∀ i, i < 2 ^ d.global_depth → ∀ j, j < 2 ^ d.global_depth →
      d.bucket_page_ids i = d.bucket_page_ids j →
      d.local_depths i = d.local_depths j)
    (hfresh : ∀ j, j < 2 ^ d.global_depth → d.bucket_page_ids j ≠ newB)
    (hLle : d.local_depths i0 + 1 ≤ d.global_depth)
    (hG : dir1.global_depth = d.global_depth)
    (hOld : ∀ j, j < 2 ^ d.global_depth → d.bucket_page_ids j = d.bucket_page_ids i0 →
      dir1.local_depths j = d.local_depths i0 + 1 ∧
      dir1.bucket_page_ids j =
        if (j >>> d.local_depths i0) &&& 1 = 0 then newB else d.bucket_page_ids i0)
    (hElse : ∀ j, j < 2 ^ d.global_depth → d.bucket_page_ids j ≠ d.bucket_page_ids i0 →
      dir1.bucket_page_ids j = d.bucket_page_ids j ∧
      dir1.local_depths j = d.local_depths j) :
    (∀ u, u < 2 ^ d.global_depth → dir1.local_depths u ≤ d.global_depth) ∧
    (∀ u, u < 2 ^ d.global_depth → ∀ w, w < 2 ^ d.global_depth →
      (dir1.bucket_page_ids u = dir1.bucket_page_ids w ↔
        u % 2 ^ dir1.local_depths u = w % 2 ^ dir1.local_depths u)) ∧
    (∀ u, u < 2 ^ d.global_depth → ∀ w, w < 2 ^ d.global_depth →
      dir1.bucket_page_ids u = dir1.bucket_page_ids w →
      dir1.local_depths u = dir1.local_depths w) ∧
    (∀ i, i < 2 ^ d.global_depth →
      ∃ j, j < 2 ^ d.global_depth ∧
        dir1.bucket_page_ids j = d.bucket_page_ids i ∧
        j % 2 ^ d.local_depths i = i % 2 ^ d.local_depths i ∧
        d.local_depths i ≤ dir1.local_depths j) := by
  have hnewold : newB ≠ d.bucket_page_ids i0 := fun hh => hfresh i0 hi0 hh.symm
  have hclass : ∀ j, j < 2 ^ d.global_depth →
      (d.bucket_page_ids j = d.bucket_page_ids i0 ↔
        j % 2 ^ d.local_depths i0 = i0 % 2 ^ d.local_depths i0) := by
    intro j hj
    constructor
    · intro hh
      exact ((hw2 i0 hi0 j hj).mp hh.symm).symm
    · intro hh
      exact ((hw2 i0 hi0 j hj).mpr hh.symm).symm
  refine ⟨?_, ?_, ?_, ?_⟩
  · -- depth bound
    intro u hu
    by_cases huo : d.bucket_page_ids u = d.bucket_page_ids i0
    · rw [(hOld u hu huo).1]; exact hLle
    · rw [(hElse u hu huo).2]; exact hw1 u hu
  · -- buddy characterization
    intro u hu w hw
    by_cases huo : d.bucket_page_ids u = d.bucket_page_ids i0
    · obtain ⟨hLu, hBu⟩ := hOld u hu huo
      have huc : u % 2 ^ d.local_depths i0 = i0 % 2 ^ d.local_depths i0 :=
        (hclass u hu).mp huo
      by_cases hwo : d.bucket_page_ids w = d.bucket_page_ids i0
      · obtain ⟨hLw, hBw⟩ := hOld w hw hwo
        have hwc : w % 2 ^ d.local_depths i0 = i0 % 2 ^ d.local_depths i0 :=
          (hclass w hw).mp hwo
        rw [hLu, hBu, hBw]
        have hbu : (u >>> d.local_depths i0) &&& 1 = u / 2 ^ d.local_depths i0 % 2 :=
          bitAsDivMod u (d.local_depths i0)
        have hbw : (w >>> d.local_depths i0) &&& 1 = w / 2 ^ d.local_depths i0 % 2 :=
          bitAsDivMod w (d.local_depths i0)
        constructor
        · intro heq
          by_cases h1 : (u >>> d.local_depths i0) &&& 1 = 0 <;>
            by_cases h2 : (w >>> d.local_depths i0) &&& 1 = 0
          · refine modSuccOfParts (huc.trans hwc.symm) ?_
            rw [← hbu, ← hbw, h1, h2]
          · rw [if_pos h1, if_neg h2] at heq
            exact absurd heq hnewold
          · rw [if_neg h1, if_pos h2] at heq
            exact absurd heq.symm hnewold
          · refine modSuccOfParts (huc.trans hwc.symm) ?_
            rw [← hbu, ← hbw, andOneEqOneOfNeZero h1, andOneEqOneOfNeZero h2]
        · intro heq
          have hbits := bitOfModSucc heq
          have hiff : ((u >>> d.local_depths i0) &&& 1 = 0) ↔
              ((w >>> d.local_depths i0) &&& 1 = 0) := by
            rw [hbu, hbw, hbits]
          by_cases h1 : (u >>> d.local_depths i0) &&& 1 = 0
          · rw [if_pos h1, if_pos (hiff.mp h1)]
          · rw [if_neg h1, if_neg (fun hh => h1 (hiff.mpr hh))]
      · obtain ⟨hBw, hLw⟩ := hElse w hw hwo
        constructor
        · intro heq
          exfalso
          rw [hBu, hBw] at heq
          by_cases h1 : (u >>> d.local_depths i0) &&& 1 = 0
          · rw [if_pos h1] at heq
            exact hfresh w hw heq.symm
          · rw [if_neg h1] at heq
            exact hwo heq.symm
        · intro heq
          exfalso
          rw [hLu] at heq
          have h2 := modOfModSucc heq
          have : w % 2 ^ d.local_depths i0 = i0 % 2 ^ d.local_depths i0 := by
            rw [← h2, huc]
          exact hwo ((hclass w hw).mpr this)
    · obtain ⟨hBu, hLu⟩ := hElse u hu huo
      by_cases hwo : d.bucket_page_ids w = d.bucket_page_ids i0
      · obtain ⟨hLw, hBw⟩ := hOld w hw hwo
        constructor
        · intro heq
          exfalso
          rw [hBu, hBw] at heq
          by_cases h1 : (w >>> d.local_depths i0) &&& 1 = 0
          · rw [if_pos h1] at heq
            exact hfresh u hu heq
          · rw [if_neg h1] at heq
            exact huo heq
        · intro heq
          exfalso
          rw [hLu] at heq
          have := (hw2 u hu w hw).mpr heq
          exact huo (this.trans hwo)
      · obtain ⟨hBw, hLw⟩ := hElse w hw hwo
        rw [hBu, hBw, hLu]
        exact hw2 u hu w hw
  · -- equal depths on shared buckets
    intro u hu w hw heq
    by_cases huo : d.bucket_page_ids u = d.bucket_page_ids i0
    · obtain ⟨hLu, hBu⟩ := hOld u hu huo
      by_cases hwo : d.bucket_page_ids w = d.bucket_page_ids i0
      · rw [hLu, (hOld w hw hwo).1]
      · exfalso
        obtain ⟨hBw, hLw⟩ := hElse w hw hwo
        rw [hBu, hBw] at heq
        by_cases h1 : (u >>> d.local_depths i0) &&& 1 = 0
        · rw [if_pos h1] at heq
          exact hfresh w hw heq.symm
        · rw [if_neg h1] at heq
          exact hwo heq.symm
    · obtain ⟨hBu, hLu⟩ := hElse u hu huo
      by_cases hwo : d.bucket_page_ids w = d.bucket_page_ids i0
      · exfalso
        obtain ⟨hLw, hBw⟩ := hOld w hw hwo
        rw [hBu, hBw] at heq
        by_cases h1 : (w >>> d.local_depths i0) &&& 1 = 0
        · rw [if_pos h1] at heq
          exact hfresh u hu heq
        · rw [if_neg h1] at heq
          exact huo heq
      · obtain ⟨hBw, hLw⟩ := hElse w hw hwo
        rw [hLu, hLw]
        rw [hBu, hBw] at heq
        exact hw2eq u hu w hw heq
  · -- survival
    intro i hi
    by_cases hio : d.bucket_page_ids i = d.bucket_page_ids i0
    · have hLi : d.local_depths i = d.local_depths i0 := hw2eq i hi i0 hi0 hio
      have hic : i % 2 ^ d.local_depths i0 = i0 % 2 ^ d.local_depths i0 :=
        (hclass i hi).mp hio
      have hpos : 0 < 2 ^ d.local_depths i0 := Nat.pos_pow_of_pos _ (by omega)
      have hmlt : i % 2 ^ d.local_depths i0 < 2 ^ d.local_depths i0 :=
        Nat.mod_lt _ hpos
      have hps : 2 ^ (d.local_depths i0 + 1) = 2 ^ d.local_depths i0 * 2 :=
        pow_succ 2 _
      have hple : 2 ^ (d.local_depths i0 + 1) ≤ 2 ^ d.global_depth :=
        Nat.pow_le_pow_right (by omega) hLle
      have hjlt : i % 2 ^ d.local_depths i0 + 2 ^ d.local_depths i0 <
          2 ^ d.global_depth := by omega
      have hjc : (i % 2 ^ d.local_depths i0 + 2 ^ d.local_depths i0) %
          2 ^ d.local_depths i0 = i % 2 ^ d.local_depths i0 := by
        rw [Nat.add_mod_right]
        exact Nat.mod_mod_of_dvd i dvd_rfl
      have hBj : d.bucket_page_ids (i % 2 ^ d.local_depths i0 + 2 ^ d.local_depths i0) =
          d.bucket_page_ids i0 := by
        refine (hclass _ hjlt).mpr ?_
        rw [hjc, hic]
      obtain ⟨hLj, hBj1⟩ := hOld _ hjlt hBj
      have hbitj : ((i % 2 ^ d.local_depths i0 + 2 ^ d.local_depths i0) >>>
          d.local_depths i0) &&& 1 = 1 := by
        rw [bitAsDivMod]
        have : (i % 2 ^ d.local_depths i0 + 2 ^ d.local_depths i0) /
            2 ^ d.local_depths i0 = 1 := by
          rw [Nat.add_div_right _ hpos, Nat.div_eq_of_lt hmlt]
        rw [this]
      refine ⟨i % 2 ^ d.local_depths i0 + 2 ^ d.local_depths i0, hjlt, ?_, ?_, ?_⟩
      · rw [hBj1, if_neg (by rw [hbitj]; omega), hio]
      · rw [hLi, hjc, hic]
      · rw [hLi, hLj]
        omega
    · exact ⟨i, hi, (hElse i hi hio).1, rfl, by rw [(hElse i hi hio).2]⟩

end ExtendibleHashing

namespace ExtendibleHashing

/-- Characterization of `global_split_bucket` on the depth-bumped
directory: the global depth grows by one, the lower half keeps its slots
(except `i0`, redirected to the new bucket), and the upper half mirrors
the lower half of the bumped directory. -/
lemma global_split_char {d dir1 : HashDirectoryPage} {i0 newB : Nat}
    (hi0 : i0 < 2 ^ d.global_depth)
    (hsplit : global_split_bucket
      { d with local_depths := fun j =>
          if j = i0 then d.local_depths i0 + 1 else d.local_depths j }
      i0 newB = some dir1) :
    dir1.global_depth = d.global_depth + 1 ∧
    (dir1.bucket_page_ids i0 = newB ∧
      dir1.local_depths i0 = d.local_depths i0 + 1) ∧
    (∀ j, j < 2 ^ d.global_depth → j ≠ i0 →
      dir1.bucket_page_ids j = d.bucket_page_ids j ∧
      dir1.local_depths j = d.local_depths j) ∧
    (∀ j, j < 2 ^ d.global_depth →
      dir1.bucket_page_ids (j + 2 ^ d.global_depth) = d.bucket_page_ids j ∧
      dir1.local_depths (j + 2 ^ d.global_depth) =
        (if j = i0 then d.local_depths i0 + 1 else d.local_depths j)) := by
  set dA : HashDirectoryPage :=
    { d with local_depths := fun j =>
        if j = i0 then d.local_depths i0 + 1 else d.local_depths j } with hdA
  have hpow : (1 : Nat) <<< dA.global_depth = 2 ^ d.global_depth := by
    rw [Nat.one_shiftLeft]
  unfold global_split_bucket at hsplit
  have hsplit2 : (globalCopyLoop dA.global_depth (1 <<< dA.global_depth) 0
      dA.increment_global_depth).bind
      (fun d => d.set_bucket_page_id i0 newB) = some dir1 := hsplit
  clear hsplit
  rcases hcopy : globalCopyLoop dA.global_depth (1 <<< dA.global_depth) 0
      dA.increment_global_depth with _ | dC
  · rw [hcopy] at hsplit2; cases hsplit2
  · rw [hcopy] at hsplit2
    simp only [Option.some_bind] at hsplit2
    rename' hsplit2 => hsplit
    obtain ⟨hg, hlow, hup, _⟩ := globalCopyLoop_spec dA.global_depth
      (1 <<< dA.global_depth) 0 dA.increment_global_depth dC hcopy (by omega)
    unfold HashDirectoryPage.set_bucket_page_id at hsplit
    by_cases hi512 : i0 < 512
    · simp only [hi512, if_pos trivial, Option.some.injEq] at hsplit
      subst hsplit
      have hge : dA.increment_global_depth.global_depth = d.global_depth + 1 := rfl
      have hpos : 0 < 2 ^ d.global_depth := Nat.pos_pow_of_pos _ (by omega)
      refine ⟨by simp only [HashDirectoryPage.global_depth]; rw [hg, hge], ?_, ?_, ?_⟩
      · constructor
        · simp
        · show dC.local_depths i0 = d.local_depths i0 + 1
          have := hlow i0 (by omega)
          rw [this.2]
          show dA.local_depths i0 = d.local_depths i0 + 1
          simp [hdA]
      · intro j hj hji
        constructor
        · show (if j = i0 then newB else dC.bucket_page_ids j) = d.bucket_page_ids j
          rw [if_neg hji, (hlow j (by omega)).1]
          rfl
        · show dC.local_depths j = d.local_depths j
          rw [(hlow j (by omega)).2]
          show dA.local_depths j = d.local_depths j
          simp [hdA, hji]
      · intro j hj
        have hne : j + 2 ^ d.global_depth ≠ i0 := by omega
        constructor
        · show (if j + 2 ^ d.global_depth = i0 then newB
              else dC.bucket_page_ids (j + 2 ^ d.global_depth)) = d.bucket_page_ids j
          rw [if_neg hne]
          have := hup j (by omega) (by omega)
          rw [hpow] at this
          rw [this.1]
          rfl
        · show dC.local_depths (j + 2 ^ d.global_depth) =
            (if j = i0 then d.local_depths i0 + 1 else d.local_depths j)
          have := hup j (by omega) (by omega)
          rw [hpow] at this
          rw [this.2]
          show dA.local_depths j = _
          simp [hdA]
    · simp only [hi512, if_false] at hsplit
      cases hsplit

/-- The split directory produced by a global split keeps the directory
well-formed, and every old pointer survives at a congruent slot of no
smaller depth. -/
lemma global_split_dir_wf {d dir1 : HashDirectoryPage} {i0 newB : Nat}
    (hi0 : i0 < 2 ^ d.global_depth)
    (hw1 : ∀ i, i < 2 ^ d.global_depth → d.local_depths i ≤ d.global_depth)
    (hw2 : ∀ i, i < 2 ^ d.global_depth → ∀ j, j < 2 ^ d.global_depth →
      (d.bucket_page_ids i = d.bucket_page_ids j ↔
        i % 2 ^ d.local_depths i = j % 2 ^ d.local_depths i))
    (hw2eq : ∀ i, i < 2 ^ d.global_depth → ∀ j, j < 2 ^ d.global_depth →
      d.bucket_page_ids i = d.bucket_page_ids j →
      d.local_depths i = d.local_depths j)
    (hfresh : ∀ j, j < 2 ^ d.global_depth → d.bucket_page_ids j ≠ newB)
    (hLG : d.local_depths i0 = d.global_depth)
    (hG : dir1.global_depth = d.global_depth + 1)
    (hSeti : dir1.bucket_page_ids i0 = newB ∧
      dir1.local_depths i0 = d.local_depths i0 + 1)
    (hLow : ∀ j, j < 2 ^ d.global_depth → j ≠ i0 →
      dir1.bucket_page_ids j = d.bucket_page_ids j ∧
      dir1.local_depths j = d.local_depths j)
    (hUp : ∀ j, j < 2 ^ d.global_depth →
      dir1.bucket_page_ids (j + 2 ^ d.global_depth) = d.bucket_page_ids j ∧
      dir1.local_depths (j + 2 ^ d.global_depth) =
        (if j = i0 then d.local_depths i0 + 1 else d.local_depths j)) :
    (∀ u, u < 2 ^ dir1.global_depth → dir1.local_depths u ≤ dir1.global_depth) ∧
    (∀ u, u < 2 ^ dir1.global_depth → ∀ w, w < 2 ^ dir1.global_depth →
      (dir1.bucket_page_ids u = dir1.bucket_page_ids w ↔
        u % 2 ^ dir1.local_depths u = w % 2 ^ dir1.local_depths u)) ∧
    (∀ u, u < 2 ^ dir1.global_depth → ∀ w, w < 2 ^ dir1.global_depth →
      dir1.bucket_page_ids u = dir1.bucket_page_ids w →
      dir1.local_depths u = dir1.local_depths w) ∧
    (∀ i, i < 2 ^ d.global_depth →
      ∃ j, j < 2 ^ dir1.global_depth ∧
        dir1.bucket_page_ids j = d.bucket_page_ids i ∧
        j % 2 ^ d.local_depths i = i % 2 ^ d.local_depths i ∧
        d.local_depths i ≤ dir1.local_depths j) ∧
    (∀ u, u < 2 ^ (d.global_depth + 1) → u ≠ i0 →
      u ≠ i0 + 2 ^ d.global_depth →
      dir1.bucket_page_ids u = d.bucket_page_ids (u % 2 ^ d.global_depth) ∧
      dir1.local_depths u = d.local_depths (u % 2 ^ d.global_depth) ∧
      u % 2 ^ d.global_depth ≠ i0 ∧
      u % 2 ^ d.global_depth < 2 ^ d.global_depth) ∧
    (∀ j, j < 2 ^ d.global_depth →
      (d.bucket_page_ids j = d.bucket_page_ids i0 ↔ j = i0)) := by
  have hpos : 0 < 2 ^ d.global_depth := Nat.pos_pow_of_pos _ (by omega)
  have hps : 2 ^ (d.global_depth + 1) = 2 ^ d.global_depth * 2 := pow_succ 2 _
  have hnewold : newB ≠ d.bucket_page_ids i0 := fun hh => hfresh i0 hi0 hh.symm
  have hclassi0 : ∀ j, j < 2 ^ d.global_depth →
      (d.bucket_page_ids j = d.bucket_page_ids i0 ↔ j = i0) := by
    intro j hj
    constructor
    · intro hh
      have := (hw2 i0 hi0 j hj).mp hh.symm
      rw [hLG, Nat.mod_eq_of_lt hi0, Nat.mod_eq_of_lt hj] at this
      omega
    · intro hh
      rw [hh]
  have hmain : ∀ u, u < 2 ^ (d.global_depth + 1) → u ≠ i0 →
      u ≠ i0 + 2 ^ d.global_depth →
      dir1.bucket_page_ids u = d.bucket_page_ids (u % 2 ^ d.global_depth) ∧
      dir1.local_depths u = d.local_depths (u % 2 ^ d.global_depth) ∧
      u % 2 ^ d.global_depth ≠ i0 ∧
      u % 2 ^ d.global_depth < 2 ^ d.global_depth := by
    intro u hu hu1 hu2
    by_cases hlt : u < 2 ^ d.global_depth
    · rw [Nat.mod_eq_of_lt hlt]
      exact ⟨(hLow u hlt hu1).1, (hLow u hlt hu1).2, hu1, hlt⟩
    · have hj : u - 2 ^ d.global_depth < 2 ^ d.global_depth := by omega
      have hju : u = (u - 2 ^ d.global_depth) + 2 ^ d.global_depth := by omega
      have hmod : u % 2 ^ d.global_depth = u - 2 ^ d.global_depth := by
        rw [Nat.mod_eq_sub_mod (by omega), Nat.mod_eq_of_lt hj]
      have hne : u - 2 ^ d.global_depth ≠ i0 := by omega
      obtain ⟨hb, hl⟩ := hUp (u - 2 ^ d.global_depth) hj
      rw [← hju] at hb hl
      rw [if_neg hne] at hl
      rw [hmod]
      exact ⟨hb, hl, hne, hj⟩
  have hspecUp : dir1.bucket_page_ids (i0 + 2 ^ d.global_depth) =
      d.bucket_page_ids i0 ∧
      dir1.local_depths (i0 + 2 ^ d.global_depth) = d.global_depth + 1 := by
    obtain ⟨hb, hl⟩ := hUp i0 hi0
    rw [if_pos rfl, hLG] at hl
    exact ⟨hb, hl⟩
  have hLi0 : dir1.local_depths i0 = d.global_depth + 1 := by
    rw [hSeti.2, hLG]
  have hother : ∀ u, u < 2 ^ (d.global_depth + 1) → u ≠ i0 →
      u ≠ i0 + 2 ^ d.global_depth →
      dir1.bucket_page_ids u ≠ newB ∧
      dir1.bucket_page_ids u ≠ d.bucket_page_ids i0 := by
    intro u hu hu1 hu2
    obtain ⟨hb, _, hne, hlt⟩ := hmain u hu hu1 hu2
    rw [hb]
    exact ⟨hfresh _ hlt, fun hh => hne ((hclassi0 _ hlt).mp hh)⟩
  have hcong : ∀ u m, m ≤ d.global_depth →
      u % 2 ^ m = (u % 2 ^ d.global_depth) % 2 ^ m := by
    intro u m hm
    exact (modPowLe hm).symm
  rw [hG]
  refine ⟨?_, ?_, ?_, ?_, hmain, hclassi0⟩
  · intro u hu
    by_cases hu1 : u = i0
    · rw [hu1, hLi0]
    · by_cases hu2 : u = i0 + 2 ^ d.global_depth
      · rw [hu2, hspecUp.2]
      · obtain ⟨_, hl, _, hlt⟩ := hmain u hu hu1 hu2
        rw [hl]
        have := hw1 _ hlt
        omega
  · intro u hu w hw
    by_cases hu1 : u = i0
    · subst hu1
      rw [hLi0, Nat.mod_eq_of_lt (by omega), Nat.mod_eq_of_lt hw]
      by_cases hw1 : w = u
      · subst hw1
        simp
      · constructor
        · intro heq
          exfalso
          rw [hSeti.1] at heq
          by_cases hw2c : w = u + 2 ^ d.global_depth
          · rw [hw2c, hspecUp.1] at heq
            exact hnewold heq
          · exact (hother w hw hw1 hw2c).1 heq.symm
        · intro heq
          exact absurd heq.symm hw1
    · by_cases hu2 : u = i0 + 2 ^ d.global_depth
      · subst hu2
        rw [hspecUp.2, Nat.mod_eq_of_lt (by omega), Nat.mod_eq_of_lt hw]
        by_cases hw1 : w = i0 + 2 ^ d.global_depth
        · rw [hw1]
          simp
        · constructor
          · intro heq
            exfalso
            rw [hspecUp.1] at heq
            by_cases hw2c : w = i0
            · rw [hw2c, hSeti.1] at heq
              exact hnewold heq.symm
            · exact (hother w hw hw2c hw1).2 heq.symm
          · intro heq
            exact absurd heq.symm hw1
      · obtain ⟨hbu, hlu, hneu, hltu⟩ := hmain u hu hu1 hu2
        have hLule : d.local_depths (u % 2 ^ d.global_depth) ≤ d.global_depth :=
          hw1 _ hltu
        by_cases hw1c : w = i0
        · constructor
          · intro heq
            exfalso
            rw [hw1c, hSeti.1, hbu] at heq
            exact hfresh _ hltu heq
          · intro heq
            exfalso
            rw [hlu] at heq
            rw [hcong u _ hLule] at heq
            rw [hw1c] at heq
            rw [show i0 % 2 ^ d.local_depths (u % 2 ^ d.global_depth) =
              i0 % 2 ^ d.global_depth % 2 ^ d.local_depths (u % 2 ^ d.global_depth)
              from (modPowLe hLule).symm] at heq
            rw [Nat.mod_eq_of_lt hi0] at heq
            have := (hw2 _ hltu i0 hi0).mpr heq
            exact hneu ((hclassi0 _ hltu).mp this)
        · by_cases hw2c : w = i0 + 2 ^ d.global_depth
          · constructor
            · intro heq
              exfalso
              rw [hw2c, hspecUp.1, hbu] at heq
              exact hneu ((hclassi0 _ hltu).mp heq)
            · intro heq
              exfalso
              rw [hlu] at heq
              rw [hcong u _ hLule, hcong w _ hLule] at heq
              rw [hw2c, Nat.add_mod_right, Nat.mod_eq_of_lt hi0] at heq
              have := (hw2 _ hltu i0 hi0).mpr heq
              exact hneu ((hclassi0 _ hltu).mp this)
          · obtain ⟨hbw, hlw, hnew, hltw⟩ := hmain w hw hw1c hw2c
            rw [hbu, hbw, hlu]
            rw [hcong u _ hLule, hcong w _ hLule]
            exact hw2 _ hltu _ hltw
  · intro u hu w hw heq
    by_cases hu1 : u = i0
    · by_cases hw1 : w = i0
      · rw [hu1, hw1]
      · by_cases hw2c : w = i0 + 2 ^ d.global_depth
        · rw [hu1, hw2c, hLi0, hspecUp.2]
        · exfalso
          rw [hu1, hSeti.1] at heq
          exact (hother w hw hw1 hw2c).1 heq.symm
    · by_cases hu2 : u = i0 + 2 ^ d.global_depth
      · by_cases hw1 : w = i0
        · rw [hu2, hw1, hLi0, hspecUp.2]
        · by_cases hw2c : w = i0 + 2 ^ d.global_depth
          · rw [hu2, hw2c]
          · exfalso
            rw [hu2, hspecUp.1] at heq
            exact (hother w hw hw1 hw2c).2 heq.symm
      · obtain ⟨hbu, hlu, hneu, hltu⟩ := hmain u hu hu1 hu2
        by_cases hw1 : w = i0
        · exfalso
          rw [hw1, hSeti.1, hbu] at heq
          exact hfresh _ hltu heq
        · by_cases hw2c : w = i0 + 2 ^ d.global_depth
          · exfalso
            rw [hw2c, hspecUp.1, hbu] at heq
            exact hneu ((hclassi0 _ hltu).mp heq)
          · obtain ⟨hbw, hlw, hnew, hltw⟩ := hmain w hw hw1 hw2c
            rw [hbu, hbw] at heq
            rw [hlu, hlw]
            exact hw2eq _ hltu _ hltw heq
  · intro i hi
    by_cases hi1 : i = i0
    · refine ⟨i0 + 2 ^ d.global_depth, by omega, ?_, ?_, ?_⟩
      · rw [hspecUp.1, hi1]
      · rw [hi1, hLG, Nat.add_mod_right]
      · rw [hi1, hspecUp.2, hLG]
        omega
    · obtain ⟨hb, hl⟩ := hLow i hi hi1
      exact ⟨i, by omega, hb, rfl, by rw [hl]⟩
end ExtendibleHashing

namespace ExtendibleHashing

/-- Shape of `rehashLoop` on the new bucket: array lengths are preserved. -/
lemma rehashLoop_nw_shape {K V : Type} (hash : K → Nat) (dK : K) (dV : V) (L : Nat) :
    ∀ (count i : Nat) (old nw old2 nw2 : HashBucketPage K V),
      rehashLoop hash dK dV L count i old nw = some (old2, nw2) →
      nw2.readable.length = nw.readable.length ∧
      nw2.key_values.length = nw.key_values.length := by
  intro count
  induction count with
  | zero =>
    intro i old nw old2 nw2 h
    cases h
    exact ⟨rfl, rfl⟩
  | succ count ih =>
    intro i old nw old2 nw2 h
    rw [rehashLoop] at h
    rcases hk : old.key_at i with _ | key
    · rw [hk] at h; cases h
    · rw [hk] at h
      simp only [Option.some_bind] at h
      by_cases hbit : (hash key >>> (L - 1)) &&& 1 = 0
      · rw [if_pos hbit] at h
        rcases hri : old.remove_index i dK dV with _ | kvold
        · rw [hri] at h; cases h
        · rw [hri] at h
          simp only [Option.some_bind] at h
          rcases hins : nw.insert kvold.1.1 kvold.1.2 with _ | nw1
          · rw [hins] at h; cases h
          · rw [hins] at h
            simp only [Option.some_bind] at h
            have hrec := ih (i + 1) kvold.2 nw1 old2 nw2 h
            have hlen := HashBucketPage.insert_live hins
            exact ⟨hrec.1.trans hlen.2.2.1, hrec.2.trans hlen.2.2.2⟩
      · rw [if_neg hbit] at h
        exact ih (i + 1) old nw old2 nw2 h

/-- Core preservation argument for the split path: given the rehashed
buckets, the new state's store, and the directory facts established by the
branch analysis, the post-split state is well-formed and its live entries
all come from the old state. -/
lemma split_preserves_core {K V : Type} (hash : K → Nat) (dirPid : Nat)
    {s s1 : HState K V} {d dir1 : HashDirectoryPage} {i0 newPid : Nat}
    {b b1 nw2 : HashBucketPage K V}
    (hwf : WFdir hash dirPid s d)
    (hi0 : i0 < 2 ^ d.global_depth)
    (hbst : s.store (d.bucket_page_ids i0) = some (HashPage.bucket b))
    (hnewPid : newPid = s.nextPid)
    (hnext1 : s1.nextPid = s.nextPid + 1)
    (hstore : ∀ q, s1.store q =
      if q = d.bucket_page_ids i0 then some (HashPage.bucket b1)
      else if q = dirPid then some (HashPage.dir dir1)
      else if q = newPid then some (HashPage.bucket nw2)
      else s.store q)
    (hlive_old : ∀ e, e ∈ b1.live →
      e ∈ b.live ∧ (hash e.1 >>> d.local_depths i0) &&& 1 = 1)
    (hlive_new : ∀ e, e ∈ nw2.live →
      e ∈ b.live ∧ (hash e.1 >>> d.local_depths i0) &&& 1 = 0)
    (hlen_old : b1.readable.length = b1.key_values.length)
    (hlen_new : nw2.readable.length = nw2.key_values.length)
    (hcw1 : ∀ u, u < 2 ^ dir1.global_depth →
      dir1.local_depths u ≤ dir1.global_depth)
    (hcw2 : ∀ u, u < 2 ^ dir1.global_depth → ∀ w, w < 2 ^ dir1.global_depth →
      (dir1.bucket_page_ids u = dir1.bucket_page_ids w ↔
        u % 2 ^ dir1.local_depths u = w % 2 ^ dir1.local_depths u))
    (hcw2eq : ∀ u, u < 2 ^ dir1.global_depth → ∀ w, w < 2 ^ dir1.global_depth →
      dir1.bucket_page_ids u = dir1.bucket_page_ids w →
      dir1.local_depths u = dir1.local_depths w)
    (hW6old : ∀ j, j < 2 ^ dir1.global_depth →
      dir1.bucket_page_ids j = d.bucket_page_ids i0 →
      ∀ e : K × V, e ∈ b.live → (hash e.1 >>> d.local_depths i0) &&& 1 = 1 →
        hash e.1 % 2 ^ dir1.local_depths j = j % 2 ^ dir1.local_depths j)
    (hW6new : ∀ j, j < 2 ^ dir1.global_depth →
      dir1.bucket_page_ids j = newPid →
      ∀ e : K × V, e ∈ b.live → (hash e.1 >>> d.local_depths i0) &&& 1 = 0 →
        hash e.1 % 2 ^ dir1.local_depths j = j % 2 ^ dir1.local_depths j)
    (hElseVals : ∀ j, j < 2 ^ dir1.global_depth →
      dir1.bucket_page_ids j ≠ d.bucket_page_ids i0 →
      dir1.bucket_page_ids j ≠ newPid →
      ∃ j', j' < 2 ^ d.global_depth ∧
        d.bucket_page_ids j' = dir1.bucket_page_ids j ∧
        dir1.local_depths j = d.local_depths j' ∧
        j % 2 ^ d.local_depths j' = j' % 2 ^ d.local_depths j') :
    s1.loadDir dirPid = some dir1 ∧
    WFdir hash dirPid s1 dir1 ∧
    (∀ e, inLiveSet s1 e → inLiveSet s e) ∧
    (∀ p, (s.store p).isSome = true → (s1.store p).isSome = true) := by
  have hbne : d.bucket_page_ids i0 ≠ dirPid := (hwf.w4 i0 hi0).2
  have hblt : d.bucket_page_ids i0 < s.nextPid := (hwf.w4 i0 hi0).1
  have hdirlt : dirPid < s.nextPid := hwf.w5
  have hliveb : s.liveOf (d.bucket_page_ids i0) = b.live :=
    HState.liveOf_of_bucket hbst
  have hVals : ∀ j, j < 2 ^ dir1.global_depth →
      dir1.bucket_page_ids j = newPid ∨
      ∃ j', j' < 2 ^ d.global_depth ∧
        d.bucket_page_ids j' = dir1.bucket_page_ids j := by
    intro j hj
    by_cases h1 : dir1.bucket_page_ids j = d.bucket_page_ids i0
    · exact Or.inr ⟨i0, hi0, h1.symm⟩
    · by_cases h2 : dir1.bucket_page_ids j = newPid
      · exact Or.inl h2
      · obtain ⟨j', hj', hbeq, _, _⟩ := hElseVals j hj h1 h2
        exact Or.inr ⟨j', hj', hbeq⟩
  have hnotdir : ∀ j, j < 2 ^ dir1.global_depth →
      dir1.bucket_page_ids j ≠ dirPid := by
    intro j hj
    rcases hVals j hj with h | ⟨j', hj', hbeq⟩
    · rw [h, hnewPid]; omega
    · rw [← hbeq]; exact (hwf.w4 j' hj').2
  have hloaddir : s1.loadDir dirPid = some dir1 := by
    apply HState.loadDir_of_store
    rw [hstore dirPid, if_neg (fun hh => hbne hh.symm), if_pos rfl]
  have hunchanged : ∀ p, p ≠ d.bucket_page_ids i0 → p ≠ dirPid → p ≠ newPid →
      s1.store p = s.store p := by
    intro p h1 h2 h3
    rw [hstore p, if_neg h1, if_neg h2, if_neg h3]
  refine ⟨hloaddir, ?_, ?_, ?_⟩
  · refine ⟨?_, hcw1, hcw2, hcw2eq, ?_, ?_, by omega, ?_⟩
    · -- w0
      intro p hp pg hpg
      rw [hstore p] at hpg
      by_cases h1 : p = d.bucket_page_ids i0
      · rw [if_pos h1] at hpg
        cases hpg
        exact ⟨b1, rfl, hlen_old⟩
      · rw [if_neg h1, if_neg hp] at hpg
        by_cases h3 : p = newPid
        · rw [if_pos h3] at hpg
          cases hpg
          exact ⟨nw2, rfl, hlen_new⟩
        · rw [if_neg h3] at hpg
          exact hwf.w0 p hp pg hpg
    · -- w3
      intro j hj
      rw [hstore]
      by_cases h1 : dir1.bucket_page_ids j = d.bucket_page_ids i0
      · rw [if_pos h1]; rfl
      · rw [if_neg h1, if_neg (hnotdir j hj)]
        by_cases h3 : dir1.bucket_page_ids j = newPid
        · rw [if_pos h3]; rfl
        · rw [if_neg h3]
          obtain ⟨j', hj', hbeq, _, _⟩ := hElseVals j hj h1 h3
          rw [← hbeq]
          exact hwf.w3 j' hj'
    · -- w4
      intro j hj
      refine ⟨?_, hnotdir j hj⟩
      rw [hnext1]
      rcases hVals j hj with h | ⟨j', hj', hbeq⟩
      · rw [h, hnewPid]; omega
      · have := (hwf.w4 j' hj').1
        rw [hbeq] at this
        omega
    · -- w6
      intro j hj e he
      by_cases h1 : dir1.bucket_page_ids j = d.bucket_page_ids i0
      · have hl : s1.liveOf (dir1.bucket_page_ids j) = b1.live := by
          apply HState.liveOf_of_bucket
          rw [hstore, if_pos h1]
        rw [hl] at he
        obtain ⟨hb, hbit⟩ := hlive_old e he
        exact hW6old j hj h1 e hb hbit
      · by_cases h3 : dir1.bucket_page_ids j = newPid
        · have hl : s1.liveOf (dir1.bucket_page_ids j) = nw2.live := by
            apply HState.liveOf_of_bucket
            rw [hstore, if_neg h1, if_neg (hnotdir j hj), if_pos h3]
          rw [hl] at he
          obtain ⟨hb, hbit⟩ := hlive_new e he
          exact hW6new j hj h3 e hb hbit
        · obtain ⟨j', hj', hbeq, hleq, hcong⟩ := hElseVals j hj h1 h3
          have hl : s1.liveOf (dir1.bucket_page_ids j) =
              s.liveOf (dir1.bucket_page_ids j) := by
            unfold HState.liveOf
            rw [hunchanged _ h1 (hnotdir j hj) h3]
          rw [hl, ← hbeq] at he
          have := hwf.w6 j' hj' e he
          rw [hleq, hcong]
          exact this
  · -- live containment
    rintro e ⟨p, hp⟩
    by_cases h1 : p = d.bucket_page_ids i0
    · have hl : s1.liveOf p = b1.live := by
        apply HState.liveOf_of_bucket
        rw [hstore p, if_pos h1]
      rw [hl] at hp
      exact ⟨d.bucket_page_ids i0, by rw [hliveb]; exact (hlive_old e hp).1⟩
    · by_cases h2 : p = dirPid
      · have hl : s1.liveOf p = [] := by
          apply HState.liveOf_of_dir
          rw [hstore p, if_neg h1, if_pos h2]
        rw [hl] at hp
        cases hp
      · by_cases h3 : p = newPid
        · have hl : s1.liveOf p = nw2.live := by
            apply HState.liveOf_of_bucket
            rw [hstore p, if_neg h1, if_neg h2, if_pos h3]
          rw [hl] at hp
          exact ⟨d.bucket_page_ids i0, by rw [hliveb]; exact (hlive_new e hp).1⟩
        · refine ⟨p, ?_⟩
          have hl : s1.liveOf p = s.liveOf p := by
            unfold HState.liveOf
            rw [hunchanged p h1 h2 h3]
          rw [← hl]
          exact hp
  · -- isSome preservation
    intro p hp
    rw [hstore]
    by_cases h1 : p = d.bucket_page_ids i0
    · rw [if_pos h1]; rfl
    · rw [if_neg h1]
      by_cases h2 : p = dirPid
      · rw [if_pos h2]; rfl
      · rw [if_neg h2]
        by_cases h3 : p = newPid
        · rw [if_pos h3]; rfl
        · rw [if_neg h3]; exact hp

end ExtendibleHashing

namespace ExtendibleHashing

/-- The split path of `insert_with_lock` — `split_bucket` followed by the
`update_directory_and_bucket` write-back of the split directory and the
rehashed old bucket — preserves well-formedness, keeps every old pointer
reachable at a congruent slot of no smaller depth, does not invent live
entries, and allocates exactly one page. -/
lemma split_preserves {K V : Type} [DecidableEq K] (hash : K → Nat) (numEntries : Nat)
    (dK : K) (dV : V) (dirPid : Nat)
    {s sA : HState K V} {d dir1 : HashDirectoryPage} {i0 : Nat}
    {b b1 : HashBucketPage K V}
    (hwf : WFdir hash dirPid s d)
    (hi0 : i0 < 2 ^ d.global_depth)
    (hb : s.loadBucket (d.bucket_page_ids i0) = some b)
    (hfull : b.is_full = true)
    (hsplit : split_bucket hash numEntries dK dV i0 b d s = some (b1, dir1, sA)) :
    ∀ s1, s1 = (sA.writePage dirPid (HashPage.dir dir1)).writePage
        (d.bucket_page_ids i0) (HashPage.bucket b1) →
    s1.loadDir dirPid = some dir1 ∧
    WFdir hash dirPid s1 dir1 ∧
    (∀ i, i < 2 ^ d.global_depth →
      ∃ j, j < 2 ^ dir1.global_depth ∧
        dir1.bucket_page_ids j = d.bucket_page_ids i ∧
        j % 2 ^ d.local_depths i = i % 2 ^ d.local_depths i ∧
        d.local_depths i ≤ dir1.local_depths j) ∧
    (∀ e, inLiveSet s1 e → inLiveSet s e) ∧
    s1.nextPid = s.nextPid + 1 ∧
    (∀ p, (s.store p).isSome = true → (s1.store p).isSome = true) := by
  intro s1 hs1
  have hbst : s.store (d.bucket_page_ids i0) = some (HashPage.bucket b) :=
    HState.loadBucket_inv hb
  have hlenb : b.readable.length = b.key_values.length := by
    obtain ⟨b', hb', hlen⟩ := hwf.w0 _ (hwf.w4 i0 hi0).2 _ hbst
    injection hb' with hbb
    rw [hbb]
    exact hlen
  have hfresh : ∀ j, j < 2 ^ d.global_depth →
      d.bucket_page_ids j ≠ s.nextPid := by
    intro j hj hh
    have := (hwf.w4 j hj).1
    omega
  have hliveb : s.liveOf (d.bucket_page_ids i0) = b.live :=
    HState.liveOf_of_bucket hbst
  unfold split_bucket at hsplit
  obtain ⟨nld, hinc, hsplit⟩ := Option.bind_eq_some.mp hsplit
  unfold HashDirectoryPage.increment_local_depth at hinc
  by_cases hi512 : i0 < 512
  swap
  · rw [if_neg hi512] at hinc
    cases hinc
  rw [if_pos hi512] at hinc
  cases hinc
  obtain ⟨nw, hnw, hsplit⟩ := Option.bind_eq_some.mp hsplit
  have hloadnw : (s.alloc numEntries dK dV).2.loadBucket
      (s.alloc numEntries dK dV).1 =
      some (HashBucketPage.empty numEntries dK dV) := by
    unfold HState.alloc HState.loadBucket
    simp
  rw [hloadnw] at hnw
  cases hnw
  obtain ⟨oldB, hget, hsplit⟩ := Option.bind_eq_some.mp hsplit
  unfold HashDirectoryPage.get_bucket_page_id at hget
  rw [if_pos hi512] at hget
  cases hget
  obtain ⟨dirX, hdirX, hsplit⟩ := Option.bind_eq_some.mp hsplit
  rw [show (s.alloc numEntries dK dV).1 = s.nextPid from rfl] at hdirX
  obtain ⟨bn, hre, hsome⟩ := Option.bind_eq_some.mp hsplit
  rw [Option.some.injEq, Prod.mk.injEq, Prod.mk.injEq] at hsome
  obtain ⟨hb1e, hdir1e, hsAe⟩ := hsome
  subst hb1e
  subst hdir1e
  subst hsAe
  -- rehash characterization
  have hre2 : rehashLoop hash dK dV (d.local_depths i0 + 1)
      b.key_values.length 0 b (HashBucketPage.empty numEntries dK dV) =
      some (bn.1, bn.2) := hre
  obtain ⟨hold2, hnw2m, hlen1, hlen2⟩ :=
    rehash_full_spec hash dK dV (d.local_depths i0 + 1) hre2 hfull hlenb
  have hlive_old : ∀ e, e ∈ bn.1.live →
      e ∈ b.live ∧ (hash e.1 >>> d.local_depths i0) &&& 1 = 1 := hold2
  have hlive_new : ∀ e, e ∈ bn.2.live →
      e ∈ b.live ∧ (hash e.1 >>> d.local_depths i0) &&& 1 = 0 := by
    intro e he
    rcases hnw2m e he with he2 | he2
    · rw [HashBucketPage.live_empty] at he2
      cases he2
    · exact he2
  have hlen_old : bn.1.readable.length = bn.1.key_values.length := by
    rw [hlen1, hlen2, hlenb]
  have hlen_new : bn.2.readable.length = bn.2.key_values.length := by
    obtain ⟨hr, hk⟩ := rehashLoop_nw_shape hash dK dV (d.local_depths i0 + 1)
      b.key_values.length 0 b (HashBucketPage.empty numEntries dK dV)
      bn.1 bn.2 hre2
    rw [hr, hk]
    simp [HashBucketPage.empty]
  -- store characterization of s1
  have hstoreS1 : ∀ q, s1.store q =
      if q = d.bucket_page_ids i0 then some (HashPage.bucket bn.1)
      else if q = dirPid then some (HashPage.dir dirX)
      else if q = s.nextPid then some (HashPage.bucket bn.2)
      else s.store q := by
    intro q
    rw [hs1, HState.store_writePage]
    by_cases h1 : q = d.bucket_page_ids i0
    · rw [if_pos h1, if_pos h1]
    · rw [if_neg h1, if_neg h1, HState.store_writePage]
      by_cases h2 : q = dirPid
      · rw [if_pos h2, if_pos h2]
      · rw [if_neg h2, if_neg h2, HState.store_writePage]
        by_cases h3 : q = s.nextPid
        · rw [if_pos h3]
          rw [show (s.alloc numEntries dK dV).1 = s.nextPid from rfl]
          rw [if_pos h3]
        · rw [show (s.alloc numEntries dK dV).1 = s.nextPid from rfl]
          rw [if_neg h3, if_neg h3]
          show (if q = s.nextPid
            then some (HashPage.bucket (HashBucketPage.empty numEntries dK dV))
            else s.store q) = s.store q
          rw [if_neg h3]
  have hnext1 : s1.nextPid = s.nextPid + 1 := by
    rw [hs1]
    rfl
  -- branch analysis of the directory split
  have hpackage :
      (∀ u, u < 2 ^ dirX.global_depth →
        dirX.local_depths u ≤ dirX.global_depth) ∧
      (∀ u, u < 2 ^ dirX.global_depth → ∀ w, w < 2 ^ dirX.global_depth →
        (dirX.bucket_page_ids u = dirX.bucket_page_ids w ↔
          u % 2 ^ dirX.local_depths u = w % 2 ^ dirX.local_depths u)) ∧
      (∀ u, u < 2 ^ dirX.global_depth → ∀ w, w < 2 ^ dirX.global_depth →
        dirX.bucket_page_ids u = dirX.bucket_page_ids w →
        dirX.local_depths u = dirX.local_depths w) ∧
      (∀ i, i < 2 ^ d.global_depth →
        ∃ j, j < 2 ^ dirX.global_depth ∧
          dirX.bucket_page_ids j = d.bucket_page_ids i ∧
          j % 2 ^ d.local_depths i = i % 2 ^ d.local_depths i ∧
          d.local_depths i ≤ dirX.local_depths j) ∧
      (∀ j, j < 2 ^ dirX.global_depth →
        dirX.bucket_page_ids j = d.bucket_page_ids i0 →
        ∀ e : K × V, e ∈ b.live →
          (hash e.1 >>> d.local_depths i0) &&& 1 = 1 →
          hash e.1 % 2 ^ dirX.local_depths j = j % 2 ^ dirX.local_depths j) ∧
      (∀ j, j < 2 ^ dirX.global_depth →
        dirX.bucket_page_ids j = s.nextPid →
        ∀ e : K × V, e ∈ b.live →
          (hash e.1 >>> d.local_depths i0) &&& 1 = 0 →
          hash e.1 % 2 ^ dirX.local_depths j = j % 2 ^ dirX.local_depths j) ∧
      (∀ j, j < 2 ^ dirX.global_depth →
        dirX.bucket_page_ids j ≠ d.bucket_page_ids i0 →
        dirX.bucket_page_ids j ≠ s.nextPid →
        ∃ j', j' < 2 ^ d.global_depth ∧
          d.bucket_page_ids j' = dirX.bucket_page_ids j ∧
          dirX.local_depths j = d.local_depths j' ∧
          j % 2 ^ d.local_depths j' = j' % 2 ^ d.local_depths j') := by
    split at hdirX
    · -- global split
      rename_i hglobal
      have hglobal' : d.global_depth < d.local_depths i0 + 1 := hglobal
      have hLoldG : d.local_depths i0 = d.global_depth := by
        have := hwf.w1 i0 hi0
        omega
      have hps : 2 ^ (d.global_depth + 1) = 2 ^ d.global_depth * 2 := pow_succ 2 _
      have hchar := global_split_char hi0 hdirX
      obtain ⟨hG1, hSeti, hLowc, hUpc⟩ := hchar
      obtain ⟨hcw1, hcw2, hcw2eq, hP2, hmainG, hclassi0⟩ :=
        global_split_dir_wf hi0 hwf.w1 hwf.w2 hwf.w2eq hfresh hLoldG hG1
          hSeti hLowc hUpc
      have hj2 : ∀ j, j < 2 ^ dirX.global_depth → j < 2 ^ (d.global_depth + 1) := by
        intro j hj
        rw [hG1] at hj
        exact hj
      refine ⟨hcw1, hcw2, hcw2eq, hP2, ?_, ?_, ?_⟩
      · -- hW6old
        intro j hj hBj e he hbit
        by_cases hj1 : j = i0
        · exfalso
          rw [hj1, hSeti.1] at hBj
          have := (hwf.w4 i0 hi0).1
          omega
        · by_cases hj2c : j = i0 + 2 ^ d.global_depth
          · have hLj : dirX.local_depths j = d.global_depth + 1 := by
              rw [hj2c, (hUpc i0 hi0).2, if_pos rfl, hLoldG]
            have h6 := hwf.w6 i0 hi0 e (by rw [hliveb]; exact he)
            have hbit' : hash e.1 / 2 ^ d.global_depth % 2 = 1 := by
              rw [← bitAsDivMod]
              rw [← hLoldG]
              exact hbit
            have hmod : hash e.1 % 2 ^ d.global_depth = i0 := by
              rw [hLoldG] at h6
              rw [h6, Nat.mod_eq_of_lt hi0]
            have hRHS : (i0 + 2 ^ d.global_depth) % 2 ^ (d.global_depth + 1) =
                i0 + 2 ^ d.global_depth := Nat.mod_eq_of_lt (by omega)
            rw [hLj, hj2c, hRHS, modTwoPowSucc, hmod, hbit']
            omega
          · exfalso
            obtain ⟨hbu, _, hneu, hltu⟩ := hmainG j (hj2 j hj) hj1 hj2c
            rw [hbu] at hBj
            exact hneu ((hclassi0 _ hltu).mp hBj)
      · -- hW6new
        intro j hj hBj e he hbit
        by_cases hj1 : j = i0
        · have hLj : dirX.local_depths j = d.global_depth + 1 := by
            rw [hj1, hSeti.2, hLoldG]
          have h6 := hwf.w6 i0 hi0 e (by rw [hliveb]; exact he)
          have hbit' : hash e.1 / 2 ^ d.global_depth % 2 = 0 := by
            rw [← bitAsDivMod]
            rw [← hLoldG]
            exact hbit
          have hmod : hash e.1 % 2 ^ d.global_depth = i0 := by
            rw [hLoldG] at h6
            rw [h6, Nat.mod_eq_of_lt hi0]
          have hps2 : 2 ^ (d.global_depth + 1) = 2 ^ d.global_depth * 2 := hps
          have hRHS : i0 % 2 ^ (d.global_depth + 1) = i0 :=
            Nat.mod_eq_of_lt (by omega)
          rw [hLj, hj1, hRHS, modTwoPowSucc, hmod, hbit']
          omega
        · exfalso
          by_cases hj2c : j = i0 + 2 ^ d.global_depth
          · rw [hj2c, (hUpc i0 hi0).1] at hBj
            exact hfresh i0 hi0 hBj
          · obtain ⟨hbu, _, _, hltu⟩ := hmainG j (hj2 j hj) hj1 hj2c
            rw [hbu] at hBj
            exact hfresh _ hltu hBj
      · -- hElseVals
        intro j hj h1 h2
        by_cases hj1 : j = i0
        · exfalso
          rw [hj1, hSeti.1] at h2
          exact h2 rfl
        · by_cases hj2c : j = i0 + 2 ^ d.global_depth
          · exfalso
            rw [hj2c, (hUpc i0 hi0).1] at h1
            exact h1 rfl
          · obtain ⟨hbu, hlu, hneu, hltu⟩ := hmainG j (hj2 j hj) hj1 hj2c
            refine ⟨j % 2 ^ d.global_depth, hltu, hbu.symm, hlu, ?_⟩
            exact (modPowLe (hwf.w1 _ hltu)).symm
    · -- local split
      rename_i hglobal
      have hglobal' : ¬ (d.global_depth < d.local_depths i0 + 1) := hglobal
      have hLle : d.local_depths i0 + 1 ≤ d.global_depth := by omega
      obtain ⟨hG1, hOldc, hElsec, _⟩ := local_split_char hdirX
      obtain ⟨hcw1l, hcw2l, hcw2eql, hP2l⟩ :=
        local_split_dir_wf hi0 hwf.w1 hwf.w2 hwf.w2eq hfresh hLle hG1 hOldc hElsec
      have hj2 : ∀ j, j < 2 ^ dirX.global_depth → j < 2 ^ d.global_depth := by
        intro j hj
        rw [hG1] at hj
        exact hj
      refine ⟨?_, ?_, ?_, ?_, ?_, ?_, ?_⟩
      · intro u hu
        rw [hG1]
        exact hcw1l u (hj2 u hu)
      · intro u hu w hw
        exact hcw2l u (hj2 u hu) w (hj2 w hw)
      · intro u hu w hw
        exact hcw2eql u (hj2 u hu) w (hj2 w hw)
      · intro i hi
        obtain ⟨j, hjlt, hrest⟩ := hP2l i hi
        exact ⟨j, by rw [hG1]; exact hjlt, hrest⟩
      · -- hW6old
        intro j hj hBj e he hbit
        have hj' := hj2 j hj
        by_cases hjo : d.bucket_page_ids j = d.bucket_page_ids i0
        · obtain ⟨hLj, hBj2⟩ := hOldc j hj' hjo
          by_cases hbitj : (j >>> d.local_depths i0) &&& 1 = 0
          · exfalso
            rw [hBj2, if_pos hbitj] at hBj
            have := (hwf.w4 i0 hi0).1
            omega
          · have hcl : j % 2 ^ d.local_depths i0 = i0 % 2 ^ d.local_depths i0 :=
              ((hwf.w2 i0 hi0 j hj').mp hjo.symm).symm
            have h6 := hwf.w6 i0 hi0 e (by rw [hliveb]; exact he)
            rw [hLj]
            refine modSuccOfParts (h6.trans hcl.symm) ?_
            rw [← bitAsDivMod, ← bitAsDivMod, hbit, andOneEqOneOfNeZero hbitj]
        · exfalso
          obtain ⟨hBj2, _⟩ := hElsec j hj' hjo
          rw [hBj2] at hBj
          exact hjo hBj
      · -- hW6new
        intro j hj hBj e he hbit
        have hj' := hj2 j hj
        by_cases hjo : d.bucket_page_ids j = d.bucket_page_ids i0
        · obtain ⟨hLj, hBj2⟩ := hOldc j hj' hjo
          by_cases hbitj : (j >>> d.local_depths i0) &&& 1 = 0
          · have hcl : j % 2 ^ d.local_depths i0 = i0 % 2 ^ d.local_depths i0 :=
              ((hwf.w2 i0 hi0 j hj').mp hjo.symm).symm
            have h6 := hwf.w6 i0 hi0 e (by rw [hliveb]; exact he)
            rw [hLj]
            refine modSuccOfParts (h6.trans hcl.symm) ?_
            rw [← bitAsDivMod, ← bitAsDivMod, hbit, hbitj]
          · exfalso
            rw [hBj2, if_neg hbitj] at hBj
            exact hfresh i0 hi0 hBj
        · exfalso
          obtain ⟨hBj2, _⟩ := hElsec j hj' hjo
          rw [hBj2] at hBj
          exact hfresh j hj' hBj
      · -- hElseVals
        intro j hj h1 h2
        have hj' := hj2 j hj
        by_cases hjo : d.bucket_page_ids j = d.bucket_page_ids i0
        · exfalso
          obtain ⟨hLj, hBj2⟩ := hOldc j hj' hjo
          by_cases hbitj : (j >>> d.local_depths i0) &&& 1 = 0
          · rw [hBj2, if_pos hbitj] at h2
            exact h2 rfl
          · rw [hBj2, if_neg hbitj] at h1
            exact h1 rfl
        · obtain ⟨hBj2, hLj2⟩ := hElsec j hj' hjo
          exact ⟨j, hj', hBj2.symm, hLj2, rfl⟩
  obtain ⟨hcw1, hcw2, hcw2eq, hP2, hW6old, hW6new, hElseVals⟩ := hpackage
  obtain ⟨hload, hwf1, hcontain, hsomep⟩ :=
    split_preserves_core hash dirPid hwf hi0 hbst rfl hnext1 hstoreS1
      hlive_old hlive_new hlen_old hlen_new hcw1 hcw2 hcw2eq
      hW6old hW6new hElseVals
  exact ⟨hload, hwf1, hP2, hcontain, hnext1, hsomep⟩

end ExtendibleHashing

namespace ExtendibleHashing

/-- Main preservation induction for `insert_with_lock`: from a well-formed
state, a successful insert yields a well-formed state, all live entries of
the result are old live entries or the inserted pair, the allocation
frontier grows, pages are never erased, and every directory pointer
survives at a congruent slot of no smaller depth (also across the final
stale rewrite of the split path). -/
lemma insert_with_lock_wf {K V : Type} [DecidableEq K] (hash : K → Nat)
    (numEntries : Nat) (dK : K) (dV : V) (dirPid : Nat) :
    ∀ (fuel : Nat) (s : HState K V) (key : K) (value : V) (s' : HState K V),
      WF hash dirPid s →
      insert_with_lock hash numEntries dK dV dirPid fuel s key value = some s' →
      WF hash dirPid s' ∧
      (∀ e, inLiveSet s' e → inLiveSet s e ∨ e = (key, value)) ∧
      s.nextPid ≤ s'.nextPid ∧
      (∀ p, (s.store p).isSome = true → (s'.store p).isSome = true) ∧
      (∀ dd dd', s.loadDir dirPid = some dd → s'.loadDir dirPid = some dd' →
        ∀ i, i < 2 ^ dd.global_depth →
          ∃ j, j < 2 ^ dd'.global_depth ∧
            dd'.bucket_page_ids j = dd.bucket_page_ids i ∧
            j % 2 ^ dd.local_depths i = i % 2 ^ dd.local_depths i ∧
            dd.local_depths i ≤ dd'.local_depths j) := by
  intro fuel
  induction fuel with
  | zero =>
    intro s key value s' hwf h
    cases h
  | succ fuel ih =>
    intro s key value s' hwf h
    obtain ⟨d, hdir, hwfd⟩ := hwf
    rw [insert_with_lock] at h
    obtain ⟨d0, hd0, h⟩ := Option.bind_eq_some.mp h
    rw [hdir] at hd0
    cases hd0
    obtain ⟨bpid, hbpid, h⟩ := Option.bind_eq_some.mp h
    unfold HashDirectoryPage.get_bucket_page_id at hbpid
    by_cases h512 : hash key % (1 <<< d.global_depth) < 512
    swap
    · rw [if_neg h512] at hbpid
      cases hbpid
    rw [if_pos h512] at hbpid
    cases hbpid
    obtain ⟨b, hbload, h⟩ := Option.bind_eq_some.mp h
    have hi0lt : hash key % (1 <<< d.global_depth) < 2 ^ d.global_depth := by
      rw [Nat.one_shiftLeft]
      exact Nat.mod_lt _ (Nat.pos_pow_of_pos _ (by omega))
    have hbne : d.bucket_page_ids (hash key % (1 <<< d.global_depth)) ≠ dirPid :=
      (hwfd.w4 _ hi0lt).2
    have hbst : s.store (d.bucket_page_ids (hash key % (1 <<< d.global_depth))) =
        some (HashPage.bucket b) := HState.loadBucket_inv hbload
    have hliveb : s.liveOf (d.bucket_page_ids (hash key % (1 <<< d.global_depth))) =
        b.live := HState.liveOf_of_bucket hbst
    split at h
    · -- full bucket: split, recurse, stale rewrite
      rename_i hfull
      obtain ⟨bds, hsplit, h⟩ := Option.bind_eq_some.mp h
      obtain ⟨b1, dir1, sA⟩ := bds
      obtain ⟨s2, hrec, h⟩ := Option.bind_eq_some.mp h
      have hrec' : insert_with_lock hash numEntries dK dV dirPid fuel
          ((sA.writePage dirPid (HashPage.dir dir1)).writePage
            (d.bucket_page_ids (hash key % (1 <<< d.global_depth)))
            (HashPage.bucket b1)) key value = some s2 := hrec
      have h' : some ((s2.writePage dirPid (HashPage.dir dir1)).writePage
          (d.bucket_page_ids (hash key % (1 <<< d.global_depth)))
          (HashPage.bucket b1)) = some s' := h
      cases h'
      obtain ⟨hload1, hwf1, hP2s, hcont1, hnext1, hsome1⟩ :=
        split_preserves hash numEntries dK dV dirPid hwfd hi0lt hbload hfull
          hsplit _ rfl
      obtain ⟨hwf2, hcont2, hnext2, hsome2, hP2rec⟩ :=
        ih _ key value s2 ⟨dir1, hload1, hwf1⟩ hrec'
      obtain ⟨d2, hd2load, hwfd2⟩ := hwf2
      have hstoreF : ∀ q,
          ((s2.writePage dirPid (HashPage.dir dir1)).writePage
            (d.bucket_page_ids (hash key % (1 <<< d.global_depth)))
            (HashPage.bucket b1)).store q =
          if q = d.bucket_page_ids (hash key % (1 <<< d.global_depth)) then
            some (HashPage.bucket b1)
          else if q = dirPid then some (HashPage.dir dir1)
          else s2.store q := by
        intro q
        rw [HState.store_writePage]
        by_cases h1 : q = d.bucket_page_ids (hash key % (1 <<< d.global_depth))
        · rw [if_pos h1, if_pos h1]
        · rw [if_neg h1, if_neg h1, HState.store_writePage]
      have hs1bucket : ((sA.writePage dirPid (HashPage.dir dir1)).writePage
          (d.bucket_page_ids (hash key % (1 <<< d.global_depth)))
          (HashPage.bucket b1)).store
          (d.bucket_page_ids (hash key % (1 <<< d.global_depth))) =
          some (HashPage.bucket b1) := by
        rw [HState.store_writePage, if_pos rfl]
      have hs1live : ((sA.writePage dirPid (HashPage.dir dir1)).writePage
          (d.bucket_page_ids (hash key % (1 <<< d.global_depth)))
          (HashPage.bucket b1)).liveOf
          (d.bucket_page_ids (hash key % (1 <<< d.global_depth))) = b1.live :=
        HState.liveOf_of_bucket hs1bucket
      have hdirF : ((s2.writePage dirPid (HashPage.dir dir1)).writePage
          (d.bucket_page_ids (hash key % (1 <<< d.global_depth)))
          (HashPage.bucket b1)).loadDir dirPid = some dir1 := by
        apply HState.loadDir_of_store
        rw [hstoreF, if_neg (fun hh => hbne hh.symm), if_pos rfl]
      refine ⟨⟨dir1, hdirF, ?_, hwf1.w1, hwf1.w2, hwf1.w2eq, ?_, ?_, ?_, ?_⟩,
        ?_, ?_, ?_, ?_⟩
      · -- w0
        intro p hp pg hpg
        rw [hstoreF p] at hpg
        by_cases h1 : p = d.bucket_page_ids (hash key % (1 <<< d.global_depth))
        · rw [if_pos h1] at hpg
          cases hpg
          obtain ⟨b', hb', hlen⟩ := hwf1.w0 _ hbne _ hs1bucket
          injection hb' with hbb
          refine ⟨b1, rfl, ?_⟩
          rw [hbb]
          exact hlen
        · rw [if_neg h1, if_neg hp] at hpg
          exact hwfd2.w0 p hp pg hpg
      · -- w3
        intro j hj
        rw [hstoreF]
        by_cases h1 : dir1.bucket_page_ids j =
            d.bucket_page_ids (hash key % (1 <<< d.global_depth))
        · rw [if_pos h1]
          rfl
        · rw [if_neg h1, if_neg (hwf1.w4 j hj).2]
          exact hsome2 _ (hwf1.w3 j hj)
      · -- w4
        intro j hj
        have := (hwf1.w4 j hj).1
        have hnp : ((s2.writePage dirPid (HashPage.dir dir1)).writePage
            (d.bucket_page_ids (hash key % (1 <<< d.global_depth)))
            (HashPage.bucket b1)).nextPid = s2.nextPid := rfl
        refine ⟨?_, (hwf1.w4 j hj).2⟩
        rw [hnp]
        omega
      · -- w5
        have := hwf1.w5
        show dirPid < s2.nextPid
        omega
      · -- w6
        intro j hj e he
        by_cases hBj : dir1.bucket_page_ids j =
            d.bucket_page_ids (hash key % (1 <<< d.global_depth))
        · have hl : ((s2.writePage dirPid (HashPage.dir dir1)).writePage
              (d.bucket_page_ids (hash key % (1 <<< d.global_depth)))
              (HashPage.bucket b1)).liveOf (dir1.bucket_page_ids j) = b1.live := by
            apply HState.liveOf_of_bucket
            rw [hstoreF, if_pos hBj]
          rw [hl] at he
          apply hwf1.w6 j hj e
          rw [hBj, hs1live]
          exact he
        · have hl : ((s2.writePage dirPid (HashPage.dir dir1)).writePage
              (d.bucket_page_ids (hash key % (1 <<< d.global_depth)))
              (HashPage.bucket b1)).liveOf (dir1.bucket_page_ids j) =
              s2.liveOf (dir1.bucket_page_ids j) := by
            unfold HState.liveOf
            rw [hstoreF, if_neg hBj, if_neg (hwf1.w4 j hj).2]
          rw [hl] at he
          obtain ⟨j2, hj2, hBeq, hcong, hLle⟩ :=
            hP2rec dir1 d2 hload1 hd2load j hj
          have hw6s2 := hwfd2.w6 j2 hj2 e (by rw [hBeq]; exact he)
          calc hash e.1 % 2 ^ dir1.local_depths j
              = hash e.1 % 2 ^ d2.local_depths j2 % 2 ^ dir1.local_depths j :=
                (modPowLe hLle).symm
            _ = j2 % 2 ^ d2.local_depths j2 % 2 ^ dir1.local_depths j := by
                rw [hw6s2]
            _ = j2 % 2 ^ dir1.local_depths j := modPowLe hLle
            _ = j % 2 ^ dir1.local_depths j := hcong
      · -- live containment
        rintro e ⟨p, hp⟩
        by_cases h1 : p = d.bucket_page_ids (hash key % (1 <<< d.global_depth))
        · have hl : ((s2.writePage dirPid (HashPage.dir dir1)).writePage
              (d.bucket_page_ids (hash key % (1 <<< d.global_depth)))
              (HashPage.bucket b1)).liveOf p = b1.live := by
            apply HState.liveOf_of_bucket
            rw [hstoreF, if_pos h1]
          rw [hl] at hp
          left
          apply hcont1
          exact ⟨d.bucket_page_ids (hash key % (1 <<< d.global_depth)),
            by rw [hs1live]; exact hp⟩
        · by_cases h2 : p = dirPid
          · have hl : ((s2.writePage dirPid (HashPage.dir dir1)).writePage
                (d.bucket_page_ids (hash key % (1 <<< d.global_depth)))
                (HashPage.bucket b1)).liveOf p = [] := by
              apply HState.liveOf_of_dir
              rw [hstoreF, if_neg h1, if_pos h2]
            rw [hl] at hp
            cases hp
          · have hl : ((s2.writePage dirPid (HashPage.dir dir1)).writePage
                (d.bucket_page_ids (hash key % (1 <<< d.global_depth)))
                (HashPage.bucket b1)).liveOf p = s2.liveOf p := by
              unfold HState.liveOf
              rw [hstoreF, if_neg h1, if_neg h2]
            rw [hl] at hp
            rcases hcont2 e ⟨p, hp⟩ with he2 | he2
            · exact Or.inl (hcont1 e he2)
            · exact Or.inr he2
      · -- nextPid monotone
        show s.nextPid ≤ s2.nextPid
        omega
      · -- isSome preservation
        intro p hp
        rw [hstoreF]
        by_cases h1 : p = d.bucket_page_ids (hash key % (1 <<< d.global_depth))
        · rw [if_pos h1]
          rfl
        · rw [if_neg h1]
          by_cases h2 : p = dirPid
          · rw [if_pos h2]
            rfl
          · rw [if_neg h2]
            exact hsome2 p (hsome1 p hp)
      · -- pointer survival
        intro dd dd' hdd hdd' i hilt
        rw [hdir] at hdd
        cases hdd
        rw [hdirF] at hdd'
        cases hdd'
        exact hP2s i hilt
    · -- bucket not full: plain insert
      rename_i hfull
      obtain ⟨b2, hins, h⟩ := Option.bind_eq_some.mp h
      have h' : some ((s.writePage dirPid (HashPage.dir d)).writePage
          (d.bucket_page_ids (hash key % (1 <<< d.global_depth)))
          (HashPage.bucket b2)) = some s' := h
      cases h'
      have hinsl := HashBucketPage.insert_live hins
      have hstoreF : ∀ q,
          ((s.writePage dirPid (HashPage.dir d)).writePage
            (d.bucket_page_ids (hash key % (1 <<< d.global_depth)))
            (HashPage.bucket b2)).store q =
          if q = d.bucket_page_ids (hash key % (1 <<< d.global_depth)) then
            some (HashPage.bucket b2)
          else if q = dirPid then some (HashPage.dir d)
          else s.store q := by
        intro q
        rw [HState.store_writePage]
        by_cases h1 : q = d.bucket_page_ids (hash key % (1 <<< d.global_depth))
        · rw [if_pos h1, if_pos h1]
        · rw [if_neg h1, if_neg h1, HState.store_writePage]
      have hdirF : ((s.writePage dirPid (HashPage.dir d)).writePage
          (d.bucket_page_ids (hash key % (1 <<< d.global_depth)))
          (HashPage.bucket b2)).loadDir dirPid = some d := by
        apply HState.loadDir_of_store
        rw [hstoreF, if_neg (fun hh => hbne hh.symm), if_pos rfl]
      have hKey : hash key % 2 ^ d.global_depth =
          hash key % (1 <<< d.global_depth) := by
        rw [Nat.one_shiftLeft]
      have hblen : b.readable.length = b.key_values.length := by
        obtain ⟨b', hb', hlen⟩ := hwfd.w0 _ hbne _ hbst
        injection hb' with hbb
        rw [hbb]
        exact hlen
      refine ⟨⟨d, hdirF, ?_, hwfd.w1, hwfd.w2, hwfd.w2eq, ?_, ?_, ?_, ?_⟩,
        ?_, ?_, ?_, ?_⟩
      · -- w0
        intro p hp pg hpg
        rw [hstoreF p] at hpg
        by_cases h1 : p = d.bucket_page_ids (hash key % (1 <<< d.global_depth))
        · rw [if_pos h1] at hpg
          cases hpg
          refine ⟨b2, rfl, ?_⟩
          rw [hinsl.2.2.1, hinsl.2.2.2, hblen]
        · rw [if_neg h1, if_neg hp] at hpg
          exact hwfd.w0 p hp pg hpg
      · -- w3
        intro j hj
        rw [hstoreF]
        by_cases h1 : d.bucket_page_ids j =
            d.bucket_page_ids (hash key % (1 <<< d.global_depth))
        · rw [if_pos h1]
          rfl
        · rw [if_neg h1, if_neg (hwfd.w4 j hj).2]
          exact hwfd.w3 j hj
      · -- w4
        intro j hj
        exact hwfd.w4 j hj
      · -- w5
        exact hwfd.w5
      · -- w6
        intro j hj e he
        by_cases hBj : d.bucket_page_ids j =
            d.bucket_page_ids (hash key % (1 <<< d.global_depth))
        · have hl : ((s.writePage dirPid (HashPage.dir d)).writePage
              (d.bucket_page_ids (hash key % (1 <<< d.global_depth)))
              (HashPage.bucket b2)).liveOf (d.bucket_page_ids j) = b2.live := by
            apply HState.liveOf_of_bucket
            rw [hstoreF, if_pos hBj]
          rw [hl] at he
          rcases hinsl.1 e he with he2 | he2
          · apply hwfd.w6 j hj e
            rw [hBj, hliveb]
            exact he2
          · subst he2
            have h1 : (hash key % (1 <<< d.global_depth)) %
                2 ^ d.local_depths (hash key % (1 <<< d.global_depth)) =
                j % 2 ^ d.local_depths (hash key % (1 <<< d.global_depth)) :=
              (hwfd.w2 _ hi0lt j hj).mp hBj.symm
            have hLeq : d.local_depths j =
                d.local_depths (hash key % (1 <<< d.global_depth)) :=
              hwfd.w2eq j hj _ hi0lt hBj
            have hLle := hwfd.w1 _ hi0lt
            rw [hLeq]
            calc hash key % 2 ^ d.local_depths (hash key % (1 <<< d.global_depth))
                = hash key % 2 ^ d.global_depth %
                  2 ^ d.local_depths (hash key % (1 <<< d.global_depth)) :=
                  (modPowLe hLle).symm
              _ = (hash key % (1 <<< d.global_depth)) %
                  2 ^ d.local_depths (hash key % (1 <<< d.global_depth)) := by
                  rw [hKey]
              _ = j % 2 ^ d.local_depths (hash key % (1 <<< d.global_depth)) := h1
        · have hl : ((s.writePage dirPid (HashPage.dir d)).writePage
              (d.bucket_page_ids (hash key % (1 <<< d.global_depth)))
              (HashPage.bucket b2)).liveOf (d.bucket_page_ids j) =
              s.liveOf (d.bucket_page_ids j) := by
            unfold HState.liveOf
            rw [hstoreF, if_neg hBj, if_neg (hwfd.w4 j hj).2]
          rw [hl] at he
          exact hwfd.w6 j hj e he
      · -- live containment
        rintro e ⟨p, hp⟩
        by_cases h1 : p = d.bucket_page_ids (hash key % (1 <<< d.global_depth))
        · have hl : ((s.writePage dirPid (HashPage.dir d)).writePage
              (d.bucket_page_ids (hash key % (1 <<< d.global_depth)))
              (HashPage.bucket b2)).liveOf p = b2.live := by
            apply HState.liveOf_of_bucket
            rw [hstoreF, if_pos h1]
          rw [hl] at hp
          rcases hinsl.1 e hp with he2 | he2
          · exact Or.inl ⟨d.bucket_page_ids (hash key % (1 <<< d.global_depth)),
              by rw [hliveb]; exact he2⟩
          · exact Or.inr he2
        · by_cases h2 : p = dirPid
          · have hl : ((s.writePage dirPid (HashPage.dir d)).writePage
                (d.bucket_page_ids (hash key % (1 <<< d.global_depth)))
                (HashPage.bucket b2)).liveOf p = [] := by
              apply HState.liveOf_of_dir
              rw [hstoreF, if_neg h1, if_pos h2]
            rw [hl] at hp
            cases hp
          · have hl : ((s.writePage dirPid (HashPage.dir d)).writePage
                (d.bucket_page_ids (hash key % (1 <<< d.global_depth)))
                (HashPage.bucket b2)).liveOf p = s.liveOf p := by
              unfold HState.liveOf
              rw [hstoreF, if_neg h1, if_neg h2]
            rw [hl] at hp
            exact Or.inl ⟨p, hp⟩
      · -- nextPid monotone
        exact Nat.le_refl _
      · -- isSome preservation
        intro p hp
        rw [hstoreF]
        by_cases h1 : p = d.bucket_page_ids (hash key % (1 <<< d.global_depth))
        · rw [if_pos h1]
          rfl
        · rw [if_neg h1]
          by_cases h2 : p = dirPid
          · rw [if_pos h2]
            rfl
          · rw [if_neg h2]
            exact hp
      · -- pointer survival
        intro dd dd' hdd hdd' i hilt
        rw [hdir] at hdd
        cases hdd
        rw [hdirF] at hdd'
        cases hdd'
        exact ⟨i, hilt, rfl, rfl, Nat.le_refl _⟩

end ExtendibleHashing

namespace HashBucketPage

/-- `insert` keeps every previously live entry live. -/
lemma insert_live_mono {K V : Type} {b b2 : HashBucketPage K V} {k : K} {v : V}
    (h : b.insert k v = some b2) : ∀ e, e ∈ b.live → e ∈ b2.live := by
  unfold insert at h
  rcases hff : b.first_free_index with _ | i
  · rw [hff] at h
    cases h
  · rw [hff] at h
    simp only [Option.some_bind] at h
    have hr : b.readable.get? i = some false :=
      firstFreeLoop_found b.readable b.readable.length 0 i hff
    unfold toggle_readable at h
    rw [hr] at h
    simp only [Option.some_bind, Bool.not_false] at h
    unfold set_has_been_occupied at h
    by_cases hio : i < b.has_been_occupied.length
    · simp only [hio, if_pos trivial, Option.some_bind] at h
      by_cases hik : i < b.key_values.length
      · simp only [hik, if_pos trivial, Option.some.injEq] at h
        subst h
        intro e he
        obtain ⟨j, hj1, hj2⟩ := (mem_live_iff _ e).mp he
        have hji : j ≠ i := by
          intro hh
          rw [hh, hr] at hj1
          simp at hj1
        apply (mem_live_iff _ e).mpr
        exact ⟨j, by rw [get?Set_ne _ _ _ _ (fun hh => hji hh.symm)]; exact hj1,
          by rw [get?Set_ne _ _ _ _ (fun hh => hji hh.symm)]; exact hj2⟩
      · simp only [hik, if_false] at h
        cases h
    · simp only [hio, if_false] at h
      cases h

end HashBucketPage

namespace ExtendibleHashing

/-- Every live entry of the old bucket whose hash has bit `L-1` clear is
moved by the rehash loop into the new bucket, and the new bucket's previous
live entries survive. -/
lemma rehashLoop_moved {K V : Type} (hash : K → Nat) (dK : K) (dV : V) (L : Nat) :
    ∀ (count i : Nat) (old nw old2 nw2 : HashBucketPage K V),
      rehashLoop hash dK dV L count i old nw = some (old2, nw2) →
      count + i = old.key_values.length →
      (∀ j, i ≤ j → j < old.key_values.length → old.readable.get? j = some true) →
      (∀ e, e ∈ nw.live → e ∈ nw2.live) ∧
      (∀ j, i ≤ j → j < old.key_values.length →
        ∀ kv : K × V, old.key_values.get? j = some kv →
        (hash kv.1 >>> (L - 1)) &&& 1 = 0 → kv ∈ nw2.live) := by
  intro count
  induction count with
  | zero =>
    intro i old nw old2 nw2 h hcount hsuf
    cases h
    exact ⟨fun e he => he, fun j hj1 hj2 kv hkv hbit => absurd hj2 (by omega)⟩
  | succ count ih =>
    intro i old nw old2 nw2 h hcount hsuf
    have hilt : i < old.key_values.length := by omega
    obtain ⟨kv0, hkv0⟩ : ∃ kv, old.key_values.get? i = some kv := by
      rcases hg : old.key_values.get? i with _ | kv
      · exact absurd (List.get?_eq_none.mp hg) (by omega)
      · exact ⟨kv, rfl⟩
    rw [rehashLoop] at h
    unfold HashBucketPage.key_at at h
    rw [hkv0] at h
    simp only [Option.map_some', Option.some_bind] at h
    have hri : old.readable.get? i = some true := hsuf i (Nat.le_refl i) hilt
    by_cases hbit : (hash kv0.1 >>> (L - 1)) &&& 1 = 0
    · rw [if_pos hbit] at h
      rw [HashBucketPage.remove_index_eq dK dV hri hkv0] at h
      simp only [Option.some_bind, Bool.not_true] at h
      rcases hins : nw.insert kv0.1 kv0.2 with _ | nw1
      · rw [hins] at h
        cases h
      · rw [hins] at h
        simp only [Option.some_bind] at h
        set old1 : HashBucketPage K V :=
          { readable := old.readable.set i false
            has_been_occupied := old.has_been_occupied
            key_values := old.key_values.set i (dK, dV) } with hold1
        have hrec := ih (i + 1) old1 nw1 old2 nw2 h
          (by simp [hold1]; omega)
          (by
            intro j hj1 hj2
            simp only [hold1] at hj2 ⊢
            rw [List.length_set] at hj2
            rw [get?Set_ne _ _ _ _ (by omega)]
            exact hsuf j (by omega) hj2)
        have hmono1 := HashBucketPage.insert_live_mono hins
        have hin1 : (kv0.1, kv0.2) ∈ nw1.live :=
          (HashBucketPage.insert_live hins).2.1
        refine ⟨fun e he => hrec.1 e (hmono1 e he), ?_⟩
        intro j hj1 hj2 kv hkv hbitkv
        by_cases hji : j = i
        · subst hji
          have hkveq : kv = kv0 := by
            rw [hkv0] at hkv
            exact (Option.some.injEq _ _ ▸ hkv).symm
          subst hkveq
          exact hrec.1 _ hin1
        · have hkv1 : old1.key_values.get? j = some kv := by
            rw [hold1]
            show (old.key_values.set i (dK, dV)).get? j = some kv
            rw [get?Set_ne _ _ _ _ (by omega)]
            exact hkv
          refine hrec.2 j (by omega) ?_ kv hkv1 hbitkv
          rw [show old1.key_values.length = old.key_values.length from by
            simp [hold1]]
          exact hj2
    · rw [if_neg hbit] at h
      have hrec := ih (i + 1) old nw old2 nw2 h (by omega)
        (fun j hj1 hj2 => hsuf j (by omega) hj2)
      refine ⟨hrec.1, ?_⟩
      intro j hj1 hj2 kv hkv hbitkv
      by_cases hji : j = i
      · subst hji
        have hkveq : kv = kv0 := by
          rw [hkv0] at hkv
          exact (Option.some.injEq _ _ ▸ hkv).symm
        subst hkveq
        exact absurd hbitkv hbit
      · exact hrec.2 j (by omega) hj2 kv hkv hbitkv

/-- Well-formedness of the freshly set up hash map over the empty file. -/
lemma exSetup_wf : WF exHash exSetup.1 exSetup.2 := by
  refine ⟨HashDirectoryPage.new_empty 0 1 2 2, rfl, ?_, ?_, ?_, ?_, ?_, ?_, ?_, ?_⟩
  · -- w0
    intro p hp pg hpg
    have hp0 : p ≠ 0 := hp
    have hpg2 : (if p = 2 then some (HashPage.bucket (HashBucketPage.empty 2 0 0))
        else if p = 1 then some (HashPage.bucket (HashBucketPage.empty 2 0 0))
        else if p = 0 then some (HashPage.bucket (HashBucketPage.empty 2 0 0))
        else (none : Option (HashPage Nat Nat))) = some pg := by
      have hpg3 : (if p = 0 then some (HashPage.dir (HashDirectoryPage.new_empty 0 1 2 2))
          else if p = 2 then some (HashPage.bucket (HashBucketPage.empty 2 0 0))
          else if p = 1 then some (HashPage.bucket (HashBucketPage.empty 2 0 0))
          else if p = 0 then some (HashPage.bucket (HashBucketPage.empty 2 0 0))
          else (none : Option (HashPage Nat Nat))) = some pg := hpg
      rw [if_neg hp0] at hpg3
      exact hpg3
    by_cases h2 : p = 2
    · rw [if_pos h2] at hpg2
      cases hpg2
      exact ⟨HashBucketPage.empty 2 0 0, rfl, rfl⟩
    · rw [if_neg h2] at hpg2
      by_cases h1 : p = 1
      · rw [if_pos h1] at hpg2
        cases hpg2
        exact ⟨HashBucketPage.empty 2 0 0, rfl, rfl⟩
      · rw [if_neg h1, if_neg hp0] at hpg2
        cases hpg2
  · -- w1
    intro i hi
    have hi2 : i < 2 := hi
    interval_cases i <;> decide
  · -- w2
    intro i hi j hj
    have hi2 : i < 2 := hi
    have hj2 : j < 2 := hj
    interval_cases i <;> interval_cases j <;> decide
  · -- w2eq
    intro i hi j hj
    have hi2 : i < 2 := hi
    have hj2 : j < 2 := hj
    interval_cases i <;> interval_cases j <;> decide
  · -- w3
    intro i hi
    have hi2 : i < 2 := hi
    interval_cases i <;> rfl
  · -- w4
    intro i hi
    have hi2 : i < 2 := hi
    interval_cases i <;> exact ⟨by decide, by decide⟩
  · -- w5
    decide
  · -- w6
    intro i hi e he
    have hi2 : i < 2 := hi
    interval_cases i
    · have hl : exSetup.2.liveOf
          ((HashDirectoryPage.new_empty 0 1 2 2).bucket_page_ids 0) = [] := rfl
      rw [hl] at he
      cases he
    · have hl : exSetup.2.liveOf
          ((HashDirectoryPage.new_empty 0 1 2 2).bucket_page_ids 1) = [] := rfl
      rw [hl] at he
      cases he

end ExtendibleHashing

/-!
## Claim theorems
-/

set_option maxRecDepth 4000 in
/-- C1.  The hash index loses an insert that triggers a split: in the run
`insert (0,10); insert (2,20); insert (6,30)` (identity hash, two slots per
bucket) every insert succeeds, yet the spec's lookup of key 6 afterwards
returns `none` — key 6 stayed in the old bucket after the split and the
trailing stale `update_directory_and_bucket` of the outer `insert_with_lock`
frame overwrote it.  The claim requires the lookup to return a previously
inserted value. -/
theorem c1_insert_lost_after_split :
    c1Run.map (fun s => ExtendibleHashing.lookup exHash exSetup.1 s 6) = some none ∧
    c1Run.map (fun s => ExtendibleHashing.lookup exHash exSetup.1 s 2) = some (some 20) := by
  constructor <;> rfl

set_option maxRecDepth 8000 in
/-- C2.  After filling the pool (pages 0..99), unpinning page 0 and loading
page 100 — a miss on a full pool that evicts victim 0 — the victim is still
present in `page_table` (with `ref_count = 0` and its old `frame_index` 0)
while the LRU replacer no longer contains it, and the table has grown to
101 entries: `load_page_from_disk` installs the new entry without removing
the victim, violating both the `lru.contains(pid) ⇔ ref_count(pid) == 0`
invariant and the eviction step of the claim. -/
theorem c2_eviction_leaves_stale_page_table_entry :
    c2Run.map (fun bp =>
      (BP.BufferPool.ptLookup bp.page_table 0,
       bp.lru_replacer.contains 0,
       bp.page_table.length,
       (BP.BufferPool.ptLookup bp.page_table 100).map BP.PageTableEntry.frame_index)) =
    some (some ⟨0, false, 0⟩, false, 101, some 0) := by
  rfl

set_option maxRecDepth 2000 in
/-- C3.  `encode` of the internal page of the repository's own unit test is
a well-formed 4096-byte page, but decoding it back does not return the page:
`from_raw_page` stores every entry with `vec[i] = …` into the empty
`Vec::with_capacity(current_size)` vector, an out-of-bounds index (a panic)
for every `current_size ≥ 1` — `decode ∘ encode` is not the identity. -/
theorem c3_internal_page_decode_encode_fails :
    (∀ raw, Codec.internalToRaw c3Page = some raw → raw.length = 4096) ∧
    (Codec.internalToRaw c3Page).isSome ∧
    (Codec.internalToRaw c3Page).bind Codec.internalFromRaw = none := by
  exact ⟨fun _ h => Codec.internalToRaw_length h, rfl, rfl⟩

set_option maxRecDepth 2000 in
/-- Validation of the codec model against the repository's
`to_raw_page_test`: the first 45 encoded bytes are exactly the unit test's
expected bytes (remainder zero). -/
theorem internalToRaw_matches_unit_test :
    ((Codec.internalToRaw c3Page).getD []).take 45 =
      [10, 0, 0, 0, 0, 1, 0, 0, 0, 3, 0, 0, 0, 120, 0, 0, 0, 0, 0, 0, 0,
       15, 0, 0, 0, 0, 0, 0, 0, 20, 0, 0, 0, 20, 0, 0, 0, 45, 0, 0, 0, 21, 0, 0, 0] := by
  rfl

/-- C5.  `get_child_node` panics instead of returning the last child for a
key at or above the last entry's key (the loop reads `key_page_pairs[i+1]`
at `i = len − 1`; the `last()` return is dead code), and also panics on a
single-entry page (it reads `key_page_pairs[1]` first).  Keys strictly
below the last key are routed per the rule. -/
theorem c5_route_panics_at_or_above_last_key :
    BPlusTree.get_child_node [((15 : Nat), 0), (20, 20), (45, 21)] 45 = none ∧
    BPlusTree.get_child_node [((15 : Nat), 0), (20, 20), (45, 21)] 50 = none ∧
    BPlusTree.get_child_node [((15 : Nat), 0)] 10 = none ∧
    BPlusTree.get_child_node [((15 : Nat), 0), (20, 20), (45, 21)] 10 = some 0 ∧
    BPlusTree.get_child_node [((15 : Nat), 0), (20, 20), (45, 21)] 30 = some 20 := by
  refine ⟨rfl, rfl, rfl, rfl, rfl⟩

/-- C7 counterexample.  Searching a one-leaf tree succeeds (finding RID
(7,7)) but leaves the root pinned: its `ref_count` is 1 after the call and
was 0 before — the traversal contains no `unload_page_id`, so the pin count
does not return to its prior value as the claim states. -/
theorem c7_search_pins_counterexample :
    (BPlusTree.search 5 c7Pool 0 3).map
      (fun r => (r.1, BP.BufferPool.refCount r.2.1 0, r.2.2)) =
      some (some ⟨7, 7⟩, 1, [0]) ∧
    BP.BufferPool.refCount c7Pool 0 = 0 := by
  exact ⟨rfl, rfl⟩

/-- C8 counterexample.  On the empty page with `free_space_pointer = 14`,
inserting a 4-byte tuple succeeds in the code (the check compares
`(tuple_count + 1) * 5` against the decremented pointer, with no
`header_end`), although appending it breaks the spec invariant
`8 + tuple_count × 5 ≤ free_space_pointer` (13 ≰ 10) — so the claim's
"fails exactly when the invariant would break" is false at this input. -/
theorem c8_insert_check_counterexample :
    (TablePage.insert ⟨0, 14, 0, [], []⟩ [1, 2, 3, 4]).1 = some ⟨0, 0⟩ ∧
    ¬ specHeapInvariant (0 + 1) (14 - 4) := by
  exact ⟨rfl, by decide⟩

/-- C4.  `unload_all_pages_and_write_to_file` writes, for every page-table
entry that was dirty, exactly one page through the disk manager (none for
clean entries), and leaves the pool empty: `page_table` drained, every
frame `None`, the LRU replacer cleared.  The page-table keys are distinct
(a `HashMap` in the source). -/
theorem c4_flush_all {P : Type} (bp : BP.BufferPool P)
    (hnd : (bp.page_table.map Prod.fst).Nodup) :
    match BP.BufferPool.unload_all_pages_and_write_to_file bp with
    | none => True
    | some bp2 =>
      (∀ pid, ((bp2.writeLog.drop bp.writeLog.length).map Prod.fst).count pid =
        (match BP.BufferPool.ptLookup bp.page_table pid with
          | some e => if e.dirty then 1 else 0
          | none => 0)) ∧
      bp2.page_table = [] ∧
      bp2.data = List.replicate bp.data.length none ∧
      bp2.lru_replacer.current_pages = [] := by
  unfold BP.BufferPool.unload_all_pages_and_write_to_file
  rcases hf : BP.BufferPool.flushDrain { bp with page_table := [] } bp.page_table with _ | bpd
  · simp
  · simp only [Option.map_some']
    have hspec := BP.BufferPool.flushDrain_spec bp.page_table { bp with page_table := [] } bpd hf
    refine ⟨?_, ?_, ?_, rfl⟩
    · intro pid
      have hlog : bpd.writeLog = bp.writeLog ++ BP.BufferPool.drainWrites bp.data bp.page_table :=
        hspec.1
      show ((bpd.writeLog.drop bp.writeLog.length).map Prod.fst).count pid = _
      rw [hlog, List.drop_left]
      exact BP.BufferPool.drainWrites_count bp.data bp.page_table pid hnd hspec.2.2.2.2
    · exact hspec.2.2.1
    · show List.replicate bpd.data.length none = _
      rw [hspec.2.1]

/-- Witness for C4 at `c4Pool`. -/
theorem c4_flush_all_witness :
    (c4Pool.page_table.map Prod.fst).Nodup ∧
    (match BP.BufferPool.unload_all_pages_and_write_to_file c4Pool with
    | none => True
    | some bp2 =>
      (∀ pid, ((bp2.writeLog.drop c4Pool.writeLog.length).map Prod.fst).count pid =
        (match BP.BufferPool.ptLookup c4Pool.page_table pid with
          | some e => if e.dirty then 1 else 0
          | none => 0)) ∧
      bp2.page_table = [] ∧
      bp2.data = List.replicate c4Pool.data.length none ∧
      bp2.lru_replacer.current_pages = []) :=
  ⟨by decide, c4_flush_all c4Pool (by decide)⟩

/-- C7, amended.  The B+ search traversal pins the root and then each
routed child and performs no unpin whatsoever (`get_leaf_of` contains no
`unload_page_id`): when `search` returns, the pin count of every page is
its prior value **plus** the number of times the traversal loaded it — in
particular every page on the visited path ends with a strictly larger
`ref_count`, not an unchanged one. -/
theorem c7_search_never_unpins {Key : Type} [LinearOrder Key] (fuel : Nat)
    (bp : BP.BufferPool (BPlusTree.BPTPage Key)) (root_pid : Nat) (key : Key) :
    match BPlusTree.search fuel bp root_pid key with
    | none => True
    | some rbv =>
      rbv.2.2.head? = some root_pid ∧
      ∀ q, BP.BufferPool.refCount rbv.2.1 q =
        BP.BufferPool.refCount bp q + rbv.2.2.count q := by
  unfold BPlusTree.search
  rcases hg : BPlusTree.get_leaf_of fuel bp root_pid key with _ | pbv
  · exact trivial
  · rcases pbv with ⟨page, bpf, vis⟩
    unfold BPlusTree.get_leaf_of at hg
    rcases hload : BP.BufferPool.load_page bp root_pid with _ | rb
    · rw [hload] at hg; cases hg
    · rw [hload] at hg
      simp only [Option.some_bind] at hg
      rcases rb with ⟨ofr, bpm⟩
      rcases ofr with _ | cf
      · cases hg
      · simp only [Option.some_bind] at hg
        rcases hframe : bpm.data.get? cf with _ | opage
        · rw [hframe] at hg; cases hg
        · rcases opage with _ | page0
          · rw [hframe] at hg; cases hg
          · rw [hframe] at hg
            have hload2 := BP.BufferPool.load_page_refCount hload
            have hrec := BPlusTree.getLeafLoop_refCount key fuel bpm page0 [root_pid]
              page bpf vis hg
            have hmain : ∀ q, BP.BufferPool.refCount bpf q =
                BP.BufferPool.refCount bp q + vis.count q := by
              intro q
              have h1 := hrec.1 q
              by_cases hq : q = root_pid
              · subst hq
                have h2 := hload2.1
                simp [List.count_singleton] at h1
                omega
              · have h2 := hload2.2 q hq
                have h3 : List.count q [root_pid] = 0 := by
                  simp [List.count_singleton, hq]
                rw [h3] at h1
                omega
            have hhead : vis.head? = some root_pid := by
              have := hrec.2 (by simp)
              simpa using this
            cases page with
            | internal es => exact ⟨hhead, hmain⟩
            | leaf ks rs => exact ⟨hhead, hmain⟩

/-- C8, amended.  `TablePage::insert` first decrements `free_space_pointer`
by the tuple length (also on the failing path) and then fails exactly when
`(tuple_count + 1) × 5 ≥ free_space_pointer` — the check contains no
8-byte base-header term.  On success the slot header lands at
`slot_id = previous tuple_count` with offset the decremented pointer, and
afterwards the weaker bound `tuple_count × 5 < free_space_pointer` holds. -/
theorem c8_insert_spec (tp : TablePage) (tuple_data : List Nat)
    (_hlen : tuple_data.length ≤ tp.free_space_pointer)
    (hslots : tp.tuple_headers.length = tp.tuple_count) :
    ((TablePage.insert tp tuple_data).1 = none ↔
      (tp.tuple_count + 1) * 5 ≥ tp.free_space_pointer - tuple_data.length) ∧
    (TablePage.insert tp tuple_data).2.free_space_pointer =
      tp.free_space_pointer - tuple_data.length ∧
    ((TablePage.insert tp tuple_data).1 = none →
      (TablePage.insert tp tuple_data).2 =
        { tp with free_space_pointer := tp.free_space_pointer - tuple_data.length }) ∧
    (∀ rid, (TablePage.insert tp tuple_data).1 = some rid →
      rid = ⟨tp.own_pid, tp.tuple_count⟩ ∧
      (TablePage.insert tp tuple_data).2.tuple_headers =
        tp.tuple_headers ++
          [⟨tp.free_space_pointer - tuple_data.length, tuple_data.length, false⟩] ∧
      (TablePage.insert tp tuple_data).2.tuple_count = tp.tuple_count + 1 ∧
      (TablePage.insert tp tuple_data).2.tuple_count * 5 <
        (TablePage.insert tp tuple_data).2.free_space_pointer) := by
  by_cases hfail : (tp.tuple_count + 1) * 5 ≥ tp.free_space_pointer - tuple_data.length
  · refine ⟨?_, ?_, fun _ => ?_, fun rid hr => ?_⟩ <;>
      simp_all [TablePage.insert]
  · refine ⟨?_, ?_, fun hc => ?_, fun rid hr => ?_⟩
    · simp [TablePage.insert, hfail]
    · simp [TablePage.insert, hfail]
    · simp [TablePage.insert, hfail] at hc
    · have hr2 : rid = (⟨tp.own_pid, tp.tuple_headers.length⟩ : Rid) := by
        simp [TablePage.insert, hfail] at hr
        exact hr.symm
      refine ⟨by rw [hr2, hslots], ?_, ?_, ?_⟩ <;>
        simp [TablePage.insert, hfail]
      omega

/-- Witness for C8: inserting a 4-byte tuple into the empty page with
`free_space_pointer = 4096` (the repository's `test_insert` scenario). -/
theorem c8_insert_spec_witness :
    ([10, 0, 15, 5].length ≤ (4096 : Nat)) ∧
    (TablePage.insert ⟨0, 4096, 0, [], []⟩ [10, 0, 15, 5]).2.free_space_pointer =
      4096 - [10, 0, 15, 5].length :=
  ⟨by decide,
    (c8_insert_spec ⟨0, 4096, 0, [], []⟩ [10, 0, 15, 5] (by decide) (by decide)).2.1⟩

/-- C9.  `unload_page_id` fails exactly when the page is absent from the
page table or already has `ref_count = 0`, and a failure leaves the pool
unchanged; a success decrements `ref_count`, adds the page to the LRU
replacer exactly on the 1→0 transition, and touches nothing else. -/
theorem c9_unload_page_id_spec {P : Type} (bp : BP.BufferPool P) (page_id : Nat) :
    ((BP.BufferPool.unload_page_id bp page_id).1.isOk = false ↔
      (BP.BufferPool.ptLookup bp.page_table page_id = none ∨
        BP.BufferPool.refCount bp page_id = 0)) ∧
    ((BP.BufferPool.unload_page_id bp page_id).1.isOk = false →
      (BP.BufferPool.unload_page_id bp page_id).2 = bp) ∧
    (∀ e, BP.BufferPool.ptLookup bp.page_table page_id = some e → e.ref_count ≠ 0 →
      BP.BufferPool.ptLookup (BP.BufferPool.unload_page_id bp page_id).2.page_table page_id =
        some ⟨e.frame_index, e.dirty, e.ref_count - 1⟩ ∧
      (e.ref_count = 1 →
        (BP.BufferPool.unload_page_id bp page_id).2.lru_replacer =
          bp.lru_replacer.add_page page_id) ∧
      (e.ref_count ≠ 1 →
        (BP.BufferPool.unload_page_id bp page_id).2.lru_replacer = bp.lru_replacer) ∧
      (BP.BufferPool.unload_page_id bp page_id).2.data = bp.data ∧
      (BP.BufferPool.unload_page_id bp page_id).2.disk = bp.disk ∧
      (BP.BufferPool.unload_page_id bp page_id).2.writeLog = bp.writeLog) := by
  refine ⟨?_, ?_, ?_⟩
  · unfold BP.BufferPool.unload_page_id BP.BufferPool.refCount
    rcases h : BP.BufferPool.ptLookup bp.page_table page_id with _ | e
    · simp [Except.isOk, Except.toBool]
    · by_cases hz : e.ref_count = 0 <;> simp [hz, Except.isOk, Except.toBool]
  · unfold BP.BufferPool.unload_page_id
    rcases h : BP.BufferPool.ptLookup bp.page_table page_id with _ | e
    · simp
    · by_cases hz : e.ref_count = 0 <;> simp [hz, Except.isOk, Except.toBool]
  · intro e he hz
    by_cases h1 : e.ref_count = 1
    · have h0 : e.ref_count - 1 = 0 := by omega
      refine ⟨?_, fun _ => ?_, fun hc => absurd h1 hc, ?_, ?_, ?_⟩ <;>
        simp [BP.BufferPool.unload_page_id, he, hz, h0,
          BP.BufferPool.ptLookup_ptUpdate_self _ _ _ _ he]
    · have h0 : ¬ (e.ref_count - 1 = 0) := by omega
      refine ⟨?_, fun hc => absurd hc h1, fun _ => ?_, ?_, ?_, ?_⟩ <;>
        simp [BP.BufferPool.unload_page_id, he, hz, h0,
          BP.BufferPool.ptLookup_ptUpdate_self _ _ _ _ he]

/-- Witness for C9 at `c9Pool`: unpinning page 5 decrements 2 → 1. -/
theorem c9_unload_page_id_spec_witness :
    BP.BufferPool.ptLookup (BP.BufferPool.unload_page_id c9Pool 5).2.page_table 5 =
      some ⟨0, false, 1⟩ :=
  ((c9_unload_page_id_spec c9Pool 5).2.2 ⟨0, false, 2⟩ rfl (by decide)).1

/-- C10.  When `key` has no live entry in its addressed bucket, `remove`
returns `None` and the state is unchanged: the directory page and every
bucket page are rewritten with exactly their prior content (the store is
pointwise equal and no page was allocated). -/
theorem c10_remove_missing_key {K V : Type} [DecidableEq K]
    (hash : K → Nat) (dK : K) (dV : V) (directory_page_id : Nat)
    (s : HState K V) (key : K)
    (habsent : ∀ e ∈ s.liveOf ((s.loadDir directory_page_id).elim 0
        fun d => d.bucket_page_ids (hash key % (1 <<< d.global_depth))),
      e.1 ≠ key) :
    match ExtendibleHashing.remove hash dK dV directory_page_id s key with
    | none => True
    | some rs =>
      rs.1 = none ∧ (∀ p, rs.2.store p = s.store p) ∧ rs.2.nextPid = s.nextPid := by
  split
  · exact trivial
  · rename_i rs h
    unfold ExtendibleHashing.remove at h
    rcases hd : s.loadDir directory_page_id with _ | d
    · rw [hd] at h; cases h
    · rw [hd] at h
      simp only [Option.some_bind] at h
      rcases hb : d.get_bucket_page_id (hash key % (1 <<< d.global_depth)) with _ | bucket_pid
      · rw [hb] at h; cases h
      · rw [hb] at h
        simp only [Option.some_bind] at h
        have hpid : bucket_pid = d.bucket_page_ids (hash key % (1 <<< d.global_depth)) := by
          unfold HashDirectoryPage.get_bucket_page_id at hb
          split at hb
          · exact (Option.some.injEq _ _ ▸ hb).symm
          · cases hb
        rcases hlb : s.loadBucket bucket_pid with _ | b
        · rw [hlb] at h
          cases h
          exact ⟨rfl, fun p => rfl, rfl⟩
        · rw [hlb] at h
          have h2 : ((b.remove key dK dV).bind fun a =>
              some (Option.map (fun r => r.1) a,
                (s.writePage directory_page_id (HashPage.dir d)).writePage bucket_pid
                  (HashPage.bucket (match a with | some r => r.2 | none => b)))) =
              some rs := h
          clear h
          rcases hrem : b.remove key dK dV with _ | res
          · rw [hrem] at h2; cases h2
          · rw [hrem] at h2
            simp only [Option.some_bind, Option.some.injEq] at h2
            have hres : res = none := by
              rcases res with _ | ⟨kv, b2⟩
              · rfl
              · exfalso
                unfold HashBucketPage.remove at hrem
                rcases hscan : HashBucketPage.removeScan b key b.key_values.length 0 with _ | oi
                · rw [hscan] at hrem; cases hrem
                · rcases oi with _ | i
                  · rw [hscan] at hrem; cases hrem
                  · obtain ⟨kv0, hr, hkv, hk⟩ :=
                      HashBucketPage.removeScan_found b key b.key_values.length 0 i hscan
                    have hmem : kv0 ∈ b.live :=
                      (HashBucketPage.mem_live_iff b kv0).mpr ⟨i, hr, hkv⟩
                    have hin : kv0 ∈ s.liveOf ((s.loadDir directory_page_id).elim 0
                        fun d => d.bucket_page_ids (hash key % (1 <<< d.global_depth))) := by
                      rw [hd]
                      simp only [Option.elim]
                      rw [← hpid]
                      unfold HState.liveOf
                      unfold HState.loadBucket at hlb
                      rcases hst : s.store bucket_pid with _ | pg
                      · rw [hst] at hlb; cases hlb
                      · rw [hst] at hlb
                        cases pg with
                        | dir d2 => cases hlb
                        | bucket b2 =>
                          simp only [Option.some.injEq] at hlb
                          cases hlb
                          exact hmem
                    exact absurd hk (habsent kv0 hin)
            subst hres
            cases h2
            refine ⟨rfl, fun p => ?_, rfl⟩
            simp only [HState.writePage]
            by_cases hp : p = bucket_pid
            · subst hp
              simp only [if_pos rfl]
              unfold HState.loadBucket at hlb
              rcases hst : s.store p with _ | pg
              · rw [hst] at hlb; cases hlb
              · rw [hst] at hlb
                cases pg with
                | dir d2 => cases hlb
                | bucket b2 =>
                  simp only [Option.some.injEq] at hlb
                  cases hlb
                  rfl
            · simp only [hp, if_false]
              by_cases hq : p = directory_page_id
              · subst hq
                simp only [if_pos rfl]
                unfold HState.loadDir at hd
                rcases hst : s.store p with _ | pg
                · rw [hst] at hd; cases hd
                · rw [hst] at hd
                  cases pg with
                  | bucket b2 => cases hd
                  | dir d2 =>
                    simp only [Option.some.injEq] at hd
                    cases hd
                    rfl
              · simp [hq]

/-- Witness for C10 at the fresh hash index: key 5 has no live entry
anywhere, and `remove` reports `None` leaving the store untouched. -/
theorem c10_remove_missing_key_witness :
    (∀ e ∈ exSetup.2.liveOf ((exSetup.2.loadDir exSetup.1).elim 0
        fun d => d.bucket_page_ids (exHash 5 % (1 <<< d.global_depth))),
      e.1 ≠ 5) ∧
    (match ExtendibleHashing.remove exHash 0 0 exSetup.1 exSetup.2 5 with
    | none => True
    | some rs =>
      rs.1 = none ∧ (∀ p, rs.2.store p = exSetup.2.store p) ∧
        rs.2.nextPid = exSetup.2.nextPid) :=
  ⟨by decide, c10_remove_missing_key exHash 0 0 exSetup.1 exSetup.2 5 (by decide)⟩

/-- C6: every successful hash-index insert from a well-formed state —
including the split path — preserves the directory invariant: in the
resulting state, every live `(k, v)` of the bucket at slot `i` satisfies
`hash k % 2^local_depth(i) = i % 2^local_depth(i)`; no dead slot's content
becomes live (every live entry of the result was live before or is the
inserted pair); and the rehash loop of the split moves exactly the live
entries of the old (full) bucket whose hash has bit `L-1` equal to 0 into
the new bucket, the old bucket retaining exactly those with bit `L-1`
equal to 1. -/
theorem c6_insert_preserves_directory_invariant
    {K V : Type} [DecidableEq K] (hash : K → Nat) (numEntries : Nat)
    (dK : K) (dV : V) (dirPid fuel : Nat) (s s' : HState K V)
    (key : K) (value : V)
    (hwf : ExtendibleHashing.WF hash dirPid s)
    (hins : ExtendibleHashing.insert_with_lock hash numEntries dK dV dirPid
      fuel s key value = some s') :
    (ExtendibleHashing.DirInv hash dirPid s' ∧
      (∀ e, ExtendibleHashing.inLiveSet s' e →
        ExtendibleHashing.inLiveSet s e ∨ e = (key, value))) ∧
    (∀ (L : Nat) (b nw b2 nw2 : HashBucketPage K V),
      b.is_full = true →
      b.readable.length = b.key_values.length →
      nw.live = [] →
      ExtendibleHashing.rehashLoop hash dK dV L b.key_values.length 0 b nw =
        some (b2, nw2) →
      (∀ e, e ∈ b2.live ↔
        (e ∈ b.live ∧ (hash e.1 >>> (L - 1)) &&& 1 = 1)) ∧
      (∀ e, e ∈ nw2.live ↔
        (e ∈ b.live ∧ (hash e.1 >>> (L - 1)) &&& 1 = 0))) := by
  constructor
  · obtain ⟨hwf', hcont, _, _, _⟩ :=
      ExtendibleHashing.insert_with_lock_wf hash numEntries dK dV dirPid fuel
        s key value s' hwf hins
    exact ⟨ExtendibleHashing.dirInv_of_wf hwf', hcont⟩
  · intro L b nw b2 nw2 hfull hlen hnwnil hre
    have hsuf : ∀ j, 0 ≤ j → j < b.key_values.length →
        b.readable.get? j = some true := by
      intro j _ hj
      rcases hg : b.readable.get? j with _ | r
      · exact absurd (List.get?_eq_none.mp hg) (by omega)
      · rw [HashBucketPage.is_full_readable hfull hg]
    obtain ⟨hold2, hnw2m, _, _⟩ :=
      ExtendibleHashing.rehash_full_spec hash dK dV L hre hfull hlen
    obtain ⟨_, _, _, h4, _⟩ :=
      ExtendibleHashing.rehashLoop_spec hash dK dV L b.key_values.length 0
        b nw b2 nw2 hre (by omega) hlen hsuf
    obtain ⟨_, hmoved⟩ :=
      ExtendibleHashing.rehashLoop_moved hash dK dV L b.key_values.length 0
        b nw b2 nw2 hre (by omega) hsuf
    constructor
    · intro e
      constructor
      · exact hold2 e
      · rintro ⟨he, hbit⟩
        obtain ⟨j, hr, hkv⟩ := (HashBucketPage.mem_live_iff b e).mp he
        have hjlen : j < b.key_values.length := (List.get?_eq_some.mp hkv).1
        have h4j := h4 j (by omega) hjlen e hkv
        rw [if_neg (by rw [hbit]; omega)] at h4j
        exact (HashBucketPage.mem_live_iff b2 e).mpr ⟨j, h4j.1, h4j.2⟩
    · intro e
      constructor
      · intro he
        rcases hnw2m e he with he2 | he2
        · rw [hnwnil] at he2
          cases he2
        · exact he2
      · rintro ⟨he, hbit⟩
        obtain ⟨j, hr, hkv⟩ := (HashBucketPage.mem_live_iff b e).mp he
        have hjlen : j < b.key_values.length := (List.get?_eq_some.mp hkv).1
        exact hmoved j (by omega) hjlen e hkv hbit

/-- Witness for C6: the fresh two-slot hash map is well-formed, and
inserting `(5, 7)` preserves the directory invariant with no resurrected
entries. -/
theorem c6_insert_preserves_directory_invariant_witness :
    ExtendibleHashing.WF exHash exSetup.1 exSetup.2 ∧
    ((ExtendibleHashing.DirInv exHash exSetup.1 c6State ∧
      (∀ e, ExtendibleHashing.inLiveSet c6State e →
        ExtendibleHashing.inLiveSet exSetup.2 e ∨ e = (5, 7))) ∧
    (∀ (L : Nat) (b nw b2 nw2 : HashBucketPage Nat Nat),
      b.is_full = true →
      b.readable.length = b.key_values.length →
      nw.live = [] →
      ExtendibleHashing.rehashLoop exHash 0 0 L b.key_values.length 0 b nw =
        some (b2, nw2) →
      (∀ e, e ∈ b2.live ↔
        (e ∈ b.live ∧ (exHash e.1 >>> (L - 1)) &&& 1 = 1)) ∧
      (∀ e, e ∈ nw2.live ↔
        (e ∈ b.live ∧ (exHash e.1 >>> (L - 1)) &&& 1 = 0)))) :=
  ⟨ExtendibleHashing.exSetup_wf,
    c6_insert_preserves_directory_invariant exHash 2 0 0 exSetup.1 2
      exSetup.2 c6State 5 7 ExtendibleHashing.exSetup_wf (by rfl)⟩

end DBMS
